import Mathlib

/-!
# caf-network-measurements: loss tracker, interval statistics and client pacing

A shallow embedding of the four measurement programs
(`actors.cpp`, `brokers.cpp`, `tcp_brokers.cpp`, `udp_brokers.cpp`).

Conventions of the embedding.

* `uint32_t` and `uint64_t` fields are natural numbers; every C++ operation
  that can leave the range is followed by an explicit `% UINT32` or
  `% UINT64`, exactly where the C++ conversion or wrap-around happens.
* Every message handler (a lambda of the returned `behavior`) is a function
  from the actor state to the new state, paired with the list of effects the
  handler performs on the runtime (messages sent to itself, timers armed,
  packets handed to the transport, lines printed), in source order.
* The binary (de)serialiser and the transport are collaborators outside the
  programs: an inbound data message is given by the length of its buffer and
  by the pair `(payload, seq)` that `binary_deserializer` extracts from it.
-/

namespace Caf

/-- Number of values of a `uint32_t`. -/
abbrev UINT32 : Nat := 4294967296

/-- Number of values of a `uint64_t` (and of `size_t`). -/
abbrev UINT64 : Nat := 18446744073709551616

/-- What a handler does to the runtime besides changing the actor state. -/
inductive Effect where
  -- self->delayed_send(self, interval, reset_atom::value)
  | delayed_send_reset
  -- self->delayed_send(self, timeout, ping_atom::value)
  | delayed_send_ping
  -- self->send(self, ping_atom::value)
  | send_ping
  -- self->send(srv, start_atom::value, packets)      (actors.cpp client)
  | send_start (packets : Nat)
  -- the handler returns start_atom::value to the sender (actors.cpp server)
  | reply_start
  -- bs(start_atom::value); self->flush(hdl)          (tcp_brokers.cpp server)
  | write_start (hdl : Nat)
  -- self->configure_read(hdl, ...)
  | configure_read (hdl : Nat)
  -- self->ack_writes(servant, true)
  | ack_writes
  -- a data packet carrying seq is serialised and handed to the transport
  | send_data (seq : Nat)
  -- the interval report: the counters the printed line is computed from
  | report (received lost bytes : Nat)
  -- the client line "Sent <count> packets/s"
  | print_sent (count : Nat)
  -- a line written to aout or cerr that carries no counter
  | print (line : String)
  -- self->quit()
  | quit
  -- an integer division by zero: the process is killed and handles nothing more
  | division_by_zero
  deriving DecidableEq, Repr

/-- An inbound data message of a broker: `msg.buf.size()` and the pair that
`bd(s.payload, seq)` decodes from `msg.buf`. -/
structure data_msg where
  buf_size : Nat
  payload : List Char
  seq : Nat
  deriving DecidableEq, Repr

/-! ## actors.cpp : server -/

namespace Actors

/-- Source: `constexpr size_t message_overhead = 82 - 2 - 4 - 8;` -/
def message_overhead : Nat := 82 - 2 - 4 - 8

/-- Source: `struct statistics` of actors.cpp. -/
structure statistics where
  packets_per_interval : Nat
  bytes : Nat
  received : Nat
  lost : Nat
  next : Nat
  deriving DecidableEq, Repr

/-- The value-initialised state of a `stateful_actor<statistics>`. -/
def statistics.zero : statistics :=
  { packets_per_interval := 0, bytes := 0, received := 0, lost := 0, next := 0 }

/-- The data handler of `measureing_server`:
`[=](const vector<char>& payload, uint32_t seq, caf::timestamp&)`.
`payload_size` is `payload.size()`. -/
def measureing_server_data (s : statistics) (payload_size seq : Nat) : statistics :=
  -- ++s.received;
  let s := { s with received := (s.received + 1) % UINT64 }
  -- s.bytes += payload.size() + message_overhead;
  let s := { s with bytes := (s.bytes + (payload_size + message_overhead) % UINT64) % UINT64 }
  if seq = s.next then
    -- ++s.next;
    { s with next := (s.next + 1) % UINT32 }
  else if seq > s.next then
    -- s.lost += (seq - s.next);
    let s := { s with lost := (s.lost + (seq - s.next) % UINT32) % UINT32 }
    -- s.next = seq + 1;
    { s with next := (seq + 1) % UINT32 }
  else
    -- --s.lost;
    { s with lost := (s.lost + UINT32 - 1) % UINT32 }

/-- The `reset_atom` handler of `measureing_server`. -/
def measureing_server_reset (s : statistics) : statistics × List Effect :=
  ({ s with received := 0, bytes := 0, lost := 0 },
   [Effect.delayed_send_reset, Effect.report s.received s.lost s.bytes])

/-- The `start_atom` handler of `idle_server` (without the `become`, which the
step function records). Note that `bytes` is cleared twice and `received` is
not cleared. -/
def idle_server_start (s : statistics) (num_packets : Nat) : statistics :=
  let s := { s with packets_per_interval := num_packets }
  let s := { s with bytes := 0 }
  let s := { s with lost := 0 }
  let s := { s with bytes := 0 }
  { s with next := 0 }

/-- The loss figure printed by the reset handler, `s.lost * 1.0 / s.received`,
as an exact rational. -/
def loss_fraction (s : statistics) : ℚ := (s.lost : ℚ) / (s.received : ℚ)

/-- The throughput figure printed by the reset handler,
`s.bytes / (1024.0 * 1024.0)`, as an exact rational. -/
def megabytes (s : statistics) : ℚ := (s.bytes : ℚ) / (1024 * 1024)

end Actors

/-! ## brokers.cpp : server -/

namespace Brokers

/-- Source: `constexpr size_t message_overhead = 10;` -/
def message_overhead : Nat := 10

/-- Source: `struct statistics` of brokers.cpp. -/
structure statistics where
  packets_per_interval : Nat
  bytes : Nat
  received : Nat
  lost : Nat
  next : Nat
  payload : List Char
  deriving DecidableEq, Repr

/-- The state after the initialisation at the top of `server`; `received` is
not assigned there and keeps its value-initialised 0. -/
def server_init : statistics × List Effect :=
  ({ packets_per_interval := 0, bytes := 0, received := 0, lost := 0, next := 0,
     payload := [] },
   [Effect.delayed_send_reset])

/-- The `new_datagram_msg` handler of `server`. `seq` is a `uint64_t`,
`s.next` and `s.lost` are `uint32_t`. -/
def server_new_datagram_msg (s : statistics) (msg : data_msg) : statistics :=
  -- ++s.received;
  let s := { s with received := (s.received + 1) % UINT64 }
  -- s.bytes += msg.buf.size();
  let s := { s with bytes := (s.bytes + msg.buf_size) % UINT64 }
  -- bd(s.payload, seq);
  let s := { s with payload := msg.payload }
  let seq := msg.seq
  if seq = s.next then
    -- ++s.next;
    { s with next := (s.next + 1) % UINT32 }
  else if seq > s.next then
    -- s.lost += (seq - s.next);   (computed in 64 bits, stored in 32)
    let s := { s with lost := ((s.lost + (seq - s.next)) % UINT64) % UINT32 }
    -- s.next = seq + 1;           (computed in 64 bits, stored in 32)
    { s with next := ((seq + 1) % UINT64) % UINT32 }
  else
    -- --s.lost;
    { s with lost := (s.lost + UINT32 - 1) % UINT32 }

/-- The `reset_atom` handler of `server`. -/
def server_reset (s : statistics) : statistics × List Effect :=
  ({ s with received := 0, bytes := 0, lost := 0 },
   [Effect.delayed_send_reset, Effect.report s.received s.lost s.bytes])

/-- Printed loss figure `s.lost * 1.0 / s.received` as an exact rational. -/
def loss_fraction (s : statistics) : ℚ := (s.lost : ℚ) / (s.received : ℚ)

/-- Printed throughput `s.bytes / (1024.0 * 1024.0)` as an exact rational. -/
def megabytes (s : statistics) : ℚ := (s.bytes : ℚ) / (1024 * 1024)

end Brokers

/-! ## udp_brokers.cpp : server -/

namespace UdpBrokers

/-- Source: `constexpr size_t message_overhead = 10;` -/
def message_overhead : Nat := 10

/-- Source: `struct statistics` of udp_brokers.cpp. -/
structure statistics where
  bytes : Nat
  received : Nat
  lost : Nat
  next : Nat
  payload : List Char
  deriving DecidableEq, Repr

/-- The state after the initialisation at the top of `server`; `received` is
not assigned there and keeps its value-initialised 0. -/
def server_init : statistics × List Effect :=
  ({ bytes := 0, received := 0, lost := 0, next := 0, payload := [] },
   [Effect.delayed_send_reset])

/-- The `new_datagram_msg` handler of `server`. -/
def server_new_datagram_msg (s : statistics) (msg : data_msg) : statistics :=
  -- ++s.received;
  let s := { s with received := (s.received + 1) % UINT64 }
  -- s.bytes += msg.buf.size();
  let s := { s with bytes := (s.bytes + msg.buf_size) % UINT64 }
  -- bd(s.payload, seq);
  let s := { s with payload := msg.payload }
  let seq := msg.seq
  if seq = s.next then
    { s with next := (s.next + 1) % UINT32 }
  else if seq > s.next then
    let s := { s with lost := ((s.lost + (seq - s.next)) % UINT64) % UINT32 }
    { s with next := ((seq + 1) % UINT64) % UINT32 }
  else
    { s with lost := (s.lost + UINT32 - 1) % UINT32 }

/-- The `reset_atom` handler of `server`. -/
def server_reset (s : statistics) : statistics × List Effect :=
  ({ s with received := 0, bytes := 0, lost := 0 },
   [Effect.delayed_send_reset, Effect.report s.received s.lost s.bytes])

/-- Printed loss figure `s.lost * 1.0 / s.received` as an exact rational. -/
def loss_fraction (s : statistics) : ℚ := (s.lost : ℚ) / (s.received : ℚ)

/-- Printed throughput `s.bytes * 8 / (1024.0 * 1024.0)` (Mbit) as an exact
rational; the product `s.bytes * 8` is a `uint64_t`. -/
def megabits (s : statistics) : ℚ := (((s.bytes * 8) % UINT64 : Nat) : ℚ) / (1024 * 1024)

end UdpBrokers

/-! ## tcp_brokers.cpp : server -/

namespace TcpBrokers

/-- Source: `constexpr uint32_t message_overhead = 10;` -/
def message_overhead : Nat := 10

/-- Source: `struct s_state` of tcp_brokers.cpp. -/
structure s_state where
  packets_per_interval : Nat
  bytes : Nat
  received : Nat
  lost : Nat
  next : Nat
  payload : List Char
  reporting : Bool
  deriving DecidableEq, Repr

/-- The state after the initialisation at the top of `server`; `received` is
not assigned there and keeps its value-initialised 0. -/
def server_init : s_state × List Effect :=
  ({ packets_per_interval := 0, bytes := 0, received := 0, lost := 0, next := 0,
     payload := [], reporting := false },
   [Effect.print "Server running, waiting for clients!"])

/-- The `new_connection_msg` handler of `server`; `hdl` is `msg.handle`. -/
def server_new_connection_msg (s : s_state) (hdl : Nat) : s_state × List Effect :=
  if s.reporting = true then
    (s, [Effect.print "No support for multiple enpoints."])
  else
    ({ s with reporting := true },
     [Effect.print "New client, let's start reporting.",
      Effect.delayed_send_reset,
      Effect.configure_read hdl,
      Effect.write_start hdl])

/-- The `connection_closed_msg` handler of `server`; the handler does not look
at the handle of the closed connection (`hdl` is unused, as in the source). -/
def server_connection_closed_msg (s : s_state) (_hdl : Nat) : s_state × List Effect :=
  ({ s with reporting := false }, [Effect.print "Client lost."])

/-- The `new_data_msg` handler of `server`. -/
def server_new_data_msg (s : s_state) (msg : data_msg) : s_state :=
  -- ++s.received;
  let s := { s with received := (s.received + 1) % UINT64 }
  -- s.bytes += msg.buf.size();
  let s := { s with bytes := (s.bytes + msg.buf_size) % UINT64 }
  -- bd(s.payload, seq);
  let s := { s with payload := msg.payload }
  let seq := msg.seq
  if seq = s.next then
    { s with next := (s.next + 1) % UINT32 }
  else if seq > s.next then
    let s := { s with lost := ((s.lost + (seq - s.next)) % UINT64) % UINT32 }
    { s with next := ((seq + 1) % UINT64) % UINT32 }
  else
    { s with lost := (s.lost + UINT32 - 1) % UINT32 }

/-- The `reset_atom` handler of `server`. -/
def server_reset (s : s_state) : s_state × List Effect :=
  let out :=
    if s.reporting then
      [Effect.delayed_send_reset, Effect.report s.received s.lost s.bytes]
    else
      [Effect.print "Waiting for new client ... "]
  ({ s with received := 0, bytes := 0, lost := 0 }, out)

/-- Printed loss figure `s.lost * 1.0 / s.received` as an exact rational. -/
def loss_fraction (s : s_state) : ℚ := (s.lost : ℚ) / (s.received : ℚ)

/-- Printed throughput `s.bytes * 8 / (1024.0 * 1024.0)` (Mbit) as an exact
rational; the product `s.bytes * 8` is a `uint64_t`. -/
def megabits (s : s_state) : ℚ := (((s.bytes * 8) % UINT64 : Nat) : ℚ) / (1024 * 1024)

end TcpBrokers

/-! ## Running a behaviour over a queue of inbound events -/

/-- An actor whose log holds `self->quit()` or a fatal division has stopped. -/
abbrev stopped (log : List Effect) : Prop :=
  Effect.quit ∈ log ∨ Effect.division_by_zero ∈ log

/-- Handle the events of `es` one after the other, appending the effects of
each handler to the log. An actor that has called `self->quit()`, or whose
process was killed, handles nothing more. -/
def run_with {σ ε : Type} (step : σ → ε → σ × List Effect) :
    σ × List Effect → List ε → σ × List Effect
  | acc, [] => acc
  | (s, log), e :: es =>
    if stopped log then (s, log)
    else
      let r := step s e
      run_with step (r.1, log ++ r.2) es

/-- The sequence numbers of the data packets in an effect log, in emission order. -/
def emitted : List Effect → List Nat
  | [] => []
  | Effect.send_data seq :: rest => seq :: emitted rest
  | _ :: rest => emitted rest

/-- The number of reset timers armed in an effect log. -/
def armed_resets (log : List Effect) : Nat := log.count Effect.delayed_send_reset

/-- The number of `ping_atom` messages an effect log sends to the actor itself. -/
def pings_sent (log : List Effect) : Nat :=
  log.count Effect.send_ping + log.count Effect.delayed_send_ping

/-- The loop `for (uint32_t i = 0; i < (2 * bundle); ++i) self->send(self, ping_atom::value);`
where `2 * bundle` is a `uint32_t` product. -/
def ping_burst (bundle : Nat) : List Effect :=
  List.replicate ((2 * bundle) % UINT32) Effect.send_ping

/-! ## Servers as event handlers -/

namespace Actors

/-- The behaviour a `stateful_actor<statistics>` currently runs. -/
inductive server_behavior where
  | idle
  | measureing
  deriving DecidableEq, Repr

/-- Inbound events of the actors.cpp server. `timeout` is the firing of
`after(chrono::seconds(5))`. -/
inductive server_event where
  | start (num_packets : Nat)
  | data (payload_size seq : Nat)
  | reset
  | shutdown
  | timeout
  deriving DecidableEq, Repr

/-- The server actor: its behaviour and its `statistics`. -/
structure server_actor where
  beh : server_behavior
  state : statistics
  deriving DecidableEq, Repr

/-- The server as spawned by `caf_main`: `idle_server` on a value-initialised state. -/
def server_spawn : server_actor × List Effect :=
  ({ beh := server_behavior.idle, state := statistics.zero }, [])

/-- Dispatch of one event on the current behaviour. A message no handler of
the current behaviour matches is dropped by the default handler. Entering
`measureing_server` runs its first line, which arms the reset timer. -/
def server_step (a : server_actor) : server_event → server_actor × List Effect
  | server_event.start n =>
    match a.beh with
    | server_behavior.idle =>
      ({ beh := server_behavior.measureing, state := idle_server_start a.state n },
       [Effect.delayed_send_reset, Effect.reply_start])
    | server_behavior.measureing => (a, [])
  | server_event.data sz seq =>
    match a.beh with
    | server_behavior.idle => (a, [])
    | server_behavior.measureing =>
      ({ a with state := measureing_server_data a.state sz seq }, [])
  | server_event.reset =>
    match a.beh with
    | server_behavior.idle => (a, [])
    | server_behavior.measureing =>
      let r := measureing_server_reset a.state
      ({ a with state := r.1 }, r.2)
  | server_event.shutdown => (a, [Effect.quit])
  | server_event.timeout =>
    match a.beh with
    | server_behavior.idle => (a, [])
    | server_behavior.measureing => ({ a with beh := server_behavior.idle }, [])

end Actors

namespace Brokers

/-- Inbound events of the brokers.cpp server. -/
inductive server_event where
  | new_datagram (msg : data_msg)
  | reset
  | shutdown
  deriving DecidableEq, Repr

/-- Dispatch of one event on the behaviour returned by `server`. -/
def server_step (s : statistics) : server_event → statistics × List Effect
  | server_event.new_datagram msg => (server_new_datagram_msg s msg, [])
  | server_event.reset => server_reset s
  | server_event.shutdown => (s, [Effect.quit])

end Brokers

namespace UdpBrokers

/-- Inbound events of the udp_brokers.cpp server. -/
inductive server_event where
  | new_datagram (msg : data_msg)
  | reset
  | shutdown
  deriving DecidableEq, Repr

/-- Dispatch of one event on the behaviour returned by `server`. -/
def server_step (s : statistics) : server_event → statistics × List Effect
  | server_event.new_datagram msg => (server_new_datagram_msg s msg, [])
  | server_event.reset => server_reset s
  | server_event.shutdown => (s, [Effect.quit])

end UdpBrokers

namespace TcpBrokers

/-- Inbound events of the tcp_brokers.cpp server; `hdl` is the handle of the
connection the event belongs to. -/
inductive server_event where
  | new_connection (hdl : Nat)
  | connection_closed (hdl : Nat)
  | new_data (msg : data_msg)
  | reset
  | shutdown
  deriving DecidableEq, Repr

/-- Dispatch of one event on the behaviour returned by `server`. -/
def server_step (s : s_state) : server_event → s_state × List Effect
  | server_event.new_connection hdl => server_new_connection_msg s hdl
  | server_event.connection_closed hdl => server_connection_closed_msg s hdl
  | server_event.new_data msg => (server_new_data_msg s msg, [])
  | server_event.reset => server_reset s
  | server_event.shutdown => (s, [Effect.quit])

end TcpBrokers

/-! ## Clients -/

namespace Actors

/-- Source: `struct c_state` of actors.cpp (`srv`, `payload` and `timeout` are
kept by the runtime and do not enter any guard). -/
structure c_state where
  count : Nat
  seq : Nat
  packets : Nat
  bundle : Nat
  deriving DecidableEq, Repr

/-- The behaviour a `stateful_actor<c_state>` currently runs. -/
inductive client_behavior where
  | handshake
  | sending
  deriving DecidableEq, Repr

/-- Inbound events of the actors.cpp client. -/
inductive client_event where
  | start
  | ping
  | reset
  | shutdown
  deriving DecidableEq, Repr

/-- The client actor: its behaviour and its `c_state`. -/
structure client_actor where
  beh : client_behavior
  state : c_state
  deriving DecidableEq, Repr

/-- The body of `handshake_client` up to the returned behaviour. -/
def handshake_client (packets bundle : Nat) : client_actor × List Effect :=
  ({ beh := client_behavior.handshake,
     state := { count := 0, seq := 0, packets := packets, bundle := bundle } },
   [Effect.send_start packets])

/-- The `ping_atom` handler of `sending_client`. -/
def sending_client_ping (s : c_state) : c_state × List Effect :=
  -- self->send(self, ping_atom::value);
  if s.count < s.packets then
    -- self->send(s.srv, s.payload, s.seq, caf::make_timestamp()); ++s.count; ++s.seq;
    ({ s with count := (s.count + 1) % UINT32, seq := (s.seq + 1) % UINT32 },
     [Effect.send_ping, Effect.send_data s.seq])
  else
    (s, [Effect.send_ping])

/-- The `reset_atom` handler of `sending_client`. -/
def sending_client_reset (s : c_state) : c_state × List Effect :=
  ({ s with count := 0 }, [Effect.delayed_send_reset])

/-- Dispatch of one event on the current behaviour. `handshake_client` only
handles `start_atom`; entering `sending_client` prints and arms both timers. -/
def client_step (a : client_actor) : client_event → client_actor × List Effect
  | client_event.start =>
    match a.beh with
    | client_behavior.handshake =>
      ({ a with beh := client_behavior.sending },
       [Effect.print "Sending packets/s", Effect.delayed_send_ping,
        Effect.delayed_send_reset])
    | client_behavior.sending => (a, [])
  | client_event.ping =>
    match a.beh with
    | client_behavior.handshake => (a, [])
    | client_behavior.sending =>
      let r := sending_client_ping a.state
      ({ a with state := r.1 }, r.2)
  | client_event.reset =>
    match a.beh with
    | client_behavior.handshake => (a, [])
    | client_behavior.sending =>
      let r := sending_client_reset a.state
      ({ a with state := r.1 }, r.2)
  | client_event.shutdown =>
    match a.beh with
    | client_behavior.handshake => (a, [])
    | client_behavior.sending => (a, [Effect.quit])

end Actors

namespace Brokers

/-- Source: `struct c_state` of brokers.cpp (`payload`, `timeout` and `servant`
do not enter any guard). -/
structure c_state where
  count : Nat
  seq : Nat
  packets : Nat
  bundle : Nat
  deriving DecidableEq, Repr

/-- Inbound events of the brokers.cpp client. -/
inductive client_event where
  | ping
  | datagram_sent
  | reset
  | shutdown
  deriving DecidableEq, Repr

/-- The body of `client` up to the returned behaviour. After the state is
initialised the body computes `s.timeout = caf::duration{one / packets / 3}`,
an integer division by `packets`: with `packets == 0` the process is killed
there, before any timer is armed. -/
def client (packets bundle : Nat) : c_state × List Effect :=
  if packets = 0 then
    ({ count := 0, seq := 0, packets := packets, bundle := bundle },
     [Effect.division_by_zero])
  else
    ({ count := 0, seq := 0, packets := packets, bundle := bundle },
     [Effect.delayed_send_ping, Effect.delayed_send_reset, Effect.ack_writes])

/-- The `ping_atom` handler of `client`. -/
def client_ping (s : c_state) : c_state × List Effect :=
  if s.count < s.packets then
    -- bs(s.payload, s.seq); self->flush(s.servant); ++s.count; ++s.seq;
    ({ s with count := (s.count + 1) % UINT32, seq := (s.seq + 1) % UINT64 },
     [Effect.send_data s.seq])
  else
    (s, [])

/-- The `datagram_sent_msg` handler of `client`. -/
def client_datagram_sent_msg (s : c_state) : c_state × List Effect :=
  if s.count < s.packets then
    ({ s with count := (s.count + 1) % UINT32, seq := (s.seq + 1) % UINT64 },
     [Effect.send_data s.seq])
  else
    (s, [])

/-- The `reset_atom` handler of `client`. -/
def client_reset (s : c_state) : c_state × List Effect :=
  ({ s with count := 0 },
   [Effect.delayed_send_reset, Effect.print_sent s.count, Effect.send_ping])

/-- Dispatch of one event on the behaviour returned by `client`. -/
def client_step (s : c_state) : client_event → c_state × List Effect
  | client_event.ping => client_ping s
  | client_event.datagram_sent => client_datagram_sent_msg s
  | client_event.reset => client_reset s
  | client_event.shutdown => (s, [Effect.quit])

end Brokers

namespace TcpBrokers

/-- Source: `struct c_state` of tcp_brokers.cpp (`payload` does not enter any
guard). `tmp` counts the completions held back for the next bundle. -/
structure c_state where
  count : Nat
  seq : Nat
  packets : Nat
  tmp : Nat
  bundle : Nat
  servant : Nat
  deriving DecidableEq, Repr

/-- Inbound events of the tcp_brokers.cpp client. -/
inductive client_event where
  | new_data (hdl : Nat)
  | ping
  | data_transferred (hdl : Nat)
  | reset
  | shutdown
  deriving DecidableEq, Repr

/-- The body of `client` up to the returned behaviour, when `add_tcp_scribe`
succeeds with handle `hdl`. `tmp` and `servant` are not assigned there and
keep their value-initialised 0. -/
def client (hdl packets bundle : Nat) : c_state × List Effect :=
  ({ count := 0, seq := 0, packets := packets, tmp := 0, bundle := bundle, servant := 0 },
   [Effect.configure_read hdl])

/-- The `new_data_msg` handler of `client` (the server's start handshake). -/
def client_new_data_msg (s : c_state) (hdl : Nat) : c_state × List Effect :=
  ({ s with servant := hdl },
   [Effect.print "Response from server, starting to send", Effect.delayed_send_reset]
     ++ ping_burst s.bundle ++ [Effect.ack_writes])

/-- The `ping_atom` handler of `client`. -/
def client_ping (s : c_state) : c_state × List Effect :=
  if s.count < s.packets then
    -- bs(s.payload, s.seq); self->flush(s.servant); ++s.count; ++s.seq;
    ({ s with count := (s.count + 1) % UINT32, seq := (s.seq + 1) % UINT64 },
     [Effect.send_data s.seq])
  else
    (s, [])

/-- The loop `while (s.count < s.packets && s.tmp > 0) { ...; ++s.count; ++s.seq; --s.tmp; }`
of the `data_transferred_msg` handler, run for at most `fuel` iterations. -/
def drain : Nat → c_state → c_state × List Effect
  | 0, s => (s, [])
  | fuel + 1, s =>
    if s.count < s.packets ∧ s.tmp > 0 then
      let s1 := { s with count := (s.count + 1) % UINT32, seq := (s.seq + 1) % UINT64,
                         tmp := (s.tmp + UINT32 - 1) % UINT32 }
      let r := drain fuel s1
      (r.1, Effect.send_data s.seq :: r.2)
    else
      (s, [])

/-- The `data_transferred_msg` handler of `client`. Every iteration of the
loop decrements `tmp`, so `tmp` iterations are all the loop can make. -/
def client_data_transferred_msg (s : c_state) (_hdl : Nat) : c_state × List Effect :=
  -- ++s.tmp;
  let s := { s with tmp := (s.tmp + 1) % UINT32 }
  if s.tmp ≥ s.bundle then drain s.tmp s else (s, [])

/-- The `reset_atom` handler of `client`. -/
def client_reset (s : c_state) : c_state × List Effect :=
  ({ s with count := 0 },
   [Effect.delayed_send_reset, Effect.print_sent s.count] ++ ping_burst s.bundle)

/-- Dispatch of one event on the behaviour returned by `client`. -/
def client_step (s : c_state) : client_event → c_state × List Effect
  | client_event.new_data hdl => client_new_data_msg s hdl
  | client_event.ping => client_ping s
  | client_event.data_transferred hdl => client_data_transferred_msg s hdl
  | client_event.reset => client_reset s
  | client_event.shutdown => (s, [Effect.quit])

end TcpBrokers

namespace UdpBrokers

/-- Source: `struct c_state` of udp_brokers.cpp. `cache` is the stack of send
buffers handed back by the transport, its top first. -/
structure c_state where
  count : Nat
  seq : Nat
  cache : List (List Char)
  deriving DecidableEq, Repr

/-- The arguments of `client` that its handlers capture. -/
structure client_args where
  packets : Nat
  bundle : Nat
  deriving DecidableEq, Repr

/-- Inbound events of the udp_brokers.cpp client; `buf` is `msg.buf`. -/
inductive client_event where
  | ping
  | datagram_sent (buf : List Char)
  | reset
  | servant_closed
  | shutdown
  deriving DecidableEq, Repr

/-- The body of `client` up to the returned behaviour, when
`add_udp_datagram_servant` succeeds. -/
def client (a : client_args) : c_state × List Effect :=
  ({ count := 0, seq := 0, cache := [] },
   ping_burst a.bundle ++ [Effect.delayed_send_reset, Effect.ack_writes])

/-- The `ping_atom` handler of `client`: both branches hand one datagram to
the transport, the second one reuses (and pops) the top buffer of the cache. -/
def client_ping (a : client_args) (s : c_state) : c_state × List Effect :=
  if s.count < a.packets then
    let s1 : c_state :=
      match s.cache with
      | [] => s
      | _ :: rest => { s with cache := rest }
    ({ s1 with count := (s1.count + 1) % UINT32, seq := (s1.seq + 1) % UINT64 },
     [Effect.send_data s.seq])
  else
    (s, [])

/-- The loop `while (s.count < packets && !s.cache.empty()) { ...; ++s.count; ++s.seq; s.cache.pop(); }`
of the `datagram_sent_msg` handler; every iteration pops one buffer. -/
def drain (a : client_args) (count seq : Nat) : List (List Char) → c_state × List Effect
  | [] => ({ count := count, seq := seq, cache := [] }, [])
  | buf :: rest =>
    if count < a.packets then
      let r := drain a ((count + 1) % UINT32) ((seq + 1) % UINT64) rest
      (r.1, Effect.send_data seq :: r.2)
    else
      ({ count := count, seq := seq, cache := buf :: rest }, [])

/-- The `datagram_sent_msg` handler of `client`. -/
def client_datagram_sent_msg (a : client_args) (s : c_state) (buf : List Char) :
    c_state × List Effect :=
  -- s.cache.emplace(move(msg.buf));
  let s := { s with cache := buf :: s.cache }
  if s.cache.length ≥ a.bundle then drain a s.count s.seq s.cache else (s, [])

/-- The `reset_atom` handler of `client`. -/
def client_reset (a : client_args) (s : c_state) : c_state × List Effect :=
  ({ s with count := 0 },
   [Effect.delayed_send_reset, Effect.print_sent s.count] ++ ping_burst a.bundle)

/-- Dispatch of one event on the behaviour returned by `client`. -/
def client_step (a : client_args) (s : c_state) : client_event → c_state × List Effect
  | client_event.ping => client_ping a s
  | client_event.datagram_sent buf => client_datagram_sent_msg a s buf
  | client_event.reset => client_reset a s
  | client_event.servant_closed => (s, [Effect.print "ERROR: datagram servant closed", Effect.quit])
  | client_event.shutdown => (s, [Effect.quit])

end UdpBrokers

/-! ## The loss tracker on the pair `(lost, next)` -/

/-- The branch structure common to the four data handlers, on the pair
`(lost, next)` of 32-bit fields. It is only used to carry proofs from one
variant to the others; `observe_actors` ... `observe_tcp` relate it to the
handlers. -/
def observe (t : Nat × Nat) (seq : Nat) : Nat × Nat :=
  if seq = t.2 then (t.1, (t.2 + 1) % UINT32)
  else if seq > t.2 then ((t.1 + (seq - t.2)) % UINT32, (seq + 1) % UINT32)
  else ((t.1 + UINT32 - 1) % UINT32, t.2)

/-- The sequence numbers below `next` that are not among the arrived ones. -/
def missing (next : Nat) (arrived : List Nat) : List Nat :=
  (List.range next).filter (fun q => decide (q ∉ arrived))

/-- A data message with sequence number `seq` in a buffer of `size` bytes. -/
def packet (size seq : Nat) : data_msg :=
  { buf_size := size, payload := [], seq := seq }

/-! ## Feeding a run of data packets to a server -/

/-- The actors.cpp data handler applied to a run of packets, each given as
`(payload.size(), seq)`. -/
def Actors.feed (s : Actors.statistics) (ps : List (Nat × Nat)) : Actors.statistics :=
  ps.foldl (fun s p => Actors.measureing_server_data s p.1 p.2) s

/-- The brokers.cpp data handler applied to a run of datagrams. -/
def Brokers.feed (s : Brokers.statistics) (ms : List data_msg) : Brokers.statistics :=
  ms.foldl Brokers.server_new_datagram_msg s

/-- The udp_brokers.cpp data handler applied to a run of datagrams. -/
def UdpBrokers.feed (s : UdpBrokers.statistics) (ms : List data_msg) : UdpBrokers.statistics :=
  ms.foldl UdpBrokers.server_new_datagram_msg s

/-- The tcp_brokers.cpp data handler applied to a run of data messages. -/
def TcpBrokers.feed (s : TcpBrokers.s_state) (ms : List data_msg) : TcpBrokers.s_state :=
  ms.foldl TcpBrokers.server_new_data_msg s

/-- The state of the actors.cpp server when it enters `measureing_server` for
the first time: `idle_server`s start handler on the value-initialised state. -/
def Actors.fresh (num_packets : Nat) : Actors.statistics :=
  Actors.idle_server_start Actors.statistics.zero num_packets

/-- The packets of an effect log are numbered 0, 1, 2, ... modulo `m` in
emission order, and `seq` is the number the next packet will carry. -/
def numbered (m seq : Nat) (log : List Effect) : Prop :=
  seq = (emitted log).length % m ∧
  emitted log = (List.range' 0 (emitted log).length).map (fun i => i % m)

/-! ## Clients run from their initial state -/

/-- The actors.cpp client from `handshake_client` on, over a queue of events. -/
def Actors.client_run (packets bundle : Nat) (es : List Actors.client_event) :
    Actors.client_actor × List Effect :=
  run_with Actors.client_step (Actors.handshake_client packets bundle) es

/-- The brokers.cpp client from `client` on, over a queue of events. -/
def Brokers.client_run (packets bundle : Nat) (es : List Brokers.client_event) :
    Brokers.c_state × List Effect :=
  run_with Brokers.client_step (Brokers.client packets bundle) es

/-- The tcp_brokers.cpp client from `client` on, over a queue of events. -/
def TcpBrokers.client_run (hdl packets bundle : Nat) (es : List TcpBrokers.client_event) :
    TcpBrokers.c_state × List Effect :=
  run_with TcpBrokers.client_step (TcpBrokers.client hdl packets bundle) es

/-- The udp_brokers.cpp client from `client` on, over a queue of events. -/
def UdpBrokers.client_run (a : UdpBrokers.client_args) (es : List UdpBrokers.client_event) :
    UdpBrokers.c_state × List Effect :=
  run_with (UdpBrokers.client_step a) (UdpBrokers.client a) es

/-! ## Counting the events of a queue -/

/-- The `ping_atom` events of a queue of the tcp_brokers.cpp client. -/
def TcpBrokers.pings (es : List TcpBrokers.client_event) : Nat :=
  es.count TcpBrokers.client_event.ping

/-- The `reset_atom` events of a queue of the tcp_brokers.cpp client. -/
def TcpBrokers.resets (es : List TcpBrokers.client_event) : Nat :=
  es.count TcpBrokers.client_event.reset

/-- The send completions (`data_transferred_msg`) of a queue. -/
def TcpBrokers.completions : List TcpBrokers.client_event → Nat
  | [] => 0
  | TcpBrokers.client_event.data_transferred _ :: es => TcpBrokers.completions es + 1
  | _ :: es => TcpBrokers.completions es

/-- The server responses (`new_data_msg`) of a queue; each one starts a burst
of pings. -/
def TcpBrokers.responses : List TcpBrokers.client_event → Nat
  | [] => 0
  | TcpBrokers.client_event.new_data _ :: es => TcpBrokers.responses es + 1
  | _ :: es => TcpBrokers.responses es

/-- The `ping_atom` events of a queue of the udp_brokers.cpp client. -/
def UdpBrokers.pings (es : List UdpBrokers.client_event) : Nat :=
  es.count UdpBrokers.client_event.ping

/-- The `reset_atom` events of a queue of the udp_brokers.cpp client. -/
def UdpBrokers.resets (es : List UdpBrokers.client_event) : Nat :=
  es.count UdpBrokers.client_event.reset

/-- The send completions (`datagram_sent_msg`) of a queue. -/
def UdpBrokers.completions : List UdpBrokers.client_event → Nat
  | [] => 0
  | UdpBrokers.client_event.datagram_sent _ :: es => UdpBrokers.completions es + 1
  | _ :: es => UdpBrokers.completions es

/-- The sends issued minus the completions received, for a log of effects and
the queue of events that produced it. -/
def outstanding_sends (log : List Effect) (completions : Nat) : Int :=
  ((emitted log).length : Int) - (completions : Int)

/-! ## `caf_main` -/

/-- What `caf_main` does with a configuration. -/
inductive main_result where
  -- a line on cerr followed by return: nothing is spawned
  | rejected (line : String)
  -- the debug branch of actors.cpp: the message size is printed, nothing is spawned
  | debug_size
  -- a server is spawned (and published)
  | server_spawned
  -- the server could not be published or spawned
  | server_failed
  -- the client could not reach the server: nothing is spawned
  | unreachable
  -- a client is spawned with a payload of payload_len bytes
  | client_spawned (payload_len packets bundle : Nat)
  -- integer division by zero before a client runs: the process is killed
  | division_by_zero
  deriving DecidableEq, Repr

/-- The options of `class config` that `caf_main` reads in the three broker
programs, together with the two facts it learns from the runtime:
`middleman_enabled` is `system.config().middleman_enable_udp` (`..._tcp` in
tcp_brokers.cpp) and `spawn_ok` tells whether `spawn_server` succeeds. -/
structure broker_config where
  is_server : Bool
  rate : Nat
  bundle : Nat
  payload : Nat
  middleman_enabled : Bool
  spawn_ok : Bool
  deriving DecidableEq, Repr

/-- The function `caf_main` of brokers.cpp. The payload vector is built with
`cfg.payload - message_overhead` elements, a `size_t` difference. The body of
`client`, which `spawn_broker` runs, divides by its argument `packets`, here
`cfg.rate`: with rate 0 the process is killed and no client runs. -/
def Brokers.caf_main (cfg : broker_config) : main_result :=
  if ¬ cfg.middleman_enabled then main_result.rejected "please enable UDP in CAF"
  else if cfg.is_server then main_result.server_spawned
  else if cfg.payload < Brokers.message_overhead then
    main_result.rejected "Payload needs to be at least 10 bytes"
  else if cfg.rate = 0 then main_result.division_by_zero
  else
    main_result.client_spawned ((cfg.payload + UINT64 - Brokers.message_overhead) % UINT64)
      cfg.rate cfg.bundle

/-- The function `caf_main` of udp_brokers.cpp. -/
def UdpBrokers.caf_main (cfg : broker_config) : main_result :=
  if ¬ cfg.middleman_enabled then main_result.rejected "please enable UDP in CAF"
  else if cfg.is_server then main_result.server_spawned
  else if cfg.payload < UdpBrokers.message_overhead then
    main_result.rejected "Payload needs to be at least 10 bytes"
  else
    main_result.client_spawned ((cfg.payload + UINT64 - UdpBrokers.message_overhead) % UINT64)
      cfg.rate cfg.bundle

/-- The function `caf_main` of tcp_brokers.cpp. The payload length is the
`uint32_t` difference `cfg.payload - message_overhead`. -/
def TcpBrokers.caf_main (cfg : broker_config) : main_result :=
  if ¬ cfg.middleman_enabled then main_result.rejected "Please enable TCP in CAF."
  else if cfg.is_server then
    (if cfg.spawn_ok then main_result.server_spawned else main_result.server_failed)
  else if cfg.payload < TcpBrokers.message_overhead then
    main_result.rejected "Payload needs to be at least 10 bytes."
  else
    main_result.client_spawned ((cfg.payload + UINT32 - TcpBrokers.message_overhead) % UINT32)
      cfg.rate cfg.bundle

/-- The options of `class config` that `caf_main` reads in actors.cpp,
together with what it learns from the runtime: `publish_ok` tells whether the
server could be published, `reachable` whether `remote_actor` found the
server. -/
structure Actors.config where
  server : Bool
  rate : Nat
  payload : Nat
  bundle : Nat
  debug : Bool
  publish_ok : Bool
  reachable : Bool
  deriving DecidableEq, Repr

/-- The default configuration of actors.cpp: `payload = 1024 - message_overhead`. -/
def Actors.default_config : Actors.config :=
  { server := false, rate := 1000, payload := 1024 - Actors.message_overhead, bundle := 10,
    debug := false, publish_ok := true, reachable := true }

/-- The function `caf_main` of actors.cpp. The payload vector has `cfg.payload`
elements; no comparison with `message_overhead` is made. The ping delay
`(one * cfg.bundle / cfg.rate) / 2` divides by `cfg.rate`. -/
def Actors.caf_main (cfg : Actors.config) : main_result :=
  if cfg.debug then main_result.debug_size
  else if cfg.server then
    (if cfg.publish_ok then main_result.server_spawned else main_result.server_failed)
  else if ¬ cfg.reachable then main_result.unreachable
  else if cfg.rate = 0 then main_result.division_by_zero
  else main_result.client_spawned cfg.payload cfg.rate cfg.bundle

/-! ## The actors.cpp server under a simulated clock -/

namespace Actors

/-- Source: `constexpr auto interval = std::chrono::seconds(1);`, in seconds. -/
def interval : Nat := 1

/-- The duration of `after(chrono::seconds(5))` in `measureing_server`, in seconds. -/
def idle_timeout : Nat := 5

/-- The server together with the clock and the timers of the runtime: `now`
is the simulated time in seconds, `resets` holds the due times of the
`reset_atom` messages sent with `delayed_send` and not yet delivered (oldest
first), and `deadline` is the time at which the `after` clause of the
current behaviour fires if no message is handled before. -/
structure sim where
  actor : server_actor
  now : Nat
  resets : List Nat
  deadline : Option Nat
  deriving DecidableEq, Repr

/-- The receive timeout the runtime requests for a behaviour at time `t`:
`measureing_server` has an `after` clause, `idle_server` has none. -/
def request_timeout (b : server_behavior) (t : Nat) : Option Nat :=
  match b with
  | server_behavior.idle => none
  | server_behavior.measureing => some (t + idle_timeout)

/-- The server handles the message `e` at time `t`. Every `delayed_send` of
the handler becomes a reset due one interval later, and the runtime requests
the receive timeout of the resulting behaviour anew: a timeout only fires
when no message has been handled for its whole duration. -/
def sim_deliver (c : sim) (t : Nat) (e : server_event) : sim :=
  let r := server_step c.actor e
  { actor := r.1, now := t,
    resets := c.resets ++ List.replicate (armed_resets r.2) (t + interval),
    deadline := request_timeout r.1.beh t }

/-- The `after` clause fires at time `t`. -/
def sim_timeout (c : sim) (t : Nat) : sim :=
  let r := server_step c.actor server_event.timeout
  { actor := r.1, now := t,
    resets := c.resets ++ List.replicate (armed_resets r.2) (t + interval),
    deadline := request_timeout r.1.beh t }

/-- The next thing that happens when nothing arrives from outside (no data
packet, no start, no shutdown): the oldest pending reset is delivered when it
is due, unless the receive timeout expires first; with nothing pending the
server stays as it is. -/
def sim_next (c : sim) : sim :=
  match c.resets, c.deadline with
  | r :: rest, some d =>
    if r ≤ d then sim_deliver { c with resets := rest } r server_event.reset
    else sim_timeout c d
  | r :: rest, none => sim_deliver { c with resets := rest } r server_event.reset
  | [], some d => sim_timeout c d
  | [], none => c

/-- The simulation advanced by `k` self-generated events. -/
def sim_run : Nat → sim → sim
  | 0, c => c
  | k + 1, c => sim_run k (sim_next c)

/-- The server as spawned, at time `t`. -/
def sim_spawn (t : Nat) : sim :=
  { actor := server_spawn.1, now := t, resets := [], deadline := none }

/-- The server that has just entered Measuring at time `t`: the start message
of a client that announces `num_packets` is handled by the idle server. -/
def sim_measuring (t num_packets : Nat) : sim :=
  sim_deliver (sim_spawn t) t (server_event.start num_packets)

end Actors

/-- The number of packets one send completion releases when `c` credits are
already held: with the new credit the pool holds `c + 1`; below `bundle`
nothing is sent, otherwise as many packets as credits and the rest
`packets - count` of the interval budget allow. -/
def released (c bundle count packets : Nat) : Nat :=
  if bundle ≤ c + 1 then min (c + 1) (packets - count) else 0

/-! ## Pending reset timers -/

/-- Handle a queue of events while counting the reset timers in flight: `p`
timers are pending, a reset event delivers one of them (and cannot occur when
none is pending: the result is then `none`), and every `delayed_send` of a
handler adds one. An actor that has quit handles nothing more. -/
def pending_run {σ ε : Type} (step : σ → ε → σ × List Effect) (is_reset : ε → Bool) :
    σ × Nat → List ε → Option (σ × Nat)
  | c, [] => some c
  | (s, p), e :: es =>
    if is_reset e = true ∧ p = 0 then none
    else
      let r := step s e
      let p1 := p - (if is_reset e then 1 else 0) + armed_resets r.2
      if Effect.quit ∈ r.2 then some (r.1, p1)
      else pending_run step is_reset (r.1, p1) es

/-- The reset events of the actors.cpp server. -/
def Actors.is_reset : Actors.server_event → Bool
  | Actors.server_event.reset => true
  | _ => false

/-- The reset events of the brokers.cpp server. -/
def Brokers.is_reset : Brokers.server_event → Bool
  | Brokers.server_event.reset => true
  | _ => false

/-- The reset events of the udp_brokers.cpp server. -/
def UdpBrokers.is_reset : UdpBrokers.server_event → Bool
  | UdpBrokers.server_event.reset => true
  | _ => false

/-- The reset events of the tcp_brokers.cpp server. -/
def TcpBrokers.is_reset : TcpBrokers.server_event → Bool
  | TcpBrokers.server_event.reset => true
  | _ => false

/-- The interval reports in an effect log. -/
def reports : List Effect → Nat
  | [] => 0
  | Effect.report _ _ _ :: rest => reports rest + 1
  | _ :: rest => reports rest

/-! ## Fewer than 2^64 data packets between two resets -/

/-- A queue of events of the brokers.cpp server in which, `n` data packets
having been handled since the last reset, no run of data packets between two
resets reaches 2^64. -/
def Brokers.burst_ok : Nat → List Brokers.server_event → Bool
  | _, [] => true
  | n, Brokers.server_event.new_datagram _ :: es =>
    decide (n + 1 < UINT64) && Brokers.burst_ok (n + 1) es
  | _, Brokers.server_event.reset :: es => Brokers.burst_ok 0 es
  | _, Brokers.server_event.shutdown :: _ => true

/-- The same condition on a queue of events of the udp_brokers.cpp server. -/
def UdpBrokers.burst_ok : Nat → List UdpBrokers.server_event → Bool
  | _, [] => true
  | n, UdpBrokers.server_event.new_datagram _ :: es =>
    decide (n + 1 < UINT64) && UdpBrokers.burst_ok (n + 1) es
  | _, UdpBrokers.server_event.reset :: es => UdpBrokers.burst_ok 0 es
  | _, UdpBrokers.server_event.shutdown :: _ => true

/-- The same condition on a queue of events of the tcp_brokers.cpp server. -/
def TcpBrokers.burst_ok : Nat → List TcpBrokers.server_event → Bool
  | _, [] => true
  | n, TcpBrokers.server_event.new_data _ :: es =>
    decide (n + 1 < UINT64) && TcpBrokers.burst_ok (n + 1) es
  | _, TcpBrokers.server_event.reset :: es => TcpBrokers.burst_ok 0 es
  | _, TcpBrokers.server_event.shutdown :: _ => true
  | n, TcpBrokers.server_event.new_connection _ :: es => TcpBrokers.burst_ok n es
  | n, TcpBrokers.server_event.connection_closed _ :: es => TcpBrokers.burst_ok n es

/-- The same condition on a queue of events of the actors.cpp server, whose
data and reset handlers only exist while it measures: a data packet or a
reset that reaches the idle server is dropped and does not count. -/
def Actors.burst_ok : Nat → Actors.server_actor → List Actors.server_event → Bool
  | _, _, [] => true
  | n, a, e :: es =>
    match e, a.beh with
    | Actors.server_event.data _ _, Actors.server_behavior.measureing =>
      decide (n + 1 < UINT64) && Actors.burst_ok (n + 1) (Actors.server_step a e).1 es
    | Actors.server_event.reset, Actors.server_behavior.measureing =>
      Actors.burst_ok 0 (Actors.server_step a e).1 es
    | Actors.server_event.shutdown, _ => true
    | _, _ => Actors.burst_ok n (Actors.server_step a e).1 es

/-- Every interval report of an effect log that divides by `received == 0`
has the numerator `lost == 0`. -/
def zero_over_zero (log : List Effect) : Prop :=
  ∀ received lost bytes : Nat, Effect.report received lost bytes ∈ log → received = 0 → lost = 0

/-! ## The tcp_brokers.cpp server and its connections -/

namespace TcpBrokers

/-- What the runtime has for the server: a connection accepted by the
doorman, bytes that arrived on a connection, a connection closed by its peer,
the reset timer, a shutdown request. -/
inductive wire_event where
  | accept (hdl : Nat)
  | data (hdl : Nat) (msg : data_msg)
  | closed (hdl : Nat)
  | reset
  | shutdown
  deriving DecidableEq, Repr

/-- The message the server's behaviour gets for an event of the runtime. -/
def to_event : wire_event → server_event
  | wire_event.accept hdl => server_event.new_connection hdl
  | wire_event.data _ msg => server_event.new_data msg
  | wire_event.closed hdl => server_event.connection_closed hdl
  | wire_event.reset => server_event.reset
  | wire_event.shutdown => server_event.shutdown

/-- The connection an event happens on, for the events that happen on one. -/
def connection : wire_event → Option Nat
  | wire_event.data hdl _ => some hdl
  | wire_event.closed hdl => some hdl
  | _ => none

/-- One event of the runtime. The runtime puts a connection into its event
loop when the broker calls `configure_read` for its handle for the first
time; what happens on a connection the broker never configured (bytes
arriving, the peer closing) is not reported to the broker. Every other event
is handled by the behaviour. -/
def deliver (c : s_state × List Effect) (e : wire_event) : s_state × List Effect :=
  match connection e with
  | some hdl =>
    if Effect.configure_read hdl ∈ c.2 then
      ((server_step c.1 (to_event e)).1, c.2 ++ (server_step c.1 (to_event e)).2)
    else c
  | none => ((server_step c.1 (to_event e)).1, c.2 ++ (server_step c.1 (to_event e)).2)

/-- The server over a queue of events of the runtime; a server that has quit
handles nothing more. -/
def wire_run : s_state × List Effect → List wire_event → s_state × List Effect
  | c, [] => c
  | c, e :: es => if stopped c.2 then c else wire_run (deliver c e) es

/-- The events that belong to the connection `hdl`. -/
def of_peer (hdl : Nat) (e : wire_event) : Bool :=
  decide (connection e = some hdl)

/-- The reset events of a queue of events of the runtime. -/
def wire_resets (es : List wire_event) : Nat := es.count wire_event.reset

end TcpBrokers

end Caf

namespace Caf

/-! ## Helper lemmas: the handlers and the tracker -/

/-- Storing a 64-bit value in a 32-bit field. -/
theorem mod64_mod32 (x : Nat) : x % UINT64 % UINT32 = x % UINT32 :=
  Nat.mod_mod_of_dvd x (by decide)

theorem observe_actors (s : Actors.statistics) (sz seq : Nat) :
    ((Actors.measureing_server_data s sz seq).lost,
      (Actors.measureing_server_data s sz seq).next) = observe (s.lost, s.next) seq := by
  unfold Actors.measureing_server_data observe
  simp only []
  split_ifs <;> simp

theorem observe_brokers (s : Brokers.statistics) (msg : data_msg) :
    ((Brokers.server_new_datagram_msg s msg).lost,
      (Brokers.server_new_datagram_msg s msg).next) = observe (s.lost, s.next) msg.seq := by
  unfold Brokers.server_new_datagram_msg observe
  simp only []
  split_ifs <;> simp [mod64_mod32]

theorem observe_udp (s : UdpBrokers.statistics) (msg : data_msg) :
    ((UdpBrokers.server_new_datagram_msg s msg).lost,
      (UdpBrokers.server_new_datagram_msg s msg).next) = observe (s.lost, s.next) msg.seq := by
  unfold UdpBrokers.server_new_datagram_msg observe
  simp only []
  split_ifs <;> simp [mod64_mod32]

theorem observe_tcp (s : TcpBrokers.s_state) (msg : data_msg) :
    ((TcpBrokers.server_new_data_msg s msg).lost,
      (TcpBrokers.server_new_data_msg s msg).next) = observe (s.lost, s.next) msg.seq := by
  unfold TcpBrokers.server_new_data_msg observe
  simp only []
  split_ifs <;> simp [mod64_mod32]

/-- In range, the tracker advances exactly. -/
theorem observe_ge (lost next seq : Nat) (hge : next ≤ seq)
    (hseq : seq + 1 < UINT32) (hsum : lost + (seq - next) < UINT32) :
    observe (lost, next) seq = (lost + (seq - next), seq + 1) := by
  unfold observe
  simp only []
  split_ifs with h1 h2
  · subst h1; simp [Nat.mod_eq_of_lt hseq]
  · simp [Nat.mod_eq_of_lt hseq, Nat.mod_eq_of_lt hsum]
  · omega

/-- A late sequence number decrements the 32-bit loss counter. -/
theorem observe_lt (lost next seq : Nat) (hlt : seq < next) :
    observe (lost, next) seq = ((lost + UINT32 - 1) % UINT32, next) := by
  unfold observe
  simp only []
  split_ifs with h1 h2
  · omega
  · omega
  · rfl

/-! ## C1 -/

/-- C1 (as stated, refuted): the udp_brokers.cpp server in its initial state
receives the 8-byte sequence number 2^32, which is larger than `next = 0`; the
handler does not add `seq - next` to `lost` and does not set `next` to
`seq + 1`: it leaves `lost = 0` and sets `next = 1`. -/
theorem C1_counterexample :
    (packet 1024 4294967296).seq > UdpBrokers.server_init.1.next ∧
    (packet 1024 4294967296).seq < UINT64 ∧
    ¬ ((UdpBrokers.server_new_datagram_msg UdpBrokers.server_init.1
          (packet 1024 4294967296)).lost
        = UdpBrokers.server_init.1.lost
          + ((packet 1024 4294967296).seq - UdpBrokers.server_init.1.next)) ∧
    ¬ ((UdpBrokers.server_new_datagram_msg UdpBrokers.server_init.1
          (packet 1024 4294967296)).next = (packet 1024 4294967296).seq + 1) ∧
    (UdpBrokers.server_new_datagram_msg UdpBrokers.server_init.1
          (packet 1024 4294967296)).lost = 0 ∧
    (UdpBrokers.server_new_datagram_msg UdpBrokers.server_init.1
          (packet 1024 4294967296)).next = 1 := by
  decide

/-- C1 (amended): in every server variant, for every tracker state and every
arriving `seq >= next` for which `seq + 1` and `lost + (seq - next)` fit the
32-bit fields `next` and `lost`: if `seq == next` the data handler increments
`next` by one and leaves `lost` unchanged; if `seq > next` it adds
`seq - next` to `lost` and sets `next` to `seq + 1`. -/
theorem C1_tracker_advance (lost next seq : Nat) (hge : next ≤ seq)
    (hseq : seq + 1 < UINT32) (hsum : lost + (seq - next) < UINT32) :
    (∀ (s : Actors.statistics) (sz : Nat), s.lost = lost → s.next = next →
      (seq = next →
        (Actors.measureing_server_data s sz seq).next = next + 1 ∧
        (Actors.measureing_server_data s sz seq).lost = lost) ∧
      (seq > next →
        (Actors.measureing_server_data s sz seq).lost = lost + (seq - next) ∧
        (Actors.measureing_server_data s sz seq).next = seq + 1)) ∧
    (∀ (s : Brokers.statistics) (msg : data_msg), s.lost = lost → s.next = next →
      msg.seq = seq →
      (seq = next →
        (Brokers.server_new_datagram_msg s msg).next = next + 1 ∧
        (Brokers.server_new_datagram_msg s msg).lost = lost) ∧
      (seq > next →
        (Brokers.server_new_datagram_msg s msg).lost = lost + (seq - next) ∧
        (Brokers.server_new_datagram_msg s msg).next = seq + 1)) ∧
    (∀ (s : UdpBrokers.statistics) (msg : data_msg), s.lost = lost → s.next = next →
      msg.seq = seq →
      (seq = next →
        (UdpBrokers.server_new_datagram_msg s msg).next = next + 1 ∧
        (UdpBrokers.server_new_datagram_msg s msg).lost = lost) ∧
      (seq > next →
        (UdpBrokers.server_new_datagram_msg s msg).lost = lost + (seq - next) ∧
        (UdpBrokers.server_new_datagram_msg s msg).next = seq + 1)) ∧
    (∀ (s : TcpBrokers.s_state) (msg : data_msg), s.lost = lost → s.next = next →
      msg.seq = seq →
      (seq = next →
        (TcpBrokers.server_new_data_msg s msg).next = next + 1 ∧
        (TcpBrokers.server_new_data_msg s msg).lost = lost) ∧
      (seq > next →
        (TcpBrokers.server_new_data_msg s msg).lost = lost + (seq - next) ∧
        (TcpBrokers.server_new_data_msg s msg).next = seq + 1)) := by
  have key := observe_ge lost next seq hge hseq hsum
  refine ⟨?_, ?_, ?_, ?_⟩
  · intro s sz hl hn
    have h := observe_actors s sz seq
    rw [hl, hn, key] at h
    obtain ⟨h1, h2⟩ := Prod.mk.inj h
    refine ⟨fun e => ⟨by omega, by omega⟩, fun _ => ⟨h1, h2⟩⟩
  · intro s msg hl hn hm
    have h := observe_brokers s msg
    rw [hl, hn, hm, key] at h
    obtain ⟨h1, h2⟩ := Prod.mk.inj h
    refine ⟨fun e => ⟨by omega, by omega⟩, fun _ => ⟨h1, h2⟩⟩
  · intro s msg hl hn hm
    have h := observe_udp s msg
    rw [hl, hn, hm, key] at h
    obtain ⟨h1, h2⟩ := Prod.mk.inj h
    refine ⟨fun e => ⟨by omega, by omega⟩, fun _ => ⟨h1, h2⟩⟩
  · intro s msg hl hn hm
    have h := observe_tcp s msg
    rw [hl, hn, hm, key] at h
    obtain ⟨h1, h2⟩ := Prod.mk.inj h
    refine ⟨fun e => ⟨by omega, by omega⟩, fun _ => ⟨h1, h2⟩⟩

/-- C1 (amended), instance: `lost = 3`, `next = 5`, `seq = 9`. -/
theorem C1_tracker_advance_witness :
    (5 ≤ 9 ∧ 9 + 1 < UINT32 ∧ 3 + (9 - 5) < UINT32) ∧
    (Brokers.server_new_datagram_msg
        { packets_per_interval := 0, bytes := 0, received := 0, lost := 3, next := 5,
          payload := [] } (packet 1024 9)).lost = 3 + (9 - 5) ∧
    (Brokers.server_new_datagram_msg
        { packets_per_interval := 0, bytes := 0, received := 0, lost := 3, next := 5,
          payload := [] } (packet 1024 9)).next = 9 + 1 :=
  ⟨by decide,
   ((C1_tracker_advance 3 5 9 (by decide) (by decide) (by decide)).2.1
      { packets_per_interval := 0, bytes := 0, received := 0, lost := 3, next := 5,
        payload := [] } (packet 1024 9) rfl rfl rfl).2 (by decide)⟩

end Caf

namespace Caf

/-- A duplicate-free list of numbers below `n` has at most `n` entries. -/
theorem nodup_length_le (S : List Nat) (n : Nat) (hnd : S.Nodup) (hlt : ∀ q ∈ S, q < n) :
    S.length ≤ n := by
  have hsub : S ⊆ List.range n := fun q hq => List.mem_range.mpr (hlt q hq)
  have := (List.subperm_of_subset hnd hsub).length_le
  simpa using this

/-- The tracker invariant along a duplicate-free feed: every arrived number is
below `next`, `lost` counts the numbers below `next` that have not arrived,
and `next` is one more than some arrived number. -/
theorem observe_feed_inv (qs : List Nat) :
    ∀ (S : List Nat) (l n : Nat), (S ++ qs).Nodup → (∀ q ∈ qs, q + 1 < UINT32) →
      (∀ q ∈ S, q < n) → l + S.length = n → n < UINT32 → (n = 0 ∨ n - 1 ∈ S) →
      (∀ q ∈ S ++ qs, q < (qs.foldl observe (l, n)).2) ∧
      (qs.foldl observe (l, n)).1 + (S ++ qs).length = (qs.foldl observe (l, n)).2 ∧
      (qs.foldl observe (l, n)).2 < UINT32 ∧
      ((qs.foldl observe (l, n)).2 = 0 ∨ (qs.foldl observe (l, n)).2 - 1 ∈ S ++ qs) := by
  induction qs with
  | nil =>
    intro S l n _ _ hS hlen hn hmax
    simpa using ⟨hS, hlen, hn, hmax⟩
  | cons q qs ih =>
    intro S l n hnd hq hS hlen hn hmax
    have hq1 : q + 1 < UINT32 := hq q (List.mem_cons_self _ _)
    have hnd2 : ((S ++ [q]) ++ qs).Nodup := by simpa using hnd
    have hndS : (S ++ [q]).Nodup := (List.nodup_append.mp hnd2).1
    have hqs : ∀ x ∈ qs, x + 1 < UINT32 := fun x hx => hq x (List.mem_cons_of_mem _ hx)
    have hqS : q ∉ S := by
      intro hmem
      have := (List.nodup_append.mp hndS).2.2
      exact this hmem (List.mem_singleton_self q)
    rw [List.foldl_cons]
    have happ : S ++ q :: qs = (S ++ [q]) ++ qs := by simp
    rw [happ]
    rcases Nat.lt_trichotomy q n with hlt | heq | hgt
    · -- a late arrival: some number below next was missing, so lost > 0
      have hcard : (S ++ [q]).length ≤ n :=
        nodup_length_le (S ++ [q]) n hndS (by
          intro x hx
          rcases List.mem_append.mp hx with h | h
          · exact hS x h
          · rw [List.mem_singleton.mp h]; exact hlt)
      have hlen1 : (S ++ [q]).length = S.length + 1 := by simp
      have hl : 0 < l := by omega
      have hobs : observe (l, n) q = (l - 1, n) := by
        rw [observe_lt l n q hlt]
        have : (l + UINT32 - 1) % UINT32 = l - 1 := by
          have h1 : l + UINT32 - 1 = (l - 1) + UINT32 := by omega
          rw [h1, Nat.add_mod_right]
          exact Nat.mod_eq_of_lt (by omega)
        rw [this]
      rw [hobs]
      apply ih (S ++ [q]) (l - 1) n hnd2 hqs
      · intro x hx
        rcases List.mem_append.mp hx with h | h
        · exact hS x h
        · rw [List.mem_singleton.mp h]; exact hlt
      · omega
      · exact hn
      · rcases hmax with h | h
        · omega
        · exact Or.inr (List.mem_append_left _ h)
    · -- the expected number
      subst heq
      have hobs : observe (l, q) q = (l, q + 1) := by
        have := observe_ge l q q (le_refl q) hq1 (by omega)
        simpa using this
      rw [hobs]
      apply ih (S ++ [q]) l (q + 1) hnd2 hqs
      · intro x hx
        rcases List.mem_append.mp hx with h | h
        · exact Nat.lt_succ_of_lt (hS x h)
        · rw [List.mem_singleton.mp h]; exact Nat.lt_succ_self q
      · simp; omega
      · exact hq1
      · right; simp
    · -- a skip
      have hobs : observe (l, n) q = (l + (q - n), q + 1) :=
        observe_ge l n q (le_of_lt hgt) hq1 (by omega)
      rw [hobs]
      apply ih (S ++ [q]) (l + (q - n)) (q + 1) hnd2 hqs
      · intro x hx
        rcases List.mem_append.mp hx with h | h
        · have := hS x h; omega
        · rw [List.mem_singleton.mp h]; exact Nat.lt_succ_self q
      · simp; omega
      · exact hq1
      · right; simp

/-- From a fresh tracker, a duplicate-free feed of numbers that fit the cursor
leaves `lost + (number arrived) = next`, every arrived number below `next`,
and `next` zero or one more than an arrived number. -/
theorem observe_fresh (qs : List Nat) (hnd : qs.Nodup) (hq : ∀ q ∈ qs, q + 1 < UINT32) :
    (∀ q ∈ qs, q < (qs.foldl observe (0, 0)).2) ∧
    (qs.foldl observe (0, 0)).1 + qs.length = (qs.foldl observe (0, 0)).2 ∧
    (qs.foldl observe (0, 0)).2 < UINT32 ∧
    ((qs.foldl observe (0, 0)).2 = 0 ∨ (qs.foldl observe (0, 0)).2 - 1 ∈ qs) := by
  have := observe_feed_inv qs [] 0 0 (by simpa using hnd) hq (by simp) (by simp)
    (by decide) (Or.inl rfl)
  simpa using this

/-- The numbers below `next` that have not arrived, counted. -/
theorem missing_length (next : Nat) (qs : List Nat) (hnd : qs.Nodup)
    (hlt : ∀ q ∈ qs, q < next) : (missing next qs).length + qs.length = next := by
  unfold missing
  have hperm : ((List.range next).filter (fun q => decide (q ∈ qs))).Perm qs := by
    apply (List.perm_ext_iff_of_nodup ((List.nodup_range next).filter _) hnd).mpr
    intro a
    simp only [List.mem_filter, List.mem_range, decide_eq_true_eq]
    exact ⟨fun h => h.2, fun h => ⟨hlt a h, h⟩⟩
  have hsplit := List.length_eq_countP_add_countP (fun q => decide (q ∉ qs)) (List.range next)
  rw [List.countP_eq_length_filter, List.countP_eq_length_filter] at hsplit
  have h2 : (List.filter (fun a => ¬ (decide (a ∉ qs)) = true) (List.range next))
      = (List.range next).filter (fun q => decide (q ∈ qs)) := by
    apply List.filter_congr
    intro x _
    simp
  rw [h2, hperm.length_eq, List.length_range] at hsplit
  omega

end Caf

namespace Caf

/-! ## Helper lemmas: feeds -/

theorem feed_actors (ps : List (Nat × Nat)) : ∀ s : Actors.statistics,
    ((Actors.feed s ps).lost, (Actors.feed s ps).next)
      = (ps.map Prod.snd).foldl observe (s.lost, s.next) := by
  induction ps with
  | nil => intro s; rfl
  | cons p ps ih =>
    intro s
    have h := ih (Actors.measureing_server_data s p.1 p.2)
    rw [observe_actors] at h
    simpa [Actors.feed] using h

theorem feed_brokers (ms : List data_msg) : ∀ s : Brokers.statistics,
    ((Brokers.feed s ms).lost, (Brokers.feed s ms).next)
      = (ms.map data_msg.seq).foldl observe (s.lost, s.next) := by
  induction ms with
  | nil => intro s; rfl
  | cons m ms ih =>
    intro s
    have h := ih (Brokers.server_new_datagram_msg s m)
    rw [observe_brokers] at h
    simpa [Brokers.feed] using h

theorem feed_udp (ms : List data_msg) : ∀ s : UdpBrokers.statistics,
    ((UdpBrokers.feed s ms).lost, (UdpBrokers.feed s ms).next)
      = (ms.map data_msg.seq).foldl observe (s.lost, s.next) := by
  induction ms with
  | nil => intro s; rfl
  | cons m ms ih =>
    intro s
    have h := ih (UdpBrokers.server_new_datagram_msg s m)
    rw [observe_udp] at h
    simpa [UdpBrokers.feed] using h

theorem feed_tcp (ms : List data_msg) : ∀ s : TcpBrokers.s_state,
    ((TcpBrokers.feed s ms).lost, (TcpBrokers.feed s ms).next)
      = (ms.map data_msg.seq).foldl observe (s.lost, s.next) := by
  induction ms with
  | nil => intro s; rfl
  | cons m ms ih =>
    intro s
    have h := ih (TcpBrokers.server_new_data_msg s m)
    rw [observe_tcp] at h
    simpa [TcpBrokers.feed] using h

/-- A run of `k` consecutive numbers starting at the cursor moves the cursor
by `k` (wrapping to 0 when it reaches 2^32) and leaves `lost` alone. -/
theorem observe_run (k : Nat) : ∀ (l n : Nat), n < UINT32 → n + k ≤ UINT32 →
    (List.range' n k).foldl observe (l, n) = (l, (n + k) % UINT32) := by
  induction k with
  | zero =>
    intro l n hn _
    simp [Nat.mod_eq_of_lt hn]
  | succ k ih =>
    intro l n hn h
    have hobs : observe (l, n) n = (l, (n + 1) % UINT32) := by
      unfold observe; simp
    rw [List.range'_succ, List.foldl_cons, hobs]
    rcases Nat.eq_zero_or_pos k with hk | hk
    · subst hk; simp
    · have h1 : n + 1 < UINT32 := by omega
      rw [Nat.mod_eq_of_lt h1, ih l (n + 1) h1 (by omega)]
      congr 2
      omega

/-! ## C2 -/

/-- C2 (as stated, refuted): a fresh udp_brokers.cpp server that observes 0 and
then 0 again does not end with `lost == -1`; the 32-bit unsigned counter holds
4294967295 (and `next` is 1). -/
theorem C2_counterexample :
    ((UdpBrokers.feed UdpBrokers.server_init.1 [packet 1024 0, packet 1024 0]).lost : Int) ≠ -1 ∧
    (UdpBrokers.feed UdpBrokers.server_init.1 [packet 1024 0, packet 1024 0]).lost
      = 4294967295 ∧
    (UdpBrokers.feed UdpBrokers.server_init.1 [packet 1024 0, packet 1024 0]).next = 1 := by
  decide

/-- C2 (amended): in every server variant, for every tracker state and every
`seq < next`, the data handler leaves `next` unchanged and decrements the
unsigned 32-bit field `lost` without checking that `seq` was ever flagged lost:
`lost` goes down by exactly 1 when it is positive and wraps from 0 to
4294967295 (it never becomes negative). In particular a fresh tracker that
observes 0 and then 0 again ends with `lost == 4294967295`. -/
theorem C2_late_arrival (lost next seq : Nat) (hlost : lost < UINT32) (hlt : seq < next) :
    (∀ (s : Actors.statistics) (sz : Nat), s.lost = lost → s.next = next →
      (Actors.measureing_server_data s sz seq).next = next ∧
      (0 < lost → (Actors.measureing_server_data s sz seq).lost + 1 = lost) ∧
      (lost = 0 → (Actors.measureing_server_data s sz seq).lost = 4294967295)) ∧
    (∀ (s : Brokers.statistics) (msg : data_msg), s.lost = lost → s.next = next →
      msg.seq = seq →
      (Brokers.server_new_datagram_msg s msg).next = next ∧
      (0 < lost → (Brokers.server_new_datagram_msg s msg).lost + 1 = lost) ∧
      (lost = 0 → (Brokers.server_new_datagram_msg s msg).lost = 4294967295)) ∧
    (∀ (s : UdpBrokers.statistics) (msg : data_msg), s.lost = lost → s.next = next →
      msg.seq = seq →
      (UdpBrokers.server_new_datagram_msg s msg).next = next ∧
      (0 < lost → (UdpBrokers.server_new_datagram_msg s msg).lost + 1 = lost) ∧
      (lost = 0 → (UdpBrokers.server_new_datagram_msg s msg).lost = 4294967295)) ∧
    (∀ (s : TcpBrokers.s_state) (msg : data_msg), s.lost = lost → s.next = next →
      msg.seq = seq →
      (TcpBrokers.server_new_data_msg s msg).next = next ∧
      (0 < lost → (TcpBrokers.server_new_data_msg s msg).lost + 1 = lost) ∧
      (lost = 0 → (TcpBrokers.server_new_data_msg s msg).lost = 4294967295)) ∧
    (∀ (n sz : Nat), (Actors.feed (Actors.fresh n) [(sz, 0), (sz, 0)]).lost = 4294967295) ∧
    (∀ sz : Nat, (Brokers.feed Brokers.server_init.1 [packet sz 0, packet sz 0]).lost
      = 4294967295) ∧
    (∀ sz : Nat, (UdpBrokers.feed UdpBrokers.server_init.1 [packet sz 0, packet sz 0]).lost
      = 4294967295) ∧
    (∀ sz : Nat, (TcpBrokers.feed TcpBrokers.server_init.1 [packet sz 0, packet sz 0]).lost
      = 4294967295) := by
  have key := observe_lt lost next seq hlt
  have hdec : 0 < lost → (lost + UINT32 - 1) % UINT32 + 1 = lost := by
    intro h
    have h1 : lost + UINT32 - 1 = (lost - 1) + UINT32 := by omega
    rw [h1, Nat.add_mod_right, Nat.mod_eq_of_lt (by omega)]
    omega
  have hwrap : lost = 0 → (lost + UINT32 - 1) % UINT32 = 4294967295 := by
    intro h; subst h; decide
  have twice : [0, 0].foldl observe (0, 0) = (4294967295, 1) := by decide
  refine ⟨?_, ?_, ?_, ?_, ?_, ?_, ?_, ?_⟩
  · intro s sz hl hn
    have h := observe_actors s sz seq
    rw [hl, hn, key] at h
    obtain ⟨h1, h2⟩ := Prod.mk.inj h
    exact ⟨h2, fun hp => by rw [h1]; exact hdec hp, fun hz => by rw [h1]; exact hwrap hz⟩
  · intro s msg hl hn hm
    have h := observe_brokers s msg
    rw [hl, hn, hm, key] at h
    obtain ⟨h1, h2⟩ := Prod.mk.inj h
    exact ⟨h2, fun hp => by rw [h1]; exact hdec hp, fun hz => by rw [h1]; exact hwrap hz⟩
  · intro s msg hl hn hm
    have h := observe_udp s msg
    rw [hl, hn, hm, key] at h
    obtain ⟨h1, h2⟩ := Prod.mk.inj h
    exact ⟨h2, fun hp => by rw [h1]; exact hdec hp, fun hz => by rw [h1]; exact hwrap hz⟩
  · intro s msg hl hn hm
    have h := observe_tcp s msg
    rw [hl, hn, hm, key] at h
    obtain ⟨h1, h2⟩ := Prod.mk.inj h
    exact ⟨h2, fun hp => by rw [h1]; exact hdec hp, fun hz => by rw [h1]; exact hwrap hz⟩
  · intro n sz
    have h := feed_actors [(sz, 0), (sz, 0)] (Actors.fresh n)
    simp only [List.map, Actors.fresh, Actors.idle_server_start, Actors.statistics.zero] at h
    rw [twice] at h
    exact (Prod.mk.inj h).1
  · intro sz
    have h := feed_brokers [packet sz 0, packet sz 0] Brokers.server_init.1
    simp only [List.map, packet, Brokers.server_init] at h
    rw [twice] at h
    exact (Prod.mk.inj h).1
  · intro sz
    have h := feed_udp [packet sz 0, packet sz 0] UdpBrokers.server_init.1
    simp only [List.map, packet, UdpBrokers.server_init] at h
    rw [twice] at h
    exact (Prod.mk.inj h).1
  · intro sz
    have h := feed_tcp [packet sz 0, packet sz 0] TcpBrokers.server_init.1
    simp only [List.map, packet, TcpBrokers.server_init] at h
    rw [twice] at h
    exact (Prod.mk.inj h).1

/-- C2 (amended), instance: `lost = 0`, `next = 1`, `seq = 0` in tcp_brokers.cpp. -/
theorem C2_late_arrival_witness :
    ((0 : Nat) < UINT32 ∧ (0 : Nat) < 1) ∧
    (TcpBrokers.server_new_data_msg
      { packets_per_interval := 0, bytes := 0, received := 1, lost := 0, next := 1,
        payload := [], reporting := true } (packet 1024 0)).lost = 4294967295 :=
  ⟨by decide,
   ((C2_late_arrival 0 1 0 (by decide) (by decide)).2.2.2.1
      { packets_per_interval := 0, bytes := 0, received := 1, lost := 0, next := 1,
        payload := [], reporting := true } (packet 1024 0) rfl rfl rfl).2.2 rfl⟩

end Caf

namespace Caf

/-- The tracker after any arrival order of `0, ..., N-1`. -/
theorem observe_perm (N : Nat) (hN : N ≤ UINT32 - 1) (qs : List Nat)
    (hperm : qs.Perm (List.range N)) : qs.foldl observe (0, 0) = (0, N) := by
  have hnd : qs.Nodup := hperm.nodup_iff.mpr (List.nodup_range N)
  have hmem : ∀ q ∈ qs, q < N := fun q hq => List.mem_range.mp (hperm.subset hq)
  have hlen : qs.length = N := by rw [hperm.length_eq, List.length_range]
  obtain ⟨_, h2, _, h4⟩ := observe_fresh qs hnd (fun q hq => by have := hmem q hq; omega)
  have hle : (qs.foldl observe (0, 0)).2 ≤ N := by
    rcases h4 with h | h
    · omega
    · have := hmem _ h; omega
  apply Prod.ext
  · show (qs.foldl observe (0, 0)).1 = 0
    omega
  · show (qs.foldl observe (0, 0)).2 = N
    omega

/-- The tracker counts the missing numbers below the cursor. -/
theorem observe_missing (qs : List Nat) (hnd : qs.Nodup) (hq : ∀ q ∈ qs, q < UINT32 - 1) :
    (qs.foldl observe (0, 0)).1 = (missing (qs.foldl observe (0, 0)).2 qs).length := by
  obtain ⟨h1, h2, _, _⟩ := observe_fresh qs hnd (fun q hq1 => by have := hq q hq1; omega)
  have := missing_length (qs.foldl observe (0, 0)).2 qs hnd h1
  omega

/-- The run `0..999` without `100..104`, on the tracker. -/
theorem observe_gap :
    (List.range' 0 100 ++ List.range' 105 895).foldl observe (0, 0) = (5, 1000) := by
  rw [List.foldl_append, observe_run 100 0 0 (by decide) (by decide)]
  have h1 : List.range' 105 895 = 105 :: List.range' 106 894 := by
    rw [show (895 : Nat) = 894 + 1 from rfl, List.range'_succ]
  have h2 : observe (0, (0 + 100) % UINT32) 105 = (5, 106) := by decide
  rw [h1, List.foldl_cons, h2, observe_run 894 5 106 (by decide) (by decide)]
  decide

/-! ## C3 -/

/-- C3: for every `N <= 2^32 - 1` and every permutation of `0, ..., N-1`,
feeding the permutation packet by packet to the data handler of a fresh
server (`next == 0`, `lost == 0`) ends with `next == N` and `lost == 0`, in
each of the four server variants. -/
theorem C3_permutation (N : Nat) (hN : N ≤ UINT32 - 1) (qs : List Nat)
    (hperm : qs.Perm (List.range N)) :
    (∀ (s : Actors.statistics) (ps : List (Nat × Nat)), s.next = 0 → s.lost = 0 →
      ps.map Prod.snd = qs → (Actors.feed s ps).next = N ∧ (Actors.feed s ps).lost = 0) ∧
    (∀ (s : Brokers.statistics) (ms : List data_msg), s.next = 0 → s.lost = 0 →
      ms.map data_msg.seq = qs → (Brokers.feed s ms).next = N ∧ (Brokers.feed s ms).lost = 0) ∧
    (∀ (s : UdpBrokers.statistics) (ms : List data_msg), s.next = 0 → s.lost = 0 →
      ms.map data_msg.seq = qs →
      (UdpBrokers.feed s ms).next = N ∧ (UdpBrokers.feed s ms).lost = 0) ∧
    (∀ (s : TcpBrokers.s_state) (ms : List data_msg), s.next = 0 → s.lost = 0 →
      ms.map data_msg.seq = qs →
      (TcpBrokers.feed s ms).next = N ∧ (TcpBrokers.feed s ms).lost = 0) := by
  have key := observe_perm N hN qs hperm
  refine ⟨?_, ?_, ?_, ?_⟩
  · intro s ps hn hl hmap
    have h := feed_actors ps s
    rw [hn, hl, hmap, key] at h
    exact ⟨(Prod.mk.inj h).2, (Prod.mk.inj h).1⟩
  · intro s ms hn hl hmap
    have h := feed_brokers ms s
    rw [hn, hl, hmap, key] at h
    exact ⟨(Prod.mk.inj h).2, (Prod.mk.inj h).1⟩
  · intro s ms hn hl hmap
    have h := feed_udp ms s
    rw [hn, hl, hmap, key] at h
    exact ⟨(Prod.mk.inj h).2, (Prod.mk.inj h).1⟩
  · intro s ms hn hl hmap
    have h := feed_tcp ms s
    rw [hn, hl, hmap, key] at h
    exact ⟨(Prod.mk.inj h).2, (Prod.mk.inj h).1⟩

/-- C3, instance: the order 2, 0, 3, 1 of `0..3` on the udp_brokers.cpp server. -/
theorem C3_permutation_witness :
    ((4 : Nat) ≤ UINT32 - 1 ∧ [2, 0, 3, 1].Perm (List.range 4)) ∧
    (UdpBrokers.feed UdpBrokers.server_init.1
        [packet 1024 2, packet 1024 0, packet 1024 3, packet 1024 1]).next = 4 ∧
    (UdpBrokers.feed UdpBrokers.server_init.1
        [packet 1024 2, packet 1024 0, packet 1024 3, packet 1024 1]).lost = 0 :=
  ⟨⟨by decide, by decide⟩,
   (C3_permutation 4 (by decide) [2, 0, 3, 1] (by decide)).2.2.1
      UdpBrokers.server_init.1
      [packet 1024 2, packet 1024 0, packet 1024 3, packet 1024 1] rfl rfl rfl⟩

/-! ## C4 -/

/-- C4: for every duplicate-free run of sequence numbers, each below
`2^32 - 1`, fed to the data handler of a fresh server, `lost` equals the
number of sequence numbers smaller than `next` that have not arrived, in each
of the four server variants. Feeding 0,1,2,5,6 gives `lost == 2` and
`next == 7`, then 3 gives `lost == 1`, then 4 gives `lost == 0`; feeding
0..999 in order without 100..104 gives `lost == 5`. -/
theorem C4_lost_counts_missing (qs : List Nat) (hnd : qs.Nodup)
    (hq : ∀ q ∈ qs, q < UINT32 - 1) :
    ((∀ (s : Actors.statistics) (ps : List (Nat × Nat)), s.next = 0 → s.lost = 0 →
        ps.map Prod.snd = qs →
        (Actors.feed s ps).lost = (missing (Actors.feed s ps).next qs).length) ∧
     (∀ (s : Brokers.statistics) (ms : List data_msg), s.next = 0 → s.lost = 0 →
        ms.map data_msg.seq = qs →
        (Brokers.feed s ms).lost = (missing (Brokers.feed s ms).next qs).length) ∧
     (∀ (s : UdpBrokers.statistics) (ms : List data_msg), s.next = 0 → s.lost = 0 →
        ms.map data_msg.seq = qs →
        (UdpBrokers.feed s ms).lost = (missing (UdpBrokers.feed s ms).next qs).length) ∧
     (∀ (s : TcpBrokers.s_state) (ms : List data_msg), s.next = 0 → s.lost = 0 →
        ms.map data_msg.seq = qs →
        (TcpBrokers.feed s ms).lost = (missing (TcpBrokers.feed s ms).next qs).length)) ∧
    ((∀ (s : Actors.statistics) (f : Nat → Nat × Nat), s.next = 0 → s.lost = 0 →
        (∀ q, (f q).2 = q) →
        ((Actors.feed s ([0, 1, 2, 5, 6].map f)).lost = 2 ∧
         (Actors.feed s ([0, 1, 2, 5, 6].map f)).next = 7 ∧
         (Actors.feed s ([0, 1, 2, 5, 6, 3].map f)).lost = 1 ∧
         (Actors.feed s ([0, 1, 2, 5, 6, 3, 4].map f)).lost = 0 ∧
         (Actors.feed s ((List.range' 0 100 ++ List.range' 105 895).map f)).lost = 5)) ∧
     (∀ (s : Brokers.statistics) (f : Nat → data_msg), s.next = 0 → s.lost = 0 →
        (∀ q, (f q).seq = q) →
        ((Brokers.feed s ([0, 1, 2, 5, 6].map f)).lost = 2 ∧
         (Brokers.feed s ([0, 1, 2, 5, 6].map f)).next = 7 ∧
         (Brokers.feed s ([0, 1, 2, 5, 6, 3].map f)).lost = 1 ∧
         (Brokers.feed s ([0, 1, 2, 5, 6, 3, 4].map f)).lost = 0 ∧
         (Brokers.feed s ((List.range' 0 100 ++ List.range' 105 895).map f)).lost = 5)) ∧
     (∀ (s : UdpBrokers.statistics) (f : Nat → data_msg), s.next = 0 → s.lost = 0 →
        (∀ q, (f q).seq = q) →
        ((UdpBrokers.feed s ([0, 1, 2, 5, 6].map f)).lost = 2 ∧
         (UdpBrokers.feed s ([0, 1, 2, 5, 6].map f)).next = 7 ∧
         (UdpBrokers.feed s ([0, 1, 2, 5, 6, 3].map f)).lost = 1 ∧
         (UdpBrokers.feed s ([0, 1, 2, 5, 6, 3, 4].map f)).lost = 0 ∧
         (UdpBrokers.feed s ((List.range' 0 100 ++ List.range' 105 895).map f)).lost = 5)) ∧
     (∀ (s : TcpBrokers.s_state) (f : Nat → data_msg), s.next = 0 → s.lost = 0 →
        (∀ q, (f q).seq = q) →
        ((TcpBrokers.feed s ([0, 1, 2, 5, 6].map f)).lost = 2 ∧
         (TcpBrokers.feed s ([0, 1, 2, 5, 6].map f)).next = 7 ∧
         (TcpBrokers.feed s ([0, 1, 2, 5, 6, 3].map f)).lost = 1 ∧
         (TcpBrokers.feed s ([0, 1, 2, 5, 6, 3, 4].map f)).lost = 0 ∧
         (TcpBrokers.feed s ((List.range' 0 100 ++ List.range' 105 895).map f)).lost = 5))) := by
  have key := observe_missing qs hnd hq
  have e1 : [0, 1, 2, 5, 6].foldl observe (0, 0) = (2, 7) := by decide
  have e2 : [0, 1, 2, 5, 6, 3].foldl observe (0, 0) = (1, 7) := by decide
  have e3 : [0, 1, 2, 5, 6, 3, 4].foldl observe (0, 0) = (0, 7) := by decide
  have e4 := observe_gap
  refine ⟨⟨?_, ?_, ?_, ?_⟩, ⟨?_, ?_, ?_, ?_⟩⟩
  · intro s ps hn hl hmap
    have h := feed_actors ps s
    rw [hn, hl, hmap] at h
    rw [(Prod.mk.inj h).1, (Prod.mk.inj h).2]
    exact key
  · intro s ms hn hl hmap
    have h := feed_brokers ms s
    rw [hn, hl, hmap] at h
    rw [(Prod.mk.inj h).1, (Prod.mk.inj h).2]
    exact key
  · intro s ms hn hl hmap
    have h := feed_udp ms s
    rw [hn, hl, hmap] at h
    rw [(Prod.mk.inj h).1, (Prod.mk.inj h).2]
    exact key
  · intro s ms hn hl hmap
    have h := feed_tcp ms s
    rw [hn, hl, hmap] at h
    rw [(Prod.mk.inj h).1, (Prod.mk.inj h).2]
    exact key
  · intro s f hn hl hf
    have hmap : ∀ l : List Nat, (l.map f).map Prod.snd = l := by
      intro l; rw [List.map_map]; conv_rhs => rw [← List.map_id l]
      exact List.map_congr_left (fun q _ => hf q)
    have h := fun (l : List Nat) => feed_actors (l.map f) s
    simp only [hmap, hn, hl] at h
    have h1 := h [0, 1, 2, 5, 6]; rw [e1] at h1
    have h2 := h [0, 1, 2, 5, 6, 3]; rw [e2] at h2
    have h3 := h [0, 1, 2, 5, 6, 3, 4]; rw [e3] at h3
    have h4 := h (List.range' 0 100 ++ List.range' 105 895); rw [e4] at h4
    exact ⟨(Prod.mk.inj h1).1, (Prod.mk.inj h1).2, (Prod.mk.inj h2).1, (Prod.mk.inj h3).1,
      (Prod.mk.inj h4).1⟩
  · intro s f hn hl hf
    have hmap : ∀ l : List Nat, (l.map f).map data_msg.seq = l := by
      intro l; rw [List.map_map]; conv_rhs => rw [← List.map_id l]
      exact List.map_congr_left (fun q _ => hf q)
    have h := fun (l : List Nat) => feed_brokers (l.map f) s
    simp only [hmap, hn, hl] at h
    have h1 := h [0, 1, 2, 5, 6]; rw [e1] at h1
    have h2 := h [0, 1, 2, 5, 6, 3]; rw [e2] at h2
    have h3 := h [0, 1, 2, 5, 6, 3, 4]; rw [e3] at h3
    have h4 := h (List.range' 0 100 ++ List.range' 105 895); rw [e4] at h4
    exact ⟨(Prod.mk.inj h1).1, (Prod.mk.inj h1).2, (Prod.mk.inj h2).1, (Prod.mk.inj h3).1,
      (Prod.mk.inj h4).1⟩
  · intro s f hn hl hf
    have hmap : ∀ l : List Nat, (l.map f).map data_msg.seq = l := by
      intro l; rw [List.map_map]; conv_rhs => rw [← List.map_id l]
      exact List.map_congr_left (fun q _ => hf q)
    have h := fun (l : List Nat) => feed_udp (l.map f) s
    simp only [hmap, hn, hl] at h
    have h1 := h [0, 1, 2, 5, 6]; rw [e1] at h1
    have h2 := h [0, 1, 2, 5, 6, 3]; rw [e2] at h2
    have h3 := h [0, 1, 2, 5, 6, 3, 4]; rw [e3] at h3
    have h4 := h (List.range' 0 100 ++ List.range' 105 895); rw [e4] at h4
    exact ⟨(Prod.mk.inj h1).1, (Prod.mk.inj h1).2, (Prod.mk.inj h2).1, (Prod.mk.inj h3).1,
      (Prod.mk.inj h4).1⟩
  · intro s f hn hl hf
    have hmap : ∀ l : List Nat, (l.map f).map data_msg.seq = l := by
      intro l; rw [List.map_map]; conv_rhs => rw [← List.map_id l]
      exact List.map_congr_left (fun q _ => hf q)
    have h := fun (l : List Nat) => feed_tcp (l.map f) s
    simp only [hmap, hn, hl] at h
    have h1 := h [0, 1, 2, 5, 6]; rw [e1] at h1
    have h2 := h [0, 1, 2, 5, 6, 3]; rw [e2] at h2
    have h3 := h [0, 1, 2, 5, 6, 3, 4]; rw [e3] at h3
    have h4 := h (List.range' 0 100 ++ List.range' 105 895); rw [e4] at h4
    exact ⟨(Prod.mk.inj h1).1, (Prod.mk.inj h1).2, (Prod.mk.inj h2).1, (Prod.mk.inj h3).1,
      (Prod.mk.inj h4).1⟩

/-- C4, instance: the run 0,1,2,5,6 on the udp_brokers.cpp server; the missing
numbers below `next == 7` are 3 and 4. -/
theorem C4_lost_counts_missing_witness :
    ([0, 1, 2, 5, 6].Nodup ∧ ∀ q ∈ [0, 1, 2, 5, 6], q < UINT32 - 1) ∧
    (UdpBrokers.feed UdpBrokers.server_init.1 ([0, 1, 2, 5, 6].map (packet 1024))).lost
      = (missing (UdpBrokers.feed UdpBrokers.server_init.1
          ([0, 1, 2, 5, 6].map (packet 1024))).next [0, 1, 2, 5, 6]).length ∧
    missing 7 [0, 1, 2, 5, 6] = [3, 4] :=
  ⟨⟨by decide, by decide⟩,
   (C4_lost_counts_missing [0, 1, 2, 5, 6] (by decide) (by decide)).1.2.2.1
      UdpBrokers.server_init.1 ([0, 1, 2, 5, 6].map (packet 1024)) rfl rfl rfl,
   by decide⟩

end Caf

namespace Caf

/-- The cursor stays a 32-bit value. -/
theorem observe_next_lt (t : Nat × Nat) (q : Nat) (h : t.2 < UINT32) :
    (observe t q).2 < UINT32 := by
  unfold observe
  split_ifs
  · exact Nat.mod_lt _ (by decide)
  · exact Nat.mod_lt _ (by decide)
  · exact h

theorem observe_fold_next_lt (qs : List Nat) : ∀ t : Nat × Nat, t.2 < UINT32 →
    (qs.foldl observe t).2 < UINT32 := by
  induction qs with
  | nil => intro t h; exact h
  | cons q qs ih => intro t h; exact ih _ (observe_next_lt t q h)

/-- The expected number on a tracker whose loss counter is 0. -/
theorem observe_expected (n : Nat) : observe (0, n) n = (0, (n + 1) % UINT32) := by
  unfold observe; simp

/-- A fresh tracker fed `0, 1, ..., n` in order. -/
theorem observe_fresh_run (n : Nat) (hn : n < UINT32) :
    (List.range' 0 (n + 1)).foldl observe (0, 0) = (0, (n + 1) % UINT32) := by
  have := observe_run (n + 1) 0 0 (by decide) (by omega)
  simpa using this

/-! ## C5 -/

/-- C5 (as stated, refuted): the udp_brokers.cpp server receives the packet
4294967294, then a reset, then the packet whose `seq` equals the current
`next` (n = 4294967295): `next` becomes 0, not n + 1. -/
theorem C5_counterexample :
    (UdpBrokers.feed UdpBrokers.server_init.1 [packet 1024 4294967294]).next = 4294967295 ∧
    (UdpBrokers.server_new_datagram_msg
      (UdpBrokers.server_reset
        (UdpBrokers.feed UdpBrokers.server_init.1 [packet 1024 4294967294])).1
      (packet 1024 4294967295)).next = 0 ∧
    ¬ ((UdpBrokers.server_new_datagram_msg
      (UdpBrokers.server_reset
        (UdpBrokers.feed UdpBrokers.server_init.1 [packet 1024 4294967294])).1
      (packet 1024 4294967295)).next = 4294967295 + 1) := by
  decide

/-- C5 (amended): in every server variant the reset handler sets `received`,
`bytes` and `lost` to 0 and leaves `next` unchanged (in tcp_brokers.cpp also
when no client is reporting); so after any run of data packets, a reset
followed by the packet whose `seq` equals the current `next` n yields
`lost == 0` and `next == (n + 1) mod 2^32`, that is n + 1 unless
n == 2^32 - 1, where the 32-bit cursor wraps to 0. This is the tracker state
of a fresh tracker fed 0, 1, ..., n in order. -/
theorem C5_reset_keeps_cursor (next0 : Nat) (h0 : next0 < UINT32) :
    (∀ (s0 : Actors.statistics) (ps : List (Nat × Nat)) (sz sz1 k : Nat), s0.next = next0 →
      ((Actors.measureing_server_reset (Actors.feed s0 ps)).1.received = 0 ∧
       (Actors.measureing_server_reset (Actors.feed s0 ps)).1.bytes = 0 ∧
       (Actors.measureing_server_reset (Actors.feed s0 ps)).1.lost = 0 ∧
       (Actors.measureing_server_reset (Actors.feed s0 ps)).1.next = (Actors.feed s0 ps).next) ∧
      ((Actors.measureing_server_data (Actors.measureing_server_reset (Actors.feed s0 ps)).1
          sz (Actors.feed s0 ps).next).lost = 0 ∧
       (Actors.measureing_server_data (Actors.measureing_server_reset (Actors.feed s0 ps)).1
          sz (Actors.feed s0 ps).next).next = ((Actors.feed s0 ps).next + 1) % UINT32 ∧
       ((Actors.feed s0 ps).next + 1 < UINT32 →
         (Actors.measureing_server_data (Actors.measureing_server_reset (Actors.feed s0 ps)).1
          sz (Actors.feed s0 ps).next).next = (Actors.feed s0 ps).next + 1) ∧
       (Actors.feed (Actors.fresh k)
          ((List.range' 0 ((Actors.feed s0 ps).next + 1)).map (fun q => (sz1, q)))).lost = 0 ∧
       (Actors.feed (Actors.fresh k)
          ((List.range' 0 ((Actors.feed s0 ps).next + 1)).map (fun q => (sz1, q)))).next
         = (Actors.measureing_server_data (Actors.measureing_server_reset (Actors.feed s0 ps)).1
          sz (Actors.feed s0 ps).next).next)) ∧
    (∀ (s0 : Brokers.statistics) (ms : List data_msg) (sz sz1 : Nat), s0.next = next0 →
      ((Brokers.server_reset (Brokers.feed s0 ms)).1.received = 0 ∧
       (Brokers.server_reset (Brokers.feed s0 ms)).1.bytes = 0 ∧
       (Brokers.server_reset (Brokers.feed s0 ms)).1.lost = 0 ∧
       (Brokers.server_reset (Brokers.feed s0 ms)).1.next = (Brokers.feed s0 ms).next) ∧
      ((Brokers.server_new_datagram_msg (Brokers.server_reset (Brokers.feed s0 ms)).1
          (packet sz (Brokers.feed s0 ms).next)).lost = 0 ∧
       (Brokers.server_new_datagram_msg (Brokers.server_reset (Brokers.feed s0 ms)).1
          (packet sz (Brokers.feed s0 ms).next)).next = ((Brokers.feed s0 ms).next + 1) % UINT32 ∧
       ((Brokers.feed s0 ms).next + 1 < UINT32 →
         (Brokers.server_new_datagram_msg (Brokers.server_reset (Brokers.feed s0 ms)).1
          (packet sz (Brokers.feed s0 ms).next)).next = (Brokers.feed s0 ms).next + 1) ∧
       (Brokers.feed Brokers.server_init.1
          ((List.range' 0 ((Brokers.feed s0 ms).next + 1)).map (packet sz1))).lost = 0 ∧
       (Brokers.feed Brokers.server_init.1
          ((List.range' 0 ((Brokers.feed s0 ms).next + 1)).map (packet sz1))).next
         = (Brokers.server_new_datagram_msg (Brokers.server_reset (Brokers.feed s0 ms)).1
          (packet sz (Brokers.feed s0 ms).next)).next)) ∧
    (∀ (s0 : UdpBrokers.statistics) (ms : List data_msg) (sz sz1 : Nat), s0.next = next0 →
      ((UdpBrokers.server_reset (UdpBrokers.feed s0 ms)).1.received = 0 ∧
       (UdpBrokers.server_reset (UdpBrokers.feed s0 ms)).1.bytes = 0 ∧
       (UdpBrokers.server_reset (UdpBrokers.feed s0 ms)).1.lost = 0 ∧
       (UdpBrokers.server_reset (UdpBrokers.feed s0 ms)).1.next = (UdpBrokers.feed s0 ms).next) ∧
      ((UdpBrokers.server_new_datagram_msg (UdpBrokers.server_reset (UdpBrokers.feed s0 ms)).1
          (packet sz (UdpBrokers.feed s0 ms).next)).lost = 0 ∧
       (UdpBrokers.server_new_datagram_msg (UdpBrokers.server_reset (UdpBrokers.feed s0 ms)).1
          (packet sz (UdpBrokers.feed s0 ms).next)).next
         = ((UdpBrokers.feed s0 ms).next + 1) % UINT32 ∧
       ((UdpBrokers.feed s0 ms).next + 1 < UINT32 →
         (UdpBrokers.server_new_datagram_msg (UdpBrokers.server_reset (UdpBrokers.feed s0 ms)).1
          (packet sz (UdpBrokers.feed s0 ms).next)).next = (UdpBrokers.feed s0 ms).next + 1) ∧
       (UdpBrokers.feed UdpBrokers.server_init.1
          ((List.range' 0 ((UdpBrokers.feed s0 ms).next + 1)).map (packet sz1))).lost = 0 ∧
       (UdpBrokers.feed UdpBrokers.server_init.1
          ((List.range' 0 ((UdpBrokers.feed s0 ms).next + 1)).map (packet sz1))).next
         = (UdpBrokers.server_new_datagram_msg (UdpBrokers.server_reset (UdpBrokers.feed s0 ms)).1
          (packet sz (UdpBrokers.feed s0 ms).next)).next)) ∧
    (∀ (s0 : TcpBrokers.s_state) (ms : List data_msg) (sz sz1 : Nat), s0.next = next0 →
      ((TcpBrokers.server_reset (TcpBrokers.feed s0 ms)).1.received = 0 ∧
       (TcpBrokers.server_reset (TcpBrokers.feed s0 ms)).1.bytes = 0 ∧
       (TcpBrokers.server_reset (TcpBrokers.feed s0 ms)).1.lost = 0 ∧
       (TcpBrokers.server_reset (TcpBrokers.feed s0 ms)).1.next = (TcpBrokers.feed s0 ms).next) ∧
      ((TcpBrokers.server_new_data_msg (TcpBrokers.server_reset (TcpBrokers.feed s0 ms)).1
          (packet sz (TcpBrokers.feed s0 ms).next)).lost = 0 ∧
       (TcpBrokers.server_new_data_msg (TcpBrokers.server_reset (TcpBrokers.feed s0 ms)).1
          (packet sz (TcpBrokers.feed s0 ms).next)).next
         = ((TcpBrokers.feed s0 ms).next + 1) % UINT32 ∧
       ((TcpBrokers.feed s0 ms).next + 1 < UINT32 →
         (TcpBrokers.server_new_data_msg (TcpBrokers.server_reset (TcpBrokers.feed s0 ms)).1
          (packet sz (TcpBrokers.feed s0 ms).next)).next = (TcpBrokers.feed s0 ms).next + 1) ∧
       (TcpBrokers.feed TcpBrokers.server_init.1
          ((List.range' 0 ((TcpBrokers.feed s0 ms).next + 1)).map (packet sz1))).lost = 0 ∧
       (TcpBrokers.feed TcpBrokers.server_init.1
          ((List.range' 0 ((TcpBrokers.feed s0 ms).next + 1)).map (packet sz1))).next
         = (TcpBrokers.server_new_data_msg (TcpBrokers.server_reset (TcpBrokers.feed s0 ms)).1
          (packet sz (TcpBrokers.feed s0 ms).next)).next)) := by
  refine ⟨?_, ?_, ?_, ?_⟩
  · intro s0 ps sz sz1 k hs0
    have hlt : (Actors.feed s0 ps).next < UINT32 := by
      have h := feed_actors ps s0
      rw [(Prod.mk.inj h).2]
      exact observe_fold_next_lt _ _ (by simpa [hs0] using h0)
    have hstep := observe_actors (Actors.measureing_server_reset (Actors.feed s0 ps)).1 sz
      (Actors.feed s0 ps).next
    have hr : ((Actors.measureing_server_reset (Actors.feed s0 ps)).1.lost,
        (Actors.measureing_server_reset (Actors.feed s0 ps)).1.next)
        = (0, (Actors.feed s0 ps).next) := rfl
    rw [hr, observe_expected] at hstep
    have hfresh := feed_actors
      ((List.range' 0 ((Actors.feed s0 ps).next + 1)).map (fun q => (sz1, q))) (Actors.fresh k)
    have hmap : ((List.range' 0 ((Actors.feed s0 ps).next + 1)).map (fun q => (sz1, q))).map
        Prod.snd = List.range' 0 ((Actors.feed s0 ps).next + 1) := by
      rw [List.map_map]; exact List.map_id _
    have hf0 : ((Actors.fresh k).lost, (Actors.fresh k).next) = (0, 0) := rfl
    rw [hmap, hf0, observe_fresh_run _ hlt] at hfresh
    refine ⟨⟨rfl, rfl, rfl, rfl⟩, (Prod.mk.inj hstep).1, (Prod.mk.inj hstep).2, ?_,
      (Prod.mk.inj hfresh).1, ?_⟩
    · intro hb; rw [(Prod.mk.inj hstep).2, Nat.mod_eq_of_lt hb]
    · rw [(Prod.mk.inj hfresh).2, (Prod.mk.inj hstep).2]
  · intro s0 ms sz sz1 hs0
    have hlt : (Brokers.feed s0 ms).next < UINT32 := by
      have h := feed_brokers ms s0
      rw [(Prod.mk.inj h).2]
      exact observe_fold_next_lt _ _ (by simpa [hs0] using h0)
    have hstep := observe_brokers (Brokers.server_reset (Brokers.feed s0 ms)).1
      (packet sz (Brokers.feed s0 ms).next)
    have hr : ((Brokers.server_reset (Brokers.feed s0 ms)).1.lost,
        (Brokers.server_reset (Brokers.feed s0 ms)).1.next)
        = (0, (Brokers.feed s0 ms).next) := rfl
    have hp : (packet sz (Brokers.feed s0 ms).next).seq = (Brokers.feed s0 ms).next := rfl
    rw [hr, hp, observe_expected] at hstep
    have hfresh := feed_brokers
      ((List.range' 0 ((Brokers.feed s0 ms).next + 1)).map (packet sz1)) Brokers.server_init.1
    have hmap : ((List.range' 0 ((Brokers.feed s0 ms).next + 1)).map (packet sz1)).map
        data_msg.seq = List.range' 0 ((Brokers.feed s0 ms).next + 1) := by
      rw [List.map_map]; exact List.map_id _
    have hf0 : (Brokers.server_init.1.lost, Brokers.server_init.1.next) = (0, 0) := rfl
    rw [hmap, hf0, observe_fresh_run _ hlt] at hfresh
    refine ⟨⟨rfl, rfl, rfl, rfl⟩, (Prod.mk.inj hstep).1, (Prod.mk.inj hstep).2, ?_,
      (Prod.mk.inj hfresh).1, ?_⟩
    · intro hb; rw [(Prod.mk.inj hstep).2, Nat.mod_eq_of_lt hb]
    · rw [(Prod.mk.inj hfresh).2, (Prod.mk.inj hstep).2]
  · intro s0 ms sz sz1 hs0
    have hlt : (UdpBrokers.feed s0 ms).next < UINT32 := by
      have h := feed_udp ms s0
      rw [(Prod.mk.inj h).2]
      exact observe_fold_next_lt _ _ (by simpa [hs0] using h0)
    have hstep := observe_udp (UdpBrokers.server_reset (UdpBrokers.feed s0 ms)).1
      (packet sz (UdpBrokers.feed s0 ms).next)
    have hr : ((UdpBrokers.server_reset (UdpBrokers.feed s0 ms)).1.lost,
        (UdpBrokers.server_reset (UdpBrokers.feed s0 ms)).1.next)
        = (0, (UdpBrokers.feed s0 ms).next) := rfl
    have hp : (packet sz (UdpBrokers.feed s0 ms).next).seq = (UdpBrokers.feed s0 ms).next := rfl
    rw [hr, hp, observe_expected] at hstep
    have hfresh := feed_udp
      ((List.range' 0 ((UdpBrokers.feed s0 ms).next + 1)).map (packet sz1))
      UdpBrokers.server_init.1
    have hmap : ((List.range' 0 ((UdpBrokers.feed s0 ms).next + 1)).map (packet sz1)).map
        data_msg.seq = List.range' 0 ((UdpBrokers.feed s0 ms).next + 1) := by
      rw [List.map_map]; exact List.map_id _
    have hf0 : (UdpBrokers.server_init.1.lost, UdpBrokers.server_init.1.next) = (0, 0) := rfl
    rw [hmap, hf0, observe_fresh_run _ hlt] at hfresh
    refine ⟨⟨rfl, rfl, rfl, rfl⟩, (Prod.mk.inj hstep).1, (Prod.mk.inj hstep).2, ?_,
      (Prod.mk.inj hfresh).1, ?_⟩
    · intro hb; rw [(Prod.mk.inj hstep).2, Nat.mod_eq_of_lt hb]
    · rw [(Prod.mk.inj hfresh).2, (Prod.mk.inj hstep).2]
  · intro s0 ms sz sz1 hs0
    have hlt : (TcpBrokers.feed s0 ms).next < UINT32 := by
      have h := feed_tcp ms s0
      rw [(Prod.mk.inj h).2]
      exact observe_fold_next_lt _ _ (by simpa [hs0] using h0)
    have hstep := observe_tcp (TcpBrokers.server_reset (TcpBrokers.feed s0 ms)).1
      (packet sz (TcpBrokers.feed s0 ms).next)
    have hr : ((TcpBrokers.server_reset (TcpBrokers.feed s0 ms)).1.lost,
        (TcpBrokers.server_reset (TcpBrokers.feed s0 ms)).1.next)
        = (0, (TcpBrokers.feed s0 ms).next) := rfl
    have hp : (packet sz (TcpBrokers.feed s0 ms).next).seq = (TcpBrokers.feed s0 ms).next := rfl
    rw [hr, hp, observe_expected] at hstep
    have hfresh := feed_tcp
      ((List.range' 0 ((TcpBrokers.feed s0 ms).next + 1)).map (packet sz1))
      TcpBrokers.server_init.1
    have hmap : ((List.range' 0 ((TcpBrokers.feed s0 ms).next + 1)).map (packet sz1)).map
        data_msg.seq = List.range' 0 ((TcpBrokers.feed s0 ms).next + 1) := by
      rw [List.map_map]; exact List.map_id _
    have hf0 : (TcpBrokers.server_init.1.lost, TcpBrokers.server_init.1.next) = (0, 0) := rfl
    rw [hmap, hf0, observe_fresh_run _ hlt] at hfresh
    refine ⟨⟨rfl, rfl, rfl, rfl⟩, (Prod.mk.inj hstep).1, (Prod.mk.inj hstep).2, ?_,
      (Prod.mk.inj hfresh).1, ?_⟩
    · intro hb; rw [(Prod.mk.inj hstep).2, Nat.mod_eq_of_lt hb]
    · rw [(Prod.mk.inj hfresh).2, (Prod.mk.inj hstep).2]

/-- C5 (amended), instance: the tcp_brokers.cpp server with no client reporting,
after the packets 0, 1, 5: reset, then the packet 6. -/
theorem C5_reset_keeps_cursor_witness :
    ((0 : Nat) < UINT32) ∧
    (TcpBrokers.feed TcpBrokers.server_init.1
      [packet 1024 0, packet 1024 1, packet 1024 5]).next = 6 ∧
    (TcpBrokers.server_new_data_msg
      (TcpBrokers.server_reset (TcpBrokers.feed TcpBrokers.server_init.1
        [packet 1024 0, packet 1024 1, packet 1024 5])).1
      (packet 1024 (TcpBrokers.feed TcpBrokers.server_init.1
        [packet 1024 0, packet 1024 1, packet 1024 5]).next)).lost = 0 ∧
    (TcpBrokers.server_new_data_msg
      (TcpBrokers.server_reset (TcpBrokers.feed TcpBrokers.server_init.1
        [packet 1024 0, packet 1024 1, packet 1024 5])).1
      (packet 1024 (TcpBrokers.feed TcpBrokers.server_init.1
        [packet 1024 0, packet 1024 1, packet 1024 5]).next)).next
      = ((TcpBrokers.feed TcpBrokers.server_init.1
        [packet 1024 0, packet 1024 1, packet 1024 5]).next + 1) % UINT32 :=
  ⟨by decide, by decide,
   (((C5_reset_keeps_cursor 0 (by decide)).2.2.2 TcpBrokers.server_init.1
      [packet 1024 0, packet 1024 1, packet 1024 5] 1024 1024 rfl).2).1,
   (((C5_reset_keeps_cursor 0 (by decide)).2.2.2 TcpBrokers.server_init.1
      [packet 1024 0, packet 1024 1, packet 1024 5] 1024 1024 rfl).2).2.1⟩

end Caf

namespace Caf

/-! ## Helper lemmas: the interval counters -/

theorem counts_actors (s : Actors.statistics) (sz seq : Nat) :
    (Actors.measureing_server_data s sz seq).received = (s.received + 1) % UINT64 ∧
    (Actors.measureing_server_data s sz seq).bytes
      = (s.bytes + (sz + Actors.message_overhead) % UINT64) % UINT64 := by
  unfold Actors.measureing_server_data
  simp only []
  split_ifs <;> exact ⟨rfl, rfl⟩

theorem counts_brokers (s : Brokers.statistics) (msg : data_msg) :
    (Brokers.server_new_datagram_msg s msg).received = (s.received + 1) % UINT64 ∧
    (Brokers.server_new_datagram_msg s msg).bytes = (s.bytes + msg.buf_size) % UINT64 := by
  unfold Brokers.server_new_datagram_msg
  simp only []
  split_ifs <;> exact ⟨rfl, rfl⟩

theorem counts_udp (s : UdpBrokers.statistics) (msg : data_msg) :
    (UdpBrokers.server_new_datagram_msg s msg).received = (s.received + 1) % UINT64 ∧
    (UdpBrokers.server_new_datagram_msg s msg).bytes = (s.bytes + msg.buf_size) % UINT64 := by
  unfold UdpBrokers.server_new_datagram_msg
  simp only []
  split_ifs <;> exact ⟨rfl, rfl⟩

theorem counts_tcp (s : TcpBrokers.s_state) (msg : data_msg) :
    (TcpBrokers.server_new_data_msg s msg).received = (s.received + 1) % UINT64 ∧
    (TcpBrokers.server_new_data_msg s msg).bytes = (s.bytes + msg.buf_size) % UINT64 := by
  unfold TcpBrokers.server_new_data_msg
  simp only []
  split_ifs <;> exact ⟨rfl, rfl⟩

/-- A run of packets of one wire size `w`, while the 64-bit counters do not wrap. -/
theorem feed_counts_actors (w : Nat) (ps : List (Nat × Nat)) : ∀ s : Actors.statistics,
    (∀ p ∈ ps, p.1 + Actors.message_overhead = w) →
    s.received + ps.length < UINT64 → s.bytes + w * ps.length < UINT64 →
    (Actors.feed s ps).received = s.received + ps.length ∧
    (Actors.feed s ps).bytes = s.bytes + w * ps.length := by
  induction ps with
  | nil => intro s _ _ _; exact ⟨rfl, rfl⟩
  | cons p ps ih =>
    intro s hw hr hb
    have hp : p.1 + Actors.message_overhead = w := hw p (List.mem_cons_self _ _)
    simp only [List.length_cons, Nat.mul_succ] at hr hb
    obtain ⟨c1, c2⟩ := counts_actors s p.1 p.2
    rw [hp, Nat.mod_eq_of_lt (show w < UINT64 by omega),
      Nat.mod_eq_of_lt (show s.bytes + w < UINT64 by omega)] at c2
    rw [Nat.mod_eq_of_lt (show s.received + 1 < UINT64 by omega)] at c1
    have := ih (Actors.measureing_server_data s p.1 p.2)
      (fun q hq => hw q (List.mem_cons_of_mem _ hq)) (by rw [c1]; omega) (by rw [c2]; omega)
    simp only [Actors.feed, List.foldl_cons, List.length_cons, Nat.mul_succ] at this ⊢
    rw [this.1, this.2, c1, c2]
    constructor <;> omega

theorem feed_counts_brokers (w : Nat) (ms : List data_msg) : ∀ s : Brokers.statistics,
    (∀ m ∈ ms, m.buf_size = w) →
    s.received + ms.length < UINT64 → s.bytes + w * ms.length < UINT64 →
    (Brokers.feed s ms).received = s.received + ms.length ∧
    (Brokers.feed s ms).bytes = s.bytes + w * ms.length := by
  induction ms with
  | nil => intro s _ _ _; exact ⟨rfl, rfl⟩
  | cons m ms ih =>
    intro s hw hr hb
    have hp : m.buf_size = w := hw m (List.mem_cons_self _ _)
    simp only [List.length_cons, Nat.mul_succ] at hr hb
    obtain ⟨c1, c2⟩ := counts_brokers s m
    rw [hp, Nat.mod_eq_of_lt (show s.bytes + w < UINT64 by omega)] at c2
    rw [Nat.mod_eq_of_lt (show s.received + 1 < UINT64 by omega)] at c1
    have := ih (Brokers.server_new_datagram_msg s m)
      (fun q hq => hw q (List.mem_cons_of_mem _ hq)) (by rw [c1]; omega) (by rw [c2]; omega)
    simp only [Brokers.feed, List.foldl_cons, List.length_cons, Nat.mul_succ] at this ⊢
    rw [this.1, this.2, c1, c2]
    constructor <;> omega

theorem feed_counts_udp (w : Nat) (ms : List data_msg) : ∀ s : UdpBrokers.statistics,
    (∀ m ∈ ms, m.buf_size = w) →
    s.received + ms.length < UINT64 → s.bytes + w * ms.length < UINT64 →
    (UdpBrokers.feed s ms).received = s.received + ms.length ∧
    (UdpBrokers.feed s ms).bytes = s.bytes + w * ms.length := by
  induction ms with
  | nil => intro s _ _ _; exact ⟨rfl, rfl⟩
  | cons m ms ih =>
    intro s hw hr hb
    have hp : m.buf_size = w := hw m (List.mem_cons_self _ _)
    simp only [List.length_cons, Nat.mul_succ] at hr hb
    obtain ⟨c1, c2⟩ := counts_udp s m
    rw [hp, Nat.mod_eq_of_lt (show s.bytes + w < UINT64 by omega)] at c2
    rw [Nat.mod_eq_of_lt (show s.received + 1 < UINT64 by omega)] at c1
    have := ih (UdpBrokers.server_new_datagram_msg s m)
      (fun q hq => hw q (List.mem_cons_of_mem _ hq)) (by rw [c1]; omega) (by rw [c2]; omega)
    simp only [UdpBrokers.feed, List.foldl_cons, List.length_cons, Nat.mul_succ] at this ⊢
    rw [this.1, this.2, c1, c2]
    constructor <;> omega

theorem feed_counts_tcp (w : Nat) (ms : List data_msg) : ∀ s : TcpBrokers.s_state,
    (∀ m ∈ ms, m.buf_size = w) →
    s.received + ms.length < UINT64 → s.bytes + w * ms.length < UINT64 →
    (TcpBrokers.feed s ms).received = s.received + ms.length ∧
    (TcpBrokers.feed s ms).bytes = s.bytes + w * ms.length := by
  induction ms with
  | nil => intro s _ _ _; exact ⟨rfl, rfl⟩
  | cons m ms ih =>
    intro s hw hr hb
    have hp : m.buf_size = w := hw m (List.mem_cons_self _ _)
    simp only [List.length_cons, Nat.mul_succ] at hr hb
    obtain ⟨c1, c2⟩ := counts_tcp s m
    rw [hp, Nat.mod_eq_of_lt (show s.bytes + w < UINT64 by omega)] at c2
    rw [Nat.mod_eq_of_lt (show s.received + 1 < UINT64 by omega)] at c1
    have := ih (TcpBrokers.server_new_data_msg s m)
      (fun q hq => hw q (List.mem_cons_of_mem _ hq)) (by rw [c1]; omega) (by rw [c2]; omega)
    simp only [TcpBrokers.feed, List.foldl_cons, List.length_cons, Nat.mul_succ] at this ⊢
    rw [this.1, this.2, c1, c2]
    constructor <;> omega

end Caf

namespace Caf

/-! ## C6 -/

/-- C6 (as stated, refuted): on the udp_brokers.cpp state whose `received` is
2^64 - 1 and whose `bytes` is 2^64 - 1024, one data packet of 1024 bytes does
not increment `received` by 1 nor add 1024 to `bytes`: both 64-bit counters
wrap to 0. -/
theorem C6_counterexample :
    (UdpBrokers.server_new_datagram_msg
      { bytes := 18446744073709550592, received := 18446744073709551615, lost := 0,
        next := 0, payload := [] } (packet 1024 0)).received = 0 ∧
    ¬ ((UdpBrokers.server_new_datagram_msg
      { bytes := 18446744073709550592, received := 18446744073709551615, lost := 0,
        next := 0, payload := [] } (packet 1024 0)).received = 18446744073709551615 + 1) ∧
    (UdpBrokers.server_new_datagram_msg
      { bytes := 18446744073709550592, received := 18446744073709551615, lost := 0,
        next := 0, payload := [] } (packet 1024 0)).bytes = 0 ∧
    ¬ ((UdpBrokers.server_new_datagram_msg
      { bytes := 18446744073709550592, received := 18446744073709551615, lost := 0,
        next := 0, payload := [] } (packet 1024 0)).bytes = 18446744073709550592 + 1024) := by
  decide

/-- C6 (amended): in every server variant, for every state and every data
packet for which `received + 1` and `bytes + wire size` fit the 64-bit
counters, the handler increments `received` by exactly 1 and adds the
packet's wire size to `bytes` (the received buffer length in the broker
variants, payload length + `message_overhead` = payload length + 68 in
actors.cpp), whichever tracker branch is taken. So 1000 packets with `seq`
0..999 in order, each of wire size 1024, fed to a server whose counters are
all zero leave `received == 1000`, `lost == 0` and `bytes == 1024000` at the
first reset: a loss ratio of 0 and 1024000/1048576 MB for the interval (the
tcp and udp brokers print it as 8 * 1024000/1048576 Mbit). -/
theorem C6_accumulate (received bytes wire : Nat) (hr : received + 1 < UINT64)
    (hb : bytes + wire < UINT64) :
    ((Actors.message_overhead = 68 ∧
      ∀ (s : Actors.statistics) (sz seq : Nat), s.received = received → s.bytes = bytes →
        sz + Actors.message_overhead = wire →
        (Actors.measureing_server_data s sz seq).received = received + 1 ∧
        (Actors.measureing_server_data s sz seq).bytes = bytes + wire) ∧
     (∀ (s : Brokers.statistics) (msg : data_msg), s.received = received → s.bytes = bytes →
        msg.buf_size = wire →
        (Brokers.server_new_datagram_msg s msg).received = received + 1 ∧
        (Brokers.server_new_datagram_msg s msg).bytes = bytes + wire) ∧
     (∀ (s : UdpBrokers.statistics) (msg : data_msg), s.received = received →
        s.bytes = bytes → msg.buf_size = wire →
        (UdpBrokers.server_new_datagram_msg s msg).received = received + 1 ∧
        (UdpBrokers.server_new_datagram_msg s msg).bytes = bytes + wire) ∧
     (∀ (s : TcpBrokers.s_state) (msg : data_msg), s.received = received → s.bytes = bytes →
        msg.buf_size = wire →
        (TcpBrokers.server_new_data_msg s msg).received = received + 1 ∧
        (TcpBrokers.server_new_data_msg s msg).bytes = bytes + wire)) ∧
    ((∀ s : Actors.statistics, s.received = 0 → s.bytes = 0 → s.lost = 0 → s.next = 0 →
        (Actors.feed s ((List.range' 0 1000).map (fun q => (956, q)))).received = 1000 ∧
        (Actors.feed s ((List.range' 0 1000).map (fun q => (956, q)))).lost = 0 ∧
        (Actors.feed s ((List.range' 0 1000).map (fun q => (956, q)))).bytes = 1024000 ∧
        (Actors.measureing_server_reset
          (Actors.feed s ((List.range' 0 1000).map (fun q => (956, q))))).2
          = [Effect.delayed_send_reset, Effect.report 1000 0 1024000] ∧
        Actors.loss_fraction (Actors.feed s ((List.range' 0 1000).map (fun q => (956, q)))) = 0 ∧
        Actors.megabytes (Actors.feed s ((List.range' 0 1000).map (fun q => (956, q))))
          = 1024000 / 1048576) ∧
     (∀ s : Brokers.statistics, s.received = 0 → s.bytes = 0 → s.lost = 0 → s.next = 0 →
        (Brokers.feed s ((List.range' 0 1000).map (packet 1024))).received = 1000 ∧
        (Brokers.feed s ((List.range' 0 1000).map (packet 1024))).lost = 0 ∧
        (Brokers.feed s ((List.range' 0 1000).map (packet 1024))).bytes = 1024000 ∧
        (Brokers.server_reset (Brokers.feed s ((List.range' 0 1000).map (packet 1024)))).2
          = [Effect.delayed_send_reset, Effect.report 1000 0 1024000] ∧
        Brokers.loss_fraction (Brokers.feed s ((List.range' 0 1000).map (packet 1024))) = 0 ∧
        Brokers.megabytes (Brokers.feed s ((List.range' 0 1000).map (packet 1024)))
          = 1024000 / 1048576) ∧
     (∀ s : UdpBrokers.statistics, s.received = 0 → s.bytes = 0 → s.lost = 0 → s.next = 0 →
        (UdpBrokers.feed s ((List.range' 0 1000).map (packet 1024))).received = 1000 ∧
        (UdpBrokers.feed s ((List.range' 0 1000).map (packet 1024))).lost = 0 ∧
        (UdpBrokers.feed s ((List.range' 0 1000).map (packet 1024))).bytes = 1024000 ∧
        (UdpBrokers.server_reset (UdpBrokers.feed s ((List.range' 0 1000).map (packet 1024)))).2
          = [Effect.delayed_send_reset, Effect.report 1000 0 1024000] ∧
        UdpBrokers.loss_fraction (UdpBrokers.feed s ((List.range' 0 1000).map (packet 1024)))
          = 0 ∧
        UdpBrokers.megabits (UdpBrokers.feed s ((List.range' 0 1000).map (packet 1024)))
          = 8 * (1024000 / 1048576)) ∧
     (∀ s : TcpBrokers.s_state, s.received = 0 → s.bytes = 0 → s.lost = 0 → s.next = 0 →
        s.reporting = true →
        (TcpBrokers.feed s ((List.range' 0 1000).map (packet 1024))).received = 1000 ∧
        (TcpBrokers.feed s ((List.range' 0 1000).map (packet 1024))).lost = 0 ∧
        (TcpBrokers.feed s ((List.range' 0 1000).map (packet 1024))).bytes = 1024000 ∧
        (TcpBrokers.server_reset (TcpBrokers.feed s ((List.range' 0 1000).map (packet 1024)))).2
          = [Effect.delayed_send_reset, Effect.report 1000 0 1024000] ∧
        TcpBrokers.loss_fraction (TcpBrokers.feed s ((List.range' 0 1000).map (packet 1024)))
          = 0 ∧
        TcpBrokers.megabits (TcpBrokers.feed s ((List.range' 0 1000).map (packet 1024)))
          = 8 * (1024000 / 1048576))) := by
  have hrun : (List.range' 0 1000).foldl observe (0, 0) = (0, 1000) := by
    rw [observe_run 1000 0 0 (by decide) (by decide)]; decide
  refine ⟨⟨⟨rfl, ?_⟩, ?_, ?_, ?_⟩, ⟨?_, ?_, ?_, ?_⟩⟩
  · intro s sz seq h1 h2 h3
    obtain ⟨c1, c2⟩ := counts_actors s sz seq
    rw [h1, Nat.mod_eq_of_lt hr] at c1
    rw [h2, h3, Nat.mod_eq_of_lt (show wire < UINT64 by omega), Nat.mod_eq_of_lt hb] at c2
    exact ⟨c1, c2⟩
  · intro s msg h1 h2 h3
    obtain ⟨c1, c2⟩ := counts_brokers s msg
    rw [h1, Nat.mod_eq_of_lt hr] at c1
    rw [h2, h3, Nat.mod_eq_of_lt hb] at c2
    exact ⟨c1, c2⟩
  · intro s msg h1 h2 h3
    obtain ⟨c1, c2⟩ := counts_udp s msg
    rw [h1, Nat.mod_eq_of_lt hr] at c1
    rw [h2, h3, Nat.mod_eq_of_lt hb] at c2
    exact ⟨c1, c2⟩
  · intro s msg h1 h2 h3
    obtain ⟨c1, c2⟩ := counts_tcp s msg
    rw [h1, Nat.mod_eq_of_lt hr] at c1
    rw [h2, h3, Nat.mod_eq_of_lt hb] at c2
    exact ⟨c1, c2⟩
  · intro s h1 h2 h3 h4
    have hlen : ((List.range' 0 1000).map (fun q => ((956 : Nat), q))).length = 1000 := by simp
    obtain ⟨c1, c2⟩ := feed_counts_actors 1024 ((List.range' 0 1000).map (fun q => (956, q))) s
      (by intro p hp; obtain ⟨q, _, rfl⟩ := List.mem_map.mp hp; rfl)
      (by rw [h1, hlen]; decide) (by rw [h2, hlen]; decide)
    rw [h1, hlen] at c1
    rw [h2, hlen] at c2
    have ht := feed_actors ((List.range' 0 1000).map (fun q => (956, q))) s
    have hmap : ((List.range' 0 1000).map (fun q => ((956 : Nat), q))).map Prod.snd
        = List.range' 0 1000 := by rw [List.map_map]; exact List.map_id _
    rw [hmap, h3, h4, hrun] at ht
    have c3 := (Prod.mk.inj ht).1
    refine ⟨by simpa using c1, c3, by simpa using c2, ?_, ?_, ?_⟩
    · simp [Actors.measureing_server_reset, c1, c2, c3]
    · simp [Actors.loss_fraction, c3]
    · simp [Actors.megabytes, c2]; norm_num
  · intro s h1 h2 h3 h4
    have hlen : ((List.range' 0 1000).map (packet 1024)).length = 1000 := by simp
    obtain ⟨c1, c2⟩ := feed_counts_brokers 1024 ((List.range' 0 1000).map (packet 1024)) s
      (by intro p hp; obtain ⟨q, _, rfl⟩ := List.mem_map.mp hp; rfl)
      (by rw [h1, hlen]; decide) (by rw [h2, hlen]; decide)
    rw [h1, hlen] at c1
    rw [h2, hlen] at c2
    have ht := feed_brokers ((List.range' 0 1000).map (packet 1024)) s
    have hmap : ((List.range' 0 1000).map (packet 1024)).map data_msg.seq
        = List.range' 0 1000 := by rw [List.map_map]; exact List.map_id _
    rw [hmap, h3, h4, hrun] at ht
    have c3 := (Prod.mk.inj ht).1
    refine ⟨by simpa using c1, c3, by simpa using c2, ?_, ?_, ?_⟩
    · simp [Brokers.server_reset, c1, c2, c3]
    · simp [Brokers.loss_fraction, c3]
    · simp [Brokers.megabytes, c2]; norm_num
  · intro s h1 h2 h3 h4
    have hlen : ((List.range' 0 1000).map (packet 1024)).length = 1000 := by simp
    obtain ⟨c1, c2⟩ := feed_counts_udp 1024 ((List.range' 0 1000).map (packet 1024)) s
      (by intro p hp; obtain ⟨q, _, rfl⟩ := List.mem_map.mp hp; rfl)
      (by rw [h1, hlen]; decide) (by rw [h2, hlen]; decide)
    rw [h1, hlen] at c1
    rw [h2, hlen] at c2
    have ht := feed_udp ((List.range' 0 1000).map (packet 1024)) s
    have hmap : ((List.range' 0 1000).map (packet 1024)).map data_msg.seq
        = List.range' 0 1000 := by rw [List.map_map]; exact List.map_id _
    rw [hmap, h3, h4, hrun] at ht
    have c3 := (Prod.mk.inj ht).1
    refine ⟨by simpa using c1, c3, by simpa using c2, ?_, ?_, ?_⟩
    · simp [UdpBrokers.server_reset, c1, c2, c3]
    · simp [UdpBrokers.loss_fraction, c3]
    · simp [UdpBrokers.megabits, c2]; norm_num
  · intro s h1 h2 h3 h4 h5
    have hlen : ((List.range' 0 1000).map (packet 1024)).length = 1000 := by simp
    obtain ⟨c1, c2⟩ := feed_counts_tcp 1024 ((List.range' 0 1000).map (packet 1024)) s
      (by intro p hp; obtain ⟨q, _, rfl⟩ := List.mem_map.mp hp; rfl)
      (by rw [h1, hlen]; decide) (by rw [h2, hlen]; decide)
    rw [h1, hlen] at c1
    rw [h2, hlen] at c2
    have ht := feed_tcp ((List.range' 0 1000).map (packet 1024)) s
    have hmap : ((List.range' 0 1000).map (packet 1024)).map data_msg.seq
        = List.range' 0 1000 := by rw [List.map_map]; exact List.map_id _
    rw [hmap, h3, h4, hrun] at ht
    have c3 := (Prod.mk.inj ht).1
    have hrep : ∀ ms, (TcpBrokers.feed s ms).reporting = true := by
      intro ms
      induction ms using List.reverseRecOn with
      | nil => exact h5
      | append_singleton ms m ih =>
        simp only [TcpBrokers.feed, List.foldl_append, List.foldl_cons, List.foldl_nil] at ih ⊢
        unfold TcpBrokers.server_new_data_msg
        simp only []
        split_ifs <;> exact ih
    refine ⟨by simpa using c1, c3, by simpa using c2, ?_, ?_, ?_⟩
    · simp [TcpBrokers.server_reset, c1, c2, c3, hrep]
    · simp [TcpBrokers.loss_fraction, c3]
    · simp [TcpBrokers.megabits, c2]; norm_num

/-- C6 (amended), instance: the second packet of an interval on the actors.cpp
server, payload of 956 bytes. -/
theorem C6_accumulate_witness :
    ((1 : Nat) + 1 < UINT64 ∧ (1024 : Nat) + 1024 < UINT64) ∧
    (Actors.measureing_server_data
      { packets_per_interval := 1000, bytes := 1024, received := 1, lost := 0, next := 1 }
      956 1).received = 1 + 1 ∧
    (Actors.measureing_server_data
      { packets_per_interval := 1000, bytes := 1024, received := 1, lost := 0, next := 1 }
      956 1).bytes = 1024 + 1024 :=
  ⟨by decide,
   (C6_accumulate 1 1024 1024 (by decide) (by decide)).1.1.2
      { packets_per_interval := 1000, bytes := 1024, received := 1, lost := 0, next := 1 }
      956 1 rfl rfl rfl⟩

end Caf

namespace Caf

/-! ## Helper lemmas: event queues and effect logs -/

theorem run_with_stopped {σ ε : Type} (step : σ → ε → σ × List Effect) (es : List ε)
    (s : σ) (log : List Effect) (h : stopped log) :
    run_with step (s, log) es = (s, log) := by
  cases es with
  | nil => rfl
  | cons e es => simp only [run_with, if_pos h]

theorem run_with_quit {σ ε : Type} (step : σ → ε → σ × List Effect) (es : List ε)
    (s : σ) (log : List Effect) (h : Effect.quit ∈ log) :
    run_with step (s, log) es = (s, log) :=
  run_with_stopped step es s log (Or.inl h)

theorem run_with_cons {σ ε : Type} (step : σ → ε → σ × List Effect) (e : ε) (es : List ε)
    (s : σ) (log : List Effect) (h : ¬ stopped log) :
    run_with step (s, log) (e :: es)
      = run_with step ((step s e).1, log ++ (step s e).2) es := by
  simp only [run_with, if_neg h]

/-- A property of `(state, log)` that every handler preserves holds after
every queue of events. -/
theorem run_with_invariant {σ ε : Type} (step : σ → ε → σ × List Effect)
    (I : σ × List Effect → Prop)
    (hstep : ∀ s log e, I (s, log) → I ((step s e).1, log ++ (step s e).2)) :
    ∀ (es : List ε) (acc : σ × List Effect), I acc → I (run_with step acc es) := by
  intro es
  induction es with
  | nil => intro acc h; exact h
  | cons e es ih =>
    intro acc h
    obtain ⟨s, log⟩ := acc
    by_cases hq : stopped log
    · rw [run_with_stopped step _ s log hq]; exact h
    · rw [run_with_cons step e es s log hq]
      exact ih _ (hstep s log e h)

theorem run_with_append {σ ε : Type} (step : σ → ε → σ × List Effect) (es1 es2 : List ε) :
    ∀ acc : σ × List Effect,
      run_with step acc (es1 ++ es2) = run_with step (run_with step acc es1) es2 := by
  induction es1 with
  | nil => intro acc; rfl
  | cons e es1 ih =>
    intro acc
    obtain ⟨s, log⟩ := acc
    by_cases hq : stopped log
    · rw [List.cons_append, run_with_stopped step _ s log hq, run_with_stopped step _ s log hq,
        run_with_stopped step _ s log hq]
    · rw [List.cons_append, run_with_cons step e _ s log hq, run_with_cons step e _ s log hq]
      exact ih _

theorem emitted_append (l1 l2 : List Effect) : emitted (l1 ++ l2) = emitted l1 ++ emitted l2 := by
  induction l1 with
  | nil => rfl
  | cons x l1 ih =>
    cases x <;> simp [emitted, ih]

theorem emitted_ping_burst (bundle : Nat) : emitted (ping_burst bundle) = [] := by
  unfold ping_burst
  induction (2 * bundle) % UINT32 with
  | zero => rfl
  | succ n ih => simp [List.replicate_succ, emitted, ih]

/-- The brokers.cpp client starts with `count == 0` and `seq == 0` and has
emitted nothing, whether or not its start-up division succeeds. -/
theorem brokers_client_init (packets bundle : Nat) :
    (Brokers.client packets bundle).1
      = { count := 0, seq := 0, packets := packets, bundle := bundle } ∧
    emitted (Brokers.client packets bundle).2 = [] := by
  unfold Brokers.client
  split_ifs <;> exact ⟨rfl, rfl⟩

end Caf

namespace Caf

/-! ## Helper lemmas: the drain loops of the bundled clients -/

/-- The numbers `n, n+1, ..., n+k-1` reduced modulo `m`. -/
theorem range_mod_cons (m n k : Nat) :
    (List.range' n (k + 1)).map (fun i => i % m)
      = n % m :: (List.range' (n + 1) k).map (fun i => i % m) := by
  rw [List.range'_succ, List.map_cons]

/-- The loop of the tcp_brokers.cpp client: how many packets it emits. -/
theorem tcp_drain_count (fuel : Nat) : ∀ (s : TcpBrokers.c_state),
    s.packets < UINT32 → s.tmp < UINT32 →
    (TcpBrokers.drain fuel s).1.packets = s.packets ∧
    (TcpBrokers.drain fuel s).1.bundle = s.bundle ∧
    (TcpBrokers.drain fuel s).1.servant = s.servant ∧
    (TcpBrokers.drain fuel s).1.count
      = s.count + (emitted (TcpBrokers.drain fuel s).2).length ∧
    (TcpBrokers.drain fuel s).1.tmp + (emitted (TcpBrokers.drain fuel s).2).length = s.tmp ∧
    (s.packets ≤ s.count → emitted (TcpBrokers.drain fuel s).2 = []) ∧
    (s.count ≤ s.packets → (TcpBrokers.drain fuel s).1.count ≤ s.packets) ∧
    Effect.quit ∉ (TcpBrokers.drain fuel s).2 := by
  induction fuel with
  | zero =>
    intro s _ _
    simp [TcpBrokers.drain, emitted]
  | succ fuel ih =>
    intro s hp ht
    unfold TcpBrokers.drain
    by_cases hc : s.count < s.packets ∧ s.tmp > 0
    · rw [if_pos hc]
      have hs1 := ih { s with count := (s.count + 1) % UINT32, seq := (s.seq + 1) % UINT64,
                              tmp := (s.tmp + UINT32 - 1) % UINT32 } hp
        (Nat.mod_lt _ (by decide))
      have hcount : (s.count + 1) % UINT32 = s.count + 1 := Nat.mod_eq_of_lt (by omega)
      have htmp : (s.tmp + UINT32 - 1) % UINT32 = s.tmp - 1 := by
        have h1 : s.tmp + UINT32 - 1 = (s.tmp - 1) + UINT32 := by omega
        rw [h1, Nat.add_mod_right]
        exact Nat.mod_eq_of_lt (by omega)
      simp only [hcount, htmp] at hs1
      obtain ⟨h1, h2, h3, h4, h5, h6, h7, h8⟩ := hs1
      simp only [emitted, List.length_cons, hcount, htmp]
      refine ⟨h1, h2, h3, by omega, by omega, by omega, fun _ => h7 (by omega), ?_⟩
      simp [h8]
    · rw [if_neg hc]
      simp [emitted]

/-- The loop of the tcp_brokers.cpp client: the sequence numbers it emits. -/
theorem tcp_drain_seq (fuel : Nat) : ∀ (s : TcpBrokers.c_state) (n : Nat),
    s.seq = n % UINT64 →
    emitted (TcpBrokers.drain fuel s).2
      = (List.range' n (emitted (TcpBrokers.drain fuel s).2).length).map (fun i => i % UINT64) ∧
    (TcpBrokers.drain fuel s).1.seq
      = (n + (emitted (TcpBrokers.drain fuel s).2).length) % UINT64 := by
  induction fuel with
  | zero =>
    intro s n hseq
    simp [TcpBrokers.drain, emitted, hseq]
  | succ fuel ih =>
    intro s n hseq
    unfold TcpBrokers.drain
    by_cases hc : s.count < s.packets ∧ s.tmp > 0
    · rw [if_pos hc]
      have hs1 := ih { s with count := (s.count + 1) % UINT32, seq := (s.seq + 1) % UINT64,
                              tmp := (s.tmp + UINT32 - 1) % UINT32 } (n + 1)
        (by simp only [hseq]; exact Nat.mod_add_mod n UINT64 1)
      obtain ⟨h8, h9⟩ := hs1
      simp only [emitted, List.length_cons]
      refine ⟨?_, ?_⟩
      · rw [range_mod_cons, ← h8, hseq]
      · rw [h9, Nat.add_assoc, Nat.add_comm 1]
    · rw [if_neg hc]
      simp [emitted, hseq]

/-- The loop of the udp_brokers.cpp client: how many packets it emits. -/
theorem udp_drain_count (a : UdpBrokers.client_args) (cache : List (List Char)) :
    ∀ (count seq : Nat), a.packets < UINT32 →
    (UdpBrokers.drain a count seq cache).1.count
      = count + (emitted (UdpBrokers.drain a count seq cache).2).length ∧
    (UdpBrokers.drain a count seq cache).1.cache.length
      + (emitted (UdpBrokers.drain a count seq cache).2).length = cache.length ∧
    (a.packets ≤ count → emitted (UdpBrokers.drain a count seq cache).2 = []) ∧
    (count ≤ a.packets → (UdpBrokers.drain a count seq cache).1.count ≤ a.packets) ∧
    Effect.quit ∉ (UdpBrokers.drain a count seq cache).2 := by
  induction cache with
  | nil =>
    intro count seq _
    simp [UdpBrokers.drain, emitted]
  | cons buf rest ih =>
    intro count seq hp
    unfold UdpBrokers.drain
    by_cases hc : count < a.packets
    · rw [if_pos hc]
      have hcount : (count + 1) % UINT32 = count + 1 := Nat.mod_eq_of_lt (by omega)
      have hs1 := ih ((count + 1) % UINT32) ((seq + 1) % UINT64) hp
      rw [hcount] at hs1
      obtain ⟨h1, h2, h3, h4, h7⟩ := hs1
      simp only [emitted, List.length_cons, hcount]
      refine ⟨by omega, by omega, by omega, fun _ => h4 (by omega), ?_⟩
      simp [h7]
    · rw [if_neg hc]
      simp [emitted]

/-- The loop of the udp_brokers.cpp client: the sequence numbers it emits. -/
theorem udp_drain_seq (a : UdpBrokers.client_args) (cache : List (List Char)) :
    ∀ (count seq n : Nat), seq = n % UINT64 →
    emitted (UdpBrokers.drain a count seq cache).2
      = (List.range' n (emitted (UdpBrokers.drain a count seq cache).2).length).map
          (fun i => i % UINT64) ∧
    (UdpBrokers.drain a count seq cache).1.seq
      = (n + (emitted (UdpBrokers.drain a count seq cache).2).length) % UINT64 := by
  induction cache with
  | nil =>
    intro count seq n hseq
    simp [UdpBrokers.drain, emitted, hseq]
  | cons buf rest ih =>
    intro count seq n hseq
    unfold UdpBrokers.drain
    by_cases hc : count < a.packets
    · rw [if_pos hc]
      have hs1 := ih ((count + 1) % UINT32) ((seq + 1) % UINT64) (n + 1)
        (by rw [hseq]; exact Nat.mod_add_mod n UINT64 1)
      obtain ⟨h5, h6⟩ := hs1
      simp only [emitted, List.length_cons]
      refine ⟨?_, ?_⟩
      · rw [range_mod_cons, ← h5, hseq]
      · rw [h6, Nat.add_assoc, Nat.add_comm 1]
    · rw [if_neg hc]
      simp [emitted, hseq]

end Caf

namespace Caf

/-! ## Helper lemmas: one client handler at a time -/

theorem actors_client_step_spec (a : Actors.client_actor) (e : Actors.client_event)
    (hp : a.state.packets < UINT32) :
    (Actors.client_step a e).1.state.packets = a.state.packets ∧
    (Actors.client_step a e).1.state.bundle = a.state.bundle ∧
    (a.state.packets ≤ a.state.count → emitted (Actors.client_step a e).2 = []) ∧
    (e ≠ Actors.client_event.reset →
      (Actors.client_step a e).1.state.count
        = a.state.count + (emitted (Actors.client_step a e).2).length) ∧
    (a.state.count ≤ a.state.packets →
      (Actors.client_step a e).1.state.count ≤ a.state.packets) := by
  obtain ⟨beh, s⟩ := a
  have hp1 : s.packets < 4294967296 := hp
  cases e <;> cases beh <;>
    simp only [Actors.client_step, Actors.sending_client_ping, Actors.sending_client_reset,
      UINT32]
  all_goals (try split_ifs)
  all_goals simp [emitted]
  all_goals omega

end Caf

namespace Caf

theorem brokers_client_step_spec (s : Brokers.c_state) (e : Brokers.client_event)
    (hp : s.packets < UINT32) :
    (Brokers.client_step s e).1.packets = s.packets ∧
    (Brokers.client_step s e).1.bundle = s.bundle ∧
    (s.packets ≤ s.count → emitted (Brokers.client_step s e).2 = []) ∧
    (e ≠ Brokers.client_event.reset →
      (Brokers.client_step s e).1.count
        = s.count + (emitted (Brokers.client_step s e).2).length) ∧
    (s.count ≤ s.packets → (Brokers.client_step s e).1.count ≤ s.packets) := by
  have hp1 : s.packets < 4294967296 := hp
  cases e <;>
    simp only [Brokers.client_step, Brokers.client_ping, Brokers.client_datagram_sent_msg,
      Brokers.client_reset, UINT32]
  all_goals (try split_ifs)
  all_goals simp [emitted]
  all_goals omega

theorem tcp_client_step_spec (s : TcpBrokers.c_state) (e : TcpBrokers.client_event)
    (hp : s.packets < UINT32) :
    (TcpBrokers.client_step s e).1.packets = s.packets ∧
    (TcpBrokers.client_step s e).1.bundle = s.bundle ∧
    (s.packets ≤ s.count → emitted (TcpBrokers.client_step s e).2 = []) ∧
    (e ≠ TcpBrokers.client_event.reset →
      (TcpBrokers.client_step s e).1.count
        = s.count + (emitted (TcpBrokers.client_step s e).2).length) ∧
    (s.count ≤ s.packets → (TcpBrokers.client_step s e).1.count ≤ s.packets) := by
  have hp1 : s.packets < 4294967296 := hp
  cases e with
  | new_data hdl =>
    simp [TcpBrokers.client_step, TcpBrokers.client_new_data_msg, emitted_append,
      emitted_ping_burst, emitted]
  | ping =>
    simp only [TcpBrokers.client_step, TcpBrokers.client_ping, UINT32]
    split_ifs
    all_goals simp [emitted]
    all_goals omega
  | data_transferred hdl =>
    simp only [TcpBrokers.client_step, TcpBrokers.client_data_transferred_msg]
    split_ifs
    · obtain ⟨h1, h2, _, h4, _, h6, h7, _⟩ :=
        tcp_drain_count ((s.tmp + 1) % UINT32) { s with tmp := (s.tmp + 1) % UINT32 } hp
          (Nat.mod_lt _ (by decide))
      exact ⟨h1, h2, h6, fun _ => h4, h7⟩
    · simp [emitted]
  | reset =>
    simp [TcpBrokers.client_step, TcpBrokers.client_reset, emitted_append,
      emitted_ping_burst, emitted]
  | shutdown =>
    simp [TcpBrokers.client_step, emitted]

theorem udp_client_step_spec (a : UdpBrokers.client_args) (s : UdpBrokers.c_state)
    (e : UdpBrokers.client_event) (hp : a.packets < UINT32) :
    (a.packets ≤ s.count → emitted (UdpBrokers.client_step a s e).2 = []) ∧
    (e ≠ UdpBrokers.client_event.reset →
      (UdpBrokers.client_step a s e).1.count
        = s.count + (emitted (UdpBrokers.client_step a s e).2).length) ∧
    (s.count ≤ a.packets → (UdpBrokers.client_step a s e).1.count ≤ a.packets) := by
  have hp1 : a.packets < 4294967296 := hp
  cases e with
  | ping =>
    simp only [UdpBrokers.client_step, UdpBrokers.client_ping, UINT32]
    split_ifs
    · cases hcache : s.cache <;> simp [emitted] <;> omega
    · simp [emitted]
  | datagram_sent buf =>
    simp only [UdpBrokers.client_step, UdpBrokers.client_datagram_sent_msg]
    split_ifs
    · obtain ⟨h1, _, h3, h4, _⟩ := udp_drain_count a (buf :: s.cache) s.count s.seq hp
      exact ⟨h3, fun _ => h1, h4⟩
    · simp [emitted]
  | reset =>
    simp [UdpBrokers.client_step, UdpBrokers.client_reset, emitted_append,
      emitted_ping_burst, emitted]
  | servant_closed =>
    simp [UdpBrokers.client_step, emitted]
  | shutdown =>
    simp [UdpBrokers.client_step, emitted]

end Caf

namespace Caf

/-! ## C8 -/

/-- C8: in every client variant (the rate `packets` being a `uint32_t`), a
handler that runs with `count >= packets` emits no packet, every handler but
the reset handler leaves `count` increased by exactly the number of packets it
emitted, `count <= packets` holds in every state reachable from the initial
one under any queue of events, and the reset handler arms the next reset
timer whatever `count` is. -/
theorem C8_count_bounded (packets bundle : Nat) (hp : packets < UINT32) :
    ((∀ (a : Actors.client_actor) (e : Actors.client_event), a.state.packets = packets →
        (packets ≤ a.state.count → emitted (Actors.client_step a e).2 = []) ∧
        (e ≠ Actors.client_event.reset →
          (Actors.client_step a e).1.state.count
            = a.state.count + (emitted (Actors.client_step a e).2).length)) ∧
     (∀ es : List Actors.client_event,
        (run_with Actors.client_step (Actors.handshake_client packets bundle) es).1.state.count
          ≤ packets) ∧
     (∀ s : Actors.c_state, Effect.delayed_send_reset ∈ (Actors.sending_client_reset s).2)) ∧
    ((∀ (s : Brokers.c_state) (e : Brokers.client_event), s.packets = packets →
        (packets ≤ s.count → emitted (Brokers.client_step s e).2 = []) ∧
        (e ≠ Brokers.client_event.reset →
          (Brokers.client_step s e).1.count
            = s.count + (emitted (Brokers.client_step s e).2).length)) ∧
     (∀ es : List Brokers.client_event,
        (run_with Brokers.client_step (Brokers.client packets bundle) es).1.count ≤ packets) ∧
     (∀ s : Brokers.c_state, Effect.delayed_send_reset ∈ (Brokers.client_reset s).2)) ∧
    ((∀ (s : TcpBrokers.c_state) (e : TcpBrokers.client_event), s.packets = packets →
        (packets ≤ s.count → emitted (TcpBrokers.client_step s e).2 = []) ∧
        (e ≠ TcpBrokers.client_event.reset →
          (TcpBrokers.client_step s e).1.count
            = s.count + (emitted (TcpBrokers.client_step s e).2).length)) ∧
     (∀ (hdl : Nat) (es : List TcpBrokers.client_event),
        (run_with TcpBrokers.client_step (TcpBrokers.client hdl packets bundle) es).1.count
          ≤ packets) ∧
     (∀ s : TcpBrokers.c_state, Effect.delayed_send_reset ∈ (TcpBrokers.client_reset s).2)) ∧
    ((∀ (s : UdpBrokers.c_state) (e : UdpBrokers.client_event),
        (packets ≤ s.count →
          emitted (UdpBrokers.client_step { packets := packets, bundle := bundle } s e).2 = []) ∧
        (e ≠ UdpBrokers.client_event.reset →
          (UdpBrokers.client_step { packets := packets, bundle := bundle } s e).1.count
            = s.count
              + (emitted (UdpBrokers.client_step
                  { packets := packets, bundle := bundle } s e).2).length)) ∧
     (∀ es : List UdpBrokers.client_event,
        (run_with (UdpBrokers.client_step { packets := packets, bundle := bundle })
          (UdpBrokers.client { packets := packets, bundle := bundle }) es).1.count ≤ packets) ∧
     (∀ s : UdpBrokers.c_state, Effect.delayed_send_reset
        ∈ (UdpBrokers.client_reset { packets := packets, bundle := bundle } s).2)) := by
  refine ⟨⟨?_, ?_, ?_⟩, ⟨?_, ?_, ?_⟩, ⟨?_, ?_, ?_⟩, ⟨?_, ?_, ?_⟩⟩
  · intro a e ha
    obtain ⟨_, _, h3, h4, _⟩ := actors_client_step_spec a e (by rw [ha]; exact hp)
    rw [ha] at h3
    exact ⟨h3, h4⟩
  · intro es
    have h := run_with_invariant Actors.client_step
      (fun acc => acc.1.state.packets = packets ∧ acc.1.state.count ≤ packets)
      (by
        intro a log e hI
        obtain ⟨h1, _, _, _, h5⟩ := actors_client_step_spec a e (by rw [hI.1]; exact hp)
        exact ⟨by rw [h1]; exact hI.1, by rw [← hI.1]; exact h5 (by rw [hI.1]; exact hI.2)⟩)
      es (Actors.handshake_client packets bundle) ⟨rfl, Nat.zero_le _⟩
    exact h.2
  · intro s; simp [Actors.sending_client_reset]
  · intro s e hs
    obtain ⟨_, _, h3, h4, _⟩ := brokers_client_step_spec s e (by rw [hs]; exact hp)
    rw [hs] at h3
    exact ⟨h3, h4⟩
  · intro es
    have h := run_with_invariant Brokers.client_step
      (fun acc => acc.1.packets = packets ∧ acc.1.count ≤ packets)
      (by
        intro s log e hI
        obtain ⟨h1, _, _, _, h5⟩ := brokers_client_step_spec s e (by rw [hI.1]; exact hp)
        exact ⟨by rw [h1]; exact hI.1, by rw [← hI.1]; exact h5 (by rw [hI.1]; exact hI.2)⟩)
      es (Brokers.client packets bundle)
      (by simp [(brokers_client_init packets bundle).1])
    exact h.2
  · intro s; simp [Brokers.client_reset]
  · intro s e hs
    obtain ⟨_, _, h3, h4, _⟩ := tcp_client_step_spec s e (by rw [hs]; exact hp)
    rw [hs] at h3
    exact ⟨h3, h4⟩
  · intro hdl es
    have h := run_with_invariant TcpBrokers.client_step
      (fun acc => acc.1.packets = packets ∧ acc.1.count ≤ packets)
      (by
        intro s log e hI
        obtain ⟨h1, _, _, _, h5⟩ := tcp_client_step_spec s e (by rw [hI.1]; exact hp)
        exact ⟨by rw [h1]; exact hI.1, by rw [← hI.1]; exact h5 (by rw [hI.1]; exact hI.2)⟩)
      es (TcpBrokers.client hdl packets bundle) ⟨rfl, Nat.zero_le _⟩
    exact h.2
  · intro s; simp [TcpBrokers.client_reset]
  · intro s e
    obtain ⟨h3, h4, _⟩ :=
      udp_client_step_spec { packets := packets, bundle := bundle } s e hp
    exact ⟨h3, h4⟩
  · intro es
    have h := run_with_invariant
      (UdpBrokers.client_step { packets := packets, bundle := bundle })
      (fun acc => acc.1.count ≤ packets)
      (by
        intro s log e hI
        exact (udp_client_step_spec { packets := packets, bundle := bundle } s e hp).2.2 hI)
      es (UdpBrokers.client { packets := packets, bundle := bundle }) (Nat.zero_le _)
    exact h
  · intro s; simp [UdpBrokers.client_reset]

/-- C8, instance: the tcp_brokers.cpp client with `packets = 2`, `bundle = 1`
after the handshake, three pings, a completion and a reset. -/
theorem C8_count_bounded_witness :
    ((2 : Nat) < UINT32) ∧
    (run_with TcpBrokers.client_step (TcpBrokers.client 7 2 1)
      [TcpBrokers.client_event.new_data 7, TcpBrokers.client_event.ping,
       TcpBrokers.client_event.ping, TcpBrokers.client_event.ping,
       TcpBrokers.client_event.data_transferred 7, TcpBrokers.client_event.reset]).1.count
      ≤ 2 :=
  ⟨by decide,
   (C8_count_bounded 2 1 (by decide)).2.2.1.2.1 7
      [TcpBrokers.client_event.new_data 7, TcpBrokers.client_event.ping,
       TcpBrokers.client_event.ping, TcpBrokers.client_event.ping,
       TcpBrokers.client_event.data_transferred 7, TcpBrokers.client_event.reset]⟩

end Caf

namespace Caf

/-! ## Helper lemmas: sequence numbers of emitted packets -/

theorem numbered_extend (m seq seq1 : Nat) (log out : List Effect)
    (h : numbered m seq log)
    (hout : emitted out
      = (List.range' (emitted log).length (emitted out).length).map (fun i => i % m))
    (hseq : seq1 = ((emitted log).length + (emitted out).length) % m) :
    numbered m seq1 (log ++ out) := by
  unfold numbered at *
  rw [emitted_append, List.length_append]
  refine ⟨hseq, ?_⟩
  have happ := List.range'_append_1 0 (emitted log).length (emitted out).length
  rw [Nat.zero_add, Nat.add_comm (emitted out).length] at happ
  rw [← happ, List.map_append, ← h.2, ← hout]

theorem actors_step_seq (a : Actors.client_actor) (e : Actors.client_event) (n : Nat)
    (hseq : a.state.seq = n % UINT32) :
    emitted (Actors.client_step a e).2
      = (List.range' n (emitted (Actors.client_step a e).2).length).map (fun i => i % UINT32) ∧
    (Actors.client_step a e).1.state.seq
      = (n + (emitted (Actors.client_step a e).2).length) % UINT32 := by
  obtain ⟨beh, s⟩ := a
  have hs : s.seq = n % UINT32 := hseq
  have hnext : (n % UINT32 + 1) % UINT32 = (n + 1) % UINT32 := Nat.mod_add_mod n UINT32 1
  cases e <;> cases beh <;>
    simp only [Actors.client_step, Actors.sending_client_ping, Actors.sending_client_reset]
  all_goals (try split_ifs)
  all_goals simp [emitted, hs, hnext]

theorem brokers_step_seq (s : Brokers.c_state) (e : Brokers.client_event) (n : Nat)
    (hseq : s.seq = n % UINT64) :
    emitted (Brokers.client_step s e).2
      = (List.range' n (emitted (Brokers.client_step s e).2).length).map (fun i => i % UINT64) ∧
    (Brokers.client_step s e).1.seq
      = (n + (emitted (Brokers.client_step s e).2).length) % UINT64 := by
  have hnext : (n % UINT64 + 1) % UINT64 = (n + 1) % UINT64 := Nat.mod_add_mod n UINT64 1
  cases e <;>
    simp only [Brokers.client_step, Brokers.client_ping, Brokers.client_datagram_sent_msg,
      Brokers.client_reset]
  all_goals (try split_ifs)
  all_goals simp [emitted, hseq, hnext]

theorem tcp_step_seq (s : TcpBrokers.c_state) (e : TcpBrokers.client_event) (n : Nat)
    (hseq : s.seq = n % UINT64) :
    emitted (TcpBrokers.client_step s e).2
      = (List.range' n (emitted (TcpBrokers.client_step s e).2).length).map
          (fun i => i % UINT64) ∧
    (TcpBrokers.client_step s e).1.seq
      = (n + (emitted (TcpBrokers.client_step s e).2).length) % UINT64 := by
  have hnext : (n % UINT64 + 1) % UINT64 = (n + 1) % UINT64 := Nat.mod_add_mod n UINT64 1
  cases e with
  | new_data hdl =>
    simp [TcpBrokers.client_step, TcpBrokers.client_new_data_msg, emitted_append,
      emitted_ping_burst, emitted, hseq]
  | ping =>
    simp only [TcpBrokers.client_step, TcpBrokers.client_ping]
    split_ifs
    all_goals simp [emitted, hseq, hnext]
  | data_transferred hdl =>
    simp only [TcpBrokers.client_step, TcpBrokers.client_data_transferred_msg]
    split_ifs
    · exact tcp_drain_seq _ _ n hseq
    · simp [emitted, hseq]
  | reset =>
    simp [TcpBrokers.client_step, TcpBrokers.client_reset, emitted_append,
      emitted_ping_burst, emitted, hseq]
  | shutdown =>
    simp [TcpBrokers.client_step, emitted, hseq]

theorem udp_step_seq (a : UdpBrokers.client_args) (s : UdpBrokers.c_state)
    (e : UdpBrokers.client_event) (n : Nat) (hseq : s.seq = n % UINT64) :
    emitted (UdpBrokers.client_step a s e).2
      = (List.range' n (emitted (UdpBrokers.client_step a s e).2).length).map
          (fun i => i % UINT64) ∧
    (UdpBrokers.client_step a s e).1.seq
      = (n + (emitted (UdpBrokers.client_step a s e).2).length) % UINT64 := by
  have hnext : (n % UINT64 + 1) % UINT64 = (n + 1) % UINT64 := Nat.mod_add_mod n UINT64 1
  cases e with
  | ping =>
    simp only [UdpBrokers.client_step, UdpBrokers.client_ping]
    split_ifs
    · cases hcache : s.cache <;> simp [emitted, hseq, hnext]
    · simp [emitted, hseq]
  | datagram_sent buf =>
    simp only [UdpBrokers.client_step, UdpBrokers.client_datagram_sent_msg]
    split_ifs
    · exact udp_drain_seq a _ _ _ n hseq
    · simp [emitted, hseq]
  | reset =>
    simp [UdpBrokers.client_step, UdpBrokers.client_reset, emitted_append,
      emitted_ping_burst, emitted, hseq]
  | servant_closed =>
    simp [UdpBrokers.client_step, emitted, hseq]
  | shutdown =>
    simp [UdpBrokers.client_step, emitted, hseq]

end Caf

namespace Caf

/-- In a numbered log, the packet at index `i` carries `i` as long as `i`
fits the width of the counter. -/
theorem numbered_get (m seq : Nat) (log : List Effect) (h : numbered m seq log) (i : Nat)
    (hi : i < (emitted log).length) : (emitted log)[i]? = some (i % m) := by
  rw [h.2, List.getElem?_map, List.getElem?_range' 0 1 (by simpa using hi)]
  simp

theorem actors_numbered (packets bundle : Nat) (es : List Actors.client_event) :
    numbered UINT32 (Actors.client_run packets bundle es).1.state.seq
      (Actors.client_run packets bundle es).2 := by
  apply run_with_invariant Actors.client_step
    (fun acc => numbered UINT32 acc.1.state.seq acc.2)
  · intro a log e hI
    obtain ⟨h1, h2⟩ := actors_step_seq a e (emitted log).length hI.1
    exact numbered_extend UINT32 a.state.seq _ log _ hI h1 h2
  · exact ⟨rfl, rfl⟩

theorem brokers_numbered (packets bundle : Nat) (es : List Brokers.client_event) :
    numbered UINT64 (Brokers.client_run packets bundle es).1.seq
      (Brokers.client_run packets bundle es).2 := by
  apply run_with_invariant Brokers.client_step (fun acc => numbered UINT64 acc.1.seq acc.2)
  · intro s log e hI
    obtain ⟨h1, h2⟩ := brokers_step_seq s e (emitted log).length hI.1
    exact numbered_extend UINT64 s.seq _ log _ hI h1 h2
  · obtain ⟨h1, h2⟩ := brokers_client_init packets bundle
    refine ⟨?_, ?_⟩
    · rw [h1, h2]; rfl
    · rw [h2]; rfl

theorem tcp_numbered (hdl packets bundle : Nat) (es : List TcpBrokers.client_event) :
    numbered UINT64 (TcpBrokers.client_run hdl packets bundle es).1.seq
      (TcpBrokers.client_run hdl packets bundle es).2 := by
  apply run_with_invariant TcpBrokers.client_step (fun acc => numbered UINT64 acc.1.seq acc.2)
  · intro s log e hI
    obtain ⟨h1, h2⟩ := tcp_step_seq s e (emitted log).length hI.1
    exact numbered_extend UINT64 s.seq _ log _ hI h1 h2
  · exact ⟨rfl, rfl⟩

theorem udp_numbered (a : UdpBrokers.client_args) (es : List UdpBrokers.client_event) :
    numbered UINT64 (UdpBrokers.client_run a es).1.seq (UdpBrokers.client_run a es).2 := by
  apply run_with_invariant (UdpBrokers.client_step a)
    (fun acc => numbered UINT64 acc.1.seq acc.2)
  · intro s log e hI
    obtain ⟨h1, h2⟩ := udp_step_seq a s e (emitted log).length hI.1
    exact numbered_extend UINT64 s.seq _ log _ hI h1 h2
  · refine ⟨?_, ?_⟩ <;>
      simp [UdpBrokers.client, emitted_append, emitted_ping_burst, emitted]

/-- A burst of `n` pings handled by the sending actors.cpp client while the
interval budget lasts: each one emits a packet. -/
theorem actors_pings (n : Nat) : ∀ (s : Actors.c_state) (log : List Effect),
    ¬ stopped log → s.count + n ≤ s.packets → s.packets < UINT32 →
    (run_with Actors.client_step ({ beh := Actors.client_behavior.sending, state := s }, log)
        (List.replicate n Actors.client_event.ping)).1.beh = Actors.client_behavior.sending ∧
    (run_with Actors.client_step ({ beh := Actors.client_behavior.sending, state := s }, log)
        (List.replicate n Actors.client_event.ping)).1.state.count = s.count + n ∧
    (run_with Actors.client_step ({ beh := Actors.client_behavior.sending, state := s }, log)
        (List.replicate n Actors.client_event.ping)).1.state.packets = s.packets ∧
    (emitted (run_with Actors.client_step
        ({ beh := Actors.client_behavior.sending, state := s }, log)
        (List.replicate n Actors.client_event.ping)).2).length = (emitted log).length + n ∧
    ¬ stopped (run_with Actors.client_step
        ({ beh := Actors.client_behavior.sending, state := s }, log)
        (List.replicate n Actors.client_event.ping)).2 := by
  induction n with
  | zero => intro s log hq _ _; exact ⟨rfl, rfl, rfl, rfl, hq⟩
  | succ n ih =>
    intro s log hq hc hp
    rw [List.replicate_succ, run_with_cons _ _ _ _ _ hq]
    have hlt : s.count < s.packets := by omega
    have hstep : Actors.client_step { beh := Actors.client_behavior.sending, state := s }
        Actors.client_event.ping
        = ({ beh := Actors.client_behavior.sending,
             state := { s with count := s.count + 1, seq := (s.seq + 1) % UINT32 } },
           [Effect.send_ping, Effect.send_data s.seq]) := by
      simp only [Actors.client_step, Actors.sending_client_ping, if_pos hlt]
      rw [Nat.mod_eq_of_lt (show s.count + 1 < UINT32 by omega)]
    rw [hstep]
    obtain ⟨h1, h2, h3, h4, h5⟩ := ih { s with count := s.count + 1, seq := (s.seq + 1) % UINT32 }
      (log ++ [Effect.send_ping, Effect.send_data s.seq]) (by simpa [stopped] using hq)
      (by simp only []; omega) hp
    refine ⟨h1, ?_, h3, ?_, h5⟩
    · rw [h2]; simp only []; omega
    · rw [h4, emitted_append]; simp [emitted]; omega

end Caf

namespace Caf

/-- The actors.cpp client at its highest rate: one full interval of pings,
a reset, and two more pings emit 2^32 + 1 packets. -/
theorem actors_long_run :
    (emitted (Actors.client_run 4294967295 10
      (Actors.client_event.start ::
        (List.replicate 4294967295 Actors.client_event.ping ++
          [Actors.client_event.reset, Actors.client_event.ping,
           Actors.client_event.ping]))).2).length = 4294967297 := by
  unfold Actors.client_run Actors.handshake_client
  rw [run_with_cons _ _ _ _ _ (by decide), run_with_append]
  simp only [Actors.client_step]
  obtain ⟨h1, h2, h3, h4, h5⟩ := actors_pings 4294967295
    { count := 0, seq := 0, packets := 4294967295, bundle := 10 }
    ([Effect.send_start 4294967295] ++
      [Effect.print "Sending packets/s", Effect.delayed_send_ping, Effect.delayed_send_reset])
    (by decide) (by decide) (by decide)
  generalize run_with Actors.client_step
    ({ beh := Actors.client_behavior.sending,
       state := { count := 0, seq := 0, packets := 4294967295, bundle := 10 } },
     [Effect.send_start 4294967295] ++
      [Effect.print "Sending packets/s", Effect.delayed_send_ping, Effect.delayed_send_reset])
    (List.replicate 4294967295 Actors.client_event.ping) = r1 at h1 h2 h3 h4 h5 ⊢
  obtain ⟨⟨beh1, s1⟩, log1⟩ := r1
  simp only [] at h1 h2 h3 h4 h5
  subst h1
  rw [run_with_cons _ _ _ _ _ h5]
  simp only [Actors.client_step, Actors.sending_client_reset]
  have h6 := actors_pings 2 { s1 with count := 0 } (log1 ++ [Effect.delayed_send_reset])
    (by simpa [stopped] using h5) (by simp only [h3]; decide) (by simp only [h3]; decide)
  have hrep : [Actors.client_event.ping, Actors.client_event.ping]
      = List.replicate 2 Actors.client_event.ping := rfl
  rw [hrep, h6.2.2.2.1, emitted_append, List.length_append, h4]
  simp [emitted]

/-! ## C9 -/

/-- C9 (as stated, refuted): the actors.cpp client at rate 4294967295 handles
the start reply, 4294967295 pings, a reset and two more pings; it has then
emitted 4294967297 packets, and the last one (k = 4294967297) carries the
sequence number 0, not k - 1: `seq` is a `uint32_t` and wrapped around. -/
theorem C9_counterexample :
    (emitted (Actors.client_run 4294967295 10
      (Actors.client_event.start ::
        (List.replicate 4294967295 Actors.client_event.ping ++
          [Actors.client_event.reset, Actors.client_event.ping,
           Actors.client_event.ping]))).2).length = 4294967297 ∧
    (emitted (Actors.client_run 4294967295 10
      (Actors.client_event.start ::
        (List.replicate 4294967295 Actors.client_event.ping ++
          [Actors.client_event.reset, Actors.client_event.ping,
           Actors.client_event.ping]))).2)[4294967297 - 1]? = some 0 ∧
    (0 : Nat) ≠ 4294967297 - 1 := by
  refine ⟨actors_long_run, ?_, by decide⟩
  rw [numbered_get UINT32 _ _ (actors_numbered 4294967295 10 _) (4294967297 - 1)
    (by rw [actors_long_run]; decide)]
  decide

end Caf

namespace Caf

/-- The first packets of a numbered log carry 0, 1, 2, ... unreduced. -/
theorem numbered_first (m seq : Nat) (log : List Effect) (h : numbered m seq log) (k : Nat)
    (h1 : 1 ≤ k) (h2 : k ≤ (emitted log).length) (h3 : k ≤ m) :
    (emitted log)[k - 1]? = some (k - 1) := by
  rw [numbered_get m seq log h (k - 1) (by omega), Nat.mod_eq_of_lt (by omega)]

/-- C9 (amended): in every client variant `seq` starts at 0, every emitted
packet carries the current `seq` and is followed by `++seq` on a fixed-width
counter, and the reset handler leaves `seq` unchanged; so the k-th packet
emitted since the client started carries `(k - 1) mod 2^32` in actors.cpp and
`(k - 1) mod 2^64` in the three broker variants. The first 2^32 (2^64) packets
therefore carry exactly k - 1: strictly increasing and gap-free across
intervals; after that the numbers start again at 0. -/
theorem C9_sequence_numbers (packets bundle hdl : Nat) :
    ((Actors.handshake_client packets bundle).1.state.seq = 0 ∧
     (∀ s : Actors.c_state, (Actors.sending_client_reset s).1.seq = s.seq) ∧
     (∀ es : List Actors.client_event,
        emitted (Actors.client_run packets bundle es).2
          = (List.range' 0 (emitted (Actors.client_run packets bundle es).2).length).map
              (fun i => i % UINT32) ∧
        (Actors.client_run packets bundle es).1.state.seq
          = (emitted (Actors.client_run packets bundle es).2).length % UINT32 ∧
        (∀ k : Nat, 1 ≤ k → k ≤ (emitted (Actors.client_run packets bundle es).2).length →
          k ≤ UINT32 →
          (emitted (Actors.client_run packets bundle es).2)[k - 1]? = some (k - 1)))) ∧
    ((Brokers.client packets bundle).1.seq = 0 ∧
     (∀ s : Brokers.c_state, (Brokers.client_reset s).1.seq = s.seq) ∧
     (∀ es : List Brokers.client_event,
        emitted (Brokers.client_run packets bundle es).2
          = (List.range' 0 (emitted (Brokers.client_run packets bundle es).2).length).map
              (fun i => i % UINT64) ∧
        (Brokers.client_run packets bundle es).1.seq
          = (emitted (Brokers.client_run packets bundle es).2).length % UINT64 ∧
        (∀ k : Nat, 1 ≤ k → k ≤ (emitted (Brokers.client_run packets bundle es).2).length →
          k ≤ UINT64 →
          (emitted (Brokers.client_run packets bundle es).2)[k - 1]? = some (k - 1)))) ∧
    ((TcpBrokers.client hdl packets bundle).1.seq = 0 ∧
     (∀ s : TcpBrokers.c_state, (TcpBrokers.client_reset s).1.seq = s.seq) ∧
     (∀ es : List TcpBrokers.client_event,
        emitted (TcpBrokers.client_run hdl packets bundle es).2
          = (List.range' 0 (emitted (TcpBrokers.client_run hdl packets bundle es).2).length).map
              (fun i => i % UINT64) ∧
        (TcpBrokers.client_run hdl packets bundle es).1.seq
          = (emitted (TcpBrokers.client_run hdl packets bundle es).2).length % UINT64 ∧
        (∀ k : Nat, 1 ≤ k →
          k ≤ (emitted (TcpBrokers.client_run hdl packets bundle es).2).length →
          k ≤ UINT64 →
          (emitted (TcpBrokers.client_run hdl packets bundle es).2)[k - 1]? = some (k - 1)))) ∧
    ((UdpBrokers.client { packets := packets, bundle := bundle }).1.seq = 0 ∧
     (∀ s : UdpBrokers.c_state,
        (UdpBrokers.client_reset { packets := packets, bundle := bundle } s).1.seq = s.seq) ∧
     (∀ es : List UdpBrokers.client_event,
        emitted (UdpBrokers.client_run { packets := packets, bundle := bundle } es).2
          = (List.range' 0
              (emitted (UdpBrokers.client_run
                { packets := packets, bundle := bundle } es).2).length).map
              (fun i => i % UINT64) ∧
        (UdpBrokers.client_run { packets := packets, bundle := bundle } es).1.seq
          = (emitted (UdpBrokers.client_run
              { packets := packets, bundle := bundle } es).2).length % UINT64 ∧
        (∀ k : Nat, 1 ≤ k →
          k ≤ (emitted (UdpBrokers.client_run
            { packets := packets, bundle := bundle } es).2).length →
          k ≤ UINT64 →
          (emitted (UdpBrokers.client_run { packets := packets, bundle := bundle } es).2)[k - 1]?
            = some (k - 1)))) := by
  refine ⟨⟨rfl, fun _ => rfl, ?_⟩,
    ⟨by rw [(brokers_client_init packets bundle).1], fun _ => rfl, ?_⟩,
    ⟨rfl, fun _ => rfl, ?_⟩, ⟨rfl, fun _ => rfl, ?_⟩⟩
  · intro es
    have h := actors_numbered packets bundle es
    exact ⟨h.2, h.1, fun k h1 h2 h3 => numbered_first _ _ _ h k h1 h2 h3⟩
  · intro es
    have h := brokers_numbered packets bundle es
    exact ⟨h.2, h.1, fun k h1 h2 h3 => numbered_first _ _ _ h k h1 h2 h3⟩
  · intro es
    have h := tcp_numbered hdl packets bundle es
    exact ⟨h.2, h.1, fun k h1 h2 h3 => numbered_first _ _ _ h k h1 h2 h3⟩
  · intro es
    have h := udp_numbered { packets := packets, bundle := bundle } es
    exact ⟨h.2, h.1, fun k h1 h2 h3 => numbered_first _ _ _ h k h1 h2 h3⟩

end Caf

namespace Caf

/-! ## Helper lemmas: pings, completions and credits -/

theorem run_with_snoc {σ ε : Type} (step : σ → ε → σ × List Effect) (es : List ε) (e : ε)
    (acc : σ × List Effect) :
    run_with step acc (es ++ [e])
      = if stopped (run_with step acc es).2 then run_with step acc es
        else ((step (run_with step acc es).1 e).1,
              (run_with step acc es).2 ++ (step (run_with step acc es).1 e).2) := by
  rw [run_with_append]
  generalize run_with step acc es = r
  obtain ⟨s, log⟩ := r
  by_cases hq : stopped log
  · rw [run_with_stopped step _ s log hq, if_pos hq]
  · rw [run_with_cons step e [] s log hq, if_neg hq]
    rfl

theorem pings_sent_append (l1 l2 : List Effect) :
    pings_sent (l1 ++ l2) = pings_sent l1 + pings_sent l2 := by
  unfold pings_sent
  rw [List.count_append, List.count_append]
  omega

theorem pings_sent_burst (bundle : Nat) : pings_sent (ping_burst bundle) = (2 * bundle) % UINT32 := by
  unfold pings_sent ping_burst
  have h0 : List.count Effect.delayed_send_ping
      (List.replicate ((2 * bundle) % UINT32) Effect.send_ping) = 0 := by
    apply List.count_eq_zero.mpr
    intro h
    have := List.eq_of_mem_replicate h
    cases this
  rw [List.count_replicate_self, h0]
  rfl

theorem tcp_drain_no_ping (fuel : Nat) : ∀ s : TcpBrokers.c_state,
    pings_sent (TcpBrokers.drain fuel s).2 = 0 := by
  induction fuel with
  | zero => intro s; rfl
  | succ fuel ih =>
    intro s
    unfold TcpBrokers.drain
    split_ifs
    · have := ih { s with count := (s.count + 1) % UINT32, seq := (s.seq + 1) % UINT64,
                          tmp := (s.tmp + UINT32 - 1) % UINT32 }
      unfold pings_sent at this ⊢
      simp only [List.count_cons]
      simpa using this
    · rfl

theorem udp_drain_no_ping (a : UdpBrokers.client_args) (cache : List (List Char)) :
    ∀ count seq : Nat, pings_sent (UdpBrokers.drain a count seq cache).2 = 0 := by
  induction cache with
  | nil => intro count seq; rfl
  | cons buf rest ih =>
    intro count seq
    unfold UdpBrokers.drain
    split_ifs
    · have := ih ((count + 1) % UINT32) ((seq + 1) % UINT64)
      unfold pings_sent at this ⊢
      simp only [List.count_cons]
      simpa using this
    · rfl

theorem tcp_counts_snoc (es : List TcpBrokers.client_event) (e : TcpBrokers.client_event) :
    TcpBrokers.pings (es ++ [e])
      = TcpBrokers.pings es + (if e = TcpBrokers.client_event.ping then 1 else 0) ∧
    TcpBrokers.resets (es ++ [e])
      = TcpBrokers.resets es + (if e = TcpBrokers.client_event.reset then 1 else 0) ∧
    TcpBrokers.completions (es ++ [e]) = TcpBrokers.completions es + TcpBrokers.completions [e] ∧
    TcpBrokers.responses (es ++ [e]) = TcpBrokers.responses es + TcpBrokers.responses [e] := by
  refine ⟨?_, ?_, ?_, ?_⟩
  · unfold TcpBrokers.pings; rw [List.count_append]; simp [List.count_cons]
  · unfold TcpBrokers.resets; rw [List.count_append]; simp [List.count_cons]
  · induction es with
    | nil => simp [TcpBrokers.completions]
    | cons x es ih => cases x <;> simp [TcpBrokers.completions, ih]; omega
  · induction es with
    | nil => simp [TcpBrokers.responses]
    | cons x es ih => cases x <;> simp [TcpBrokers.responses, ih]; omega

theorem udp_counts_snoc (es : List UdpBrokers.client_event) (e : UdpBrokers.client_event) :
    UdpBrokers.pings (es ++ [e])
      = UdpBrokers.pings es + (if e = UdpBrokers.client_event.ping then 1 else 0) ∧
    UdpBrokers.resets (es ++ [e])
      = UdpBrokers.resets es + (if e = UdpBrokers.client_event.reset then 1 else 0) ∧
    UdpBrokers.completions (es ++ [e])
      = UdpBrokers.completions es + UdpBrokers.completions [e] := by
  refine ⟨?_, ?_, ?_⟩
  · unfold UdpBrokers.pings; rw [List.count_append]; simp [List.count_cons]
  · unfold UdpBrokers.resets; rw [List.count_append]; simp [List.count_cons]
  · induction es with
    | nil => simp [UdpBrokers.completions]
    | cons x es ih => cases x <;> simp [UdpBrokers.completions, ih]; omega

end Caf

namespace Caf

/-- One handler of the udp_brokers.cpp client: packets emitted plus buffers
held grow by at most one, and only for a ping or a completion; pings are sent
to the actor itself only by a reset. -/
theorem udp_step_credit (a : UdpBrokers.client_args) (s : UdpBrokers.c_state)
    (e : UdpBrokers.client_event) (hp : a.packets < UINT32) :
    (emitted (UdpBrokers.client_step a s e).2).length
        + (UdpBrokers.client_step a s e).1.cache.length
      ≤ s.cache.length + UdpBrokers.pings [e] + UdpBrokers.completions [e] ∧
    pings_sent (UdpBrokers.client_step a s e).2
      = ((2 * a.bundle) % UINT32) * UdpBrokers.resets [e] := by
  cases e with
  | ping =>
    simp only [UdpBrokers.client_step, UdpBrokers.client_ping]
    split_ifs
    · cases hcache : s.cache <;>
        simp [hcache, emitted, UdpBrokers.pings, UdpBrokers.completions, UdpBrokers.resets,
          pings_sent]
      omega
    · simp [emitted, UdpBrokers.pings, UdpBrokers.completions, UdpBrokers.resets, pings_sent]
  | datagram_sent buf =>
    simp only [UdpBrokers.client_step, UdpBrokers.client_datagram_sent_msg]
    split_ifs
    · obtain ⟨_, h2, _, _, _⟩ := udp_drain_count a (buf :: s.cache) s.count s.seq hp
      rw [udp_drain_no_ping]
      simp only [List.length_cons] at h2
      simp [UdpBrokers.pings, UdpBrokers.completions, UdpBrokers.resets]
      omega
    · simp [emitted, UdpBrokers.pings, UdpBrokers.completions, UdpBrokers.resets, pings_sent]
  | reset =>
    simp only [UdpBrokers.client_step, UdpBrokers.client_reset]
    rw [pings_sent_append, pings_sent_burst, emitted_append, emitted_ping_burst]
    simp [emitted, UdpBrokers.pings, UdpBrokers.completions, UdpBrokers.resets, pings_sent]
  | servant_closed =>
    simp [UdpBrokers.client_step, emitted, UdpBrokers.pings, UdpBrokers.completions,
      UdpBrokers.resets, pings_sent]
  | shutdown =>
    simp [UdpBrokers.client_step, emitted, UdpBrokers.pings, UdpBrokers.completions,
      UdpBrokers.resets, pings_sent]

/-- One handler of the tcp_brokers.cpp client: packets emitted plus
completions held in `tmp` grow by at most one, and only for a ping or a
completion; pings are sent to the actor itself only by a server response or a
reset. -/
theorem tcp_step_credit (s : TcpBrokers.c_state) (e : TcpBrokers.client_event)
    (hp : s.packets < UINT32) (ht : s.tmp < UINT32) :
    (emitted (TcpBrokers.client_step s e).2).length + (TcpBrokers.client_step s e).1.tmp
      ≤ s.tmp + TcpBrokers.pings [e] + TcpBrokers.completions [e] ∧
    (TcpBrokers.client_step s e).1.tmp < UINT32 ∧
    pings_sent (TcpBrokers.client_step s e).2
      = ((2 * s.bundle) % UINT32) * (TcpBrokers.responses [e] + TcpBrokers.resets [e]) := by
  cases e with
  | new_data hdl =>
    simp only [TcpBrokers.client_step, TcpBrokers.client_new_data_msg]
    rw [pings_sent_append, pings_sent_append, pings_sent_burst, emitted_append, emitted_append,
      emitted_ping_burst]
    simp [emitted, TcpBrokers.pings, TcpBrokers.completions, TcpBrokers.resets,
      TcpBrokers.responses, pings_sent]
    exact ht
  | ping =>
    simp only [TcpBrokers.client_step, TcpBrokers.client_ping]
    split_ifs
    · simp [emitted, TcpBrokers.pings, TcpBrokers.completions, TcpBrokers.resets,
        TcpBrokers.responses, pings_sent]
      exact ⟨by omega, ht⟩
    · simp [emitted, TcpBrokers.pings, TcpBrokers.completions, TcpBrokers.resets,
        TcpBrokers.responses, pings_sent]
      exact ht
  | data_transferred hdl =>
    have hle : (s.tmp + 1) % UINT32 ≤ s.tmp + 1 := Nat.mod_le _ _
    have hlt : (s.tmp + 1) % UINT32 < UINT32 := Nat.mod_lt _ (by decide)
    simp only [TcpBrokers.client_step, TcpBrokers.client_data_transferred_msg]
    split_ifs
    · obtain ⟨_, _, _, _, h5, _, _, _⟩ :=
        tcp_drain_count ((s.tmp + 1) % UINT32) { s with tmp := (s.tmp + 1) % UINT32 } hp hlt
      rw [tcp_drain_no_ping]
      simp only [] at h5
      simp [TcpBrokers.pings, TcpBrokers.completions, TcpBrokers.resets, TcpBrokers.responses]
      constructor <;> omega
    · simp [emitted, TcpBrokers.pings, TcpBrokers.completions, TcpBrokers.resets,
        TcpBrokers.responses, pings_sent]
      exact ⟨hle, hlt⟩
  | reset =>
    simp only [TcpBrokers.client_step, TcpBrokers.client_reset]
    rw [pings_sent_append, pings_sent_burst, emitted_append, emitted_ping_burst]
    simp [emitted, TcpBrokers.pings, TcpBrokers.completions, TcpBrokers.resets,
      TcpBrokers.responses, pings_sent]
    exact ht
  | shutdown =>
    simp [TcpBrokers.client_step, emitted, TcpBrokers.pings, TcpBrokers.completions,
      TcpBrokers.resets, TcpBrokers.responses, pings_sent]
    exact ht

end Caf

namespace Caf

/-- Along every queue of events of the udp_brokers.cpp client: packets
emitted plus buffers held never exceed completions plus pings handled, and
the pings sent to the actor itself never exceed one burst for the start and
one per reset. -/
theorem udp_credit_inv (a : UdpBrokers.client_args) (hp : a.packets < UINT32)
    (es : List UdpBrokers.client_event) :
    (emitted (UdpBrokers.client_run a es).2).length + (UdpBrokers.client_run a es).1.cache.length
      ≤ UdpBrokers.completions es + UdpBrokers.pings es ∧
    pings_sent (UdpBrokers.client_run a es).2
      ≤ ((2 * a.bundle) % UINT32) * (1 + UdpBrokers.resets es) := by
  induction es using List.reverseRecOn with
  | nil =>
    simp only [UdpBrokers.client_run, run_with, UdpBrokers.client]
    rw [emitted_append, emitted_ping_burst, pings_sent_append, pings_sent_burst]
    simp [emitted, pings_sent, UdpBrokers.completions, UdpBrokers.pings, UdpBrokers.resets]
  | append_singleton es e ih =>
    obtain ⟨c1, c2, c3⟩ := udp_counts_snoc es e
    have hp0 : UdpBrokers.pings es ≤ UdpBrokers.pings (es ++ [e]) := by rw [c1]; omega
    have hr0 : UdpBrokers.resets es ≤ UdpBrokers.resets (es ++ [e]) := by rw [c2]; omega
    have hc0 : UdpBrokers.completions es ≤ UdpBrokers.completions (es ++ [e]) := by
      rw [c3]; omega
    unfold UdpBrokers.client_run at ih ⊢
    rw [run_with_snoc]
    split_ifs with hq
    · refine ⟨by omega, le_trans ih.2 (Nat.mul_le_mul_left _ (by omega))⟩
    · obtain ⟨s1, s2⟩ := udp_step_credit a
        (run_with (UdpBrokers.client_step a) (UdpBrokers.client a) es).1 e hp
      simp only [emitted_append, List.length_append, pings_sent_append]
      have hp1 : UdpBrokers.pings [e]
          = if e = UdpBrokers.client_event.ping then 1 else 0 := by
        simp [UdpBrokers.pings, List.count_cons]
      have hr1 : UdpBrokers.resets [e]
          = if e = UdpBrokers.client_event.reset then 1 else 0 := by
        simp [UdpBrokers.resets, List.count_cons]
      rw [c1, c2, c3, ← hp1, ← hr1, s2]
      refine ⟨by omega, ?_⟩
      have ih2 := ih.2
      simp only [Nat.mul_add] at ih2 ⊢
      omega

/-- Along every queue of events of the tcp_brokers.cpp client: packets
emitted plus completions held in `tmp` never exceed completions plus pings
handled, and the pings sent to the actor itself never exceed one burst per
server response and per reset. -/
theorem tcp_credit_inv (hdl packets bundle : Nat) (hp : packets < UINT32)
    (es : List TcpBrokers.client_event) :
    ((TcpBrokers.client_run hdl packets bundle es).1.packets = packets ∧
     (TcpBrokers.client_run hdl packets bundle es).1.bundle = bundle ∧
     (TcpBrokers.client_run hdl packets bundle es).1.tmp < UINT32) ∧
    (emitted (TcpBrokers.client_run hdl packets bundle es).2).length
        + (TcpBrokers.client_run hdl packets bundle es).1.tmp
      ≤ TcpBrokers.completions es + TcpBrokers.pings es ∧
    pings_sent (TcpBrokers.client_run hdl packets bundle es).2
      ≤ ((2 * bundle) % UINT32) * (TcpBrokers.responses es + TcpBrokers.resets es) := by
  induction es using List.reverseRecOn with
  | nil =>
    simp [TcpBrokers.client_run, run_with, TcpBrokers.client, emitted, pings_sent,
      TcpBrokers.completions, TcpBrokers.pings, TcpBrokers.resets, TcpBrokers.responses]
  | append_singleton es e ih =>
    obtain ⟨c1, c2, c3, c4⟩ := tcp_counts_snoc es e
    unfold TcpBrokers.client_run at ih ⊢
    rw [run_with_snoc]
    split_ifs with hq
    · refine ⟨ih.1, ?_, le_trans ih.2.2 (Nat.mul_le_mul_left _ ?_)⟩
      · rw [c1, c3]; omega
      · rw [c2, c4]; omega
    · obtain ⟨⟨i1, i2, i3⟩, i4, i5⟩ := ih
      obtain ⟨s1, s2, s3⟩ := tcp_step_credit
        (run_with TcpBrokers.client_step (TcpBrokers.client hdl packets bundle) es).1 e
        (by rw [i1]; exact hp) i3
      obtain ⟨t1, t2, _⟩ := tcp_client_step_spec
        (run_with TcpBrokers.client_step (TcpBrokers.client hdl packets bundle) es).1 e
        (by rw [i1]; exact hp)
      simp only [emitted_append, List.length_append, pings_sent_append]
      have hp1 : TcpBrokers.pings [e]
          = if e = TcpBrokers.client_event.ping then 1 else 0 := by
        simp [TcpBrokers.pings, List.count_cons]
      have hr1 : TcpBrokers.resets [e]
          = if e = TcpBrokers.client_event.reset then 1 else 0 := by
        simp [TcpBrokers.resets, List.count_cons]
      rw [c1, c2, c3, c4, ← hp1, ← hr1, s3, i2]
      refine ⟨⟨by rw [t1]; exact i1, by rw [t2]; exact i2, s2⟩, by omega, ?_⟩
      simp only [Nat.mul_add] at i5 ⊢
      omega

end Caf

namespace Caf

/-! ## C7 -/

/-- C7 (as stated, refuted): with `bundle = 1` and `packets = 1000`, the
udp_brokers.cpp client is started with two pings queued and the
tcp_brokers.cpp client queues two pings on the server response; after both
pings, and before any completion, two sends are outstanding, more than
`bundle`. -/
theorem C7_counterexample :
    pings_sent (UdpBrokers.client { packets := 1000, bundle := 1 }).2 = 2 ∧
    outstanding_sends
        (UdpBrokers.client_run { packets := 1000, bundle := 1 }
          [UdpBrokers.client_event.ping, UdpBrokers.client_event.ping]).2
        (UdpBrokers.completions [UdpBrokers.client_event.ping, UdpBrokers.client_event.ping])
      = 2 ∧
    pings_sent (TcpBrokers.client_run 7 1000 1 [TcpBrokers.client_event.new_data 7]).2 = 2 ∧
    outstanding_sends
        (TcpBrokers.client_run 7 1000 1
          [TcpBrokers.client_event.new_data 7, TcpBrokers.client_event.ping,
           TcpBrokers.client_event.ping]).2
        (TcpBrokers.completions
          [TcpBrokers.client_event.new_data 7, TcpBrokers.client_event.ping,
           TcpBrokers.client_event.ping])
      = 2 ∧
    ¬ ((2 : Int) ≤ ((1 : Nat) : Int)) := by
  decide

/-- C7 (amended): in the bundled clients (tcp_brokers.cpp and udp_brokers.cpp,
`packets` being a `uint32_t`), under any interleaving of ping, completion and
reset events, the sends issued minus the completions received never exceed
the number of ping events handled: the ping handler sends without consulting
the credits, and only the completion handler is bounded by them. The pings
come in bursts of `2 * bundle` (as a `uint32_t` product), one burst per start
(udp) or server response (tcp) and one per reset; so whenever every handled
ping is one of those, `outstanding_sends` is at most `2 * bundle` times the
number of bursts. It is not bounded by `bundle`. -/
theorem C7_outstanding_bound (packets bundle : Nat) (hp : packets < UINT32) :
    (∀ (hdl : Nat) (es : List TcpBrokers.client_event),
      outstanding_sends (TcpBrokers.client_run hdl packets bundle es).2
          (TcpBrokers.completions es) ≤ (TcpBrokers.pings es : Int) ∧
      pings_sent (TcpBrokers.client_run hdl packets bundle es).2
        ≤ ((2 * bundle) % UINT32) * (TcpBrokers.responses es + TcpBrokers.resets es) ∧
      (TcpBrokers.pings es ≤ pings_sent (TcpBrokers.client_run hdl packets bundle es).2 →
        outstanding_sends (TcpBrokers.client_run hdl packets bundle es).2
            (TcpBrokers.completions es)
          ≤ ((2 * bundle * (TcpBrokers.responses es + TcpBrokers.resets es) : Nat) : Int))) ∧
    (∀ (es : List UdpBrokers.client_event),
      outstanding_sends (UdpBrokers.client_run { packets := packets, bundle := bundle } es).2
          (UdpBrokers.completions es) ≤ (UdpBrokers.pings es : Int) ∧
      pings_sent (UdpBrokers.client_run { packets := packets, bundle := bundle } es).2
        ≤ ((2 * bundle) % UINT32) * (1 + UdpBrokers.resets es) ∧
      (UdpBrokers.pings es
          ≤ pings_sent (UdpBrokers.client_run { packets := packets, bundle := bundle } es).2 →
        outstanding_sends (UdpBrokers.client_run { packets := packets, bundle := bundle } es).2
            (UdpBrokers.completions es)
          ≤ ((2 * bundle * (1 + UdpBrokers.resets es) : Nat) : Int))) := by
  have hmod : (2 * bundle) % UINT32 ≤ 2 * bundle := Nat.mod_le _ _
  refine ⟨?_, ?_⟩
  · intro hdl es
    obtain ⟨_, h2, h3⟩ := tcp_credit_inv hdl packets bundle hp es
    have h4 := le_trans h3 (Nat.mul_le_mul_right (TcpBrokers.responses es + TcpBrokers.resets es)
      hmod)
    refine ⟨?_, h3, ?_⟩
    · unfold outstanding_sends; omega
    · intro h5; unfold outstanding_sends; omega
  · intro es
    obtain ⟨h2, h3⟩ := udp_credit_inv { packets := packets, bundle := bundle } hp es
    have h4 := le_trans h3 (Nat.mul_le_mul_right (1 + UdpBrokers.resets es) hmod)
    refine ⟨?_, h3, ?_⟩
    · unfold outstanding_sends; omega
    · intro h5; unfold outstanding_sends; omega

/-- C7 (amended), instance: the udp_brokers.cpp client with `bundle = 1`,
two pings, one completion, a reset and one more ping. -/
theorem C7_outstanding_bound_witness :
    ((1000 : Nat) < UINT32) ∧
    outstanding_sends
        (UdpBrokers.client_run { packets := 1000, bundle := 1 }
          [UdpBrokers.client_event.ping, UdpBrokers.client_event.ping,
           UdpBrokers.client_event.datagram_sent [], UdpBrokers.client_event.reset,
           UdpBrokers.client_event.ping]).2
        (UdpBrokers.completions
          [UdpBrokers.client_event.ping, UdpBrokers.client_event.ping,
           UdpBrokers.client_event.datagram_sent [], UdpBrokers.client_event.reset,
           UdpBrokers.client_event.ping])
      ≤ (UdpBrokers.pings
          [UdpBrokers.client_event.ping, UdpBrokers.client_event.ping,
           UdpBrokers.client_event.datagram_sent [], UdpBrokers.client_event.reset,
           UdpBrokers.client_event.ping] : Int) :=
  ⟨by decide,
   ((C7_outstanding_bound 1000 1 (by decide)).2
      [UdpBrokers.client_event.ping, UdpBrokers.client_event.ping,
       UdpBrokers.client_event.datagram_sent [], UdpBrokers.client_event.reset,
       UdpBrokers.client_event.ping]).1⟩

end Caf

namespace Caf

/-! ## C10: a second peer of the tcp_brokers.cpp server -/

/-- The `new_data_msg` handler of the tcp_brokers.cpp server does not touch
`reporting`. -/
theorem tcp_data_reporting (s : TcpBrokers.s_state) (msg : data_msg) :
    (TcpBrokers.server_new_data_msg s msg).reporting = s.reporting := by
  unfold TcpBrokers.server_new_data_msg
  simp only []
  split_ifs <;> rfl

/-- One event of the runtime while a session is measured and the connection
`hdl` was never configured: unless the event is a shutdown or the close of
another connection, the session stays reported, `hdl` stays unconfigured, the
server does not stop, and a reset timer is armed exactly when the event is a
reset. -/
theorem tcp_deliver_session (hdl : Nat) (c : TcpBrokers.s_state × List Effect)
    (e : TcpBrokers.wire_event)
    (hrep : c.1.reporting = true) (hcfg : Effect.configure_read hdl ∉ c.2)
    (hrun : ¬ stopped c.2)
    (h1 : e ≠ TcpBrokers.wire_event.shutdown)
    (h2 : ∀ h, e = TcpBrokers.wire_event.closed h → h = hdl) :
    (TcpBrokers.deliver c e).1.reporting = true ∧
    Effect.configure_read hdl ∉ (TcpBrokers.deliver c e).2 ∧
    ¬ stopped (TcpBrokers.deliver c e).2 ∧
    armed_resets (TcpBrokers.deliver c e).2
      = armed_resets c.2 + TcpBrokers.wire_resets [e] := by
  obtain ⟨s, log⟩ := c
  simp only at hrep hcfg hrun
  simp only [stopped, not_or] at hrun
  cases e with
  | accept h =>
    simp [TcpBrokers.deliver, TcpBrokers.connection, TcpBrokers.to_event,
      TcpBrokers.server_step, TcpBrokers.server_new_connection_msg, hrep, hcfg, hrun,
      stopped, armed_resets, TcpBrokers.wire_resets]
  | data h msg =>
    by_cases hc : Effect.configure_read h ∈ log
    · simp [TcpBrokers.deliver, TcpBrokers.connection, TcpBrokers.to_event,
        TcpBrokers.server_step, hc, hrep, hcfg, hrun, stopped, armed_resets,
        TcpBrokers.wire_resets, tcp_data_reporting]
    · simp [TcpBrokers.deliver, TcpBrokers.connection, hc, hrep, hcfg, hrun, stopped,
        armed_resets, TcpBrokers.wire_resets]
  | closed h =>
    have hh : h = hdl := h2 h rfl
    subst hh
    simp [TcpBrokers.deliver, TcpBrokers.connection, hrep, hcfg, hrun, stopped,
      armed_resets, TcpBrokers.wire_resets]
  | reset =>
    simp [TcpBrokers.deliver, TcpBrokers.connection, TcpBrokers.to_event,
      TcpBrokers.server_step, TcpBrokers.server_reset, hrep, hcfg, hrun, stopped,
      armed_resets, TcpBrokers.wire_resets, List.count_append]
  | shutdown => exact absurd rfl h1

/-- A queue of events of the runtime while a session is measured and the
connection `hdl` was never configured. -/
theorem tcp_wire_run_session (hdl : Nat) (es : List TcpBrokers.wire_event) :
    ∀ c : TcpBrokers.s_state × List Effect,
      c.1.reporting = true → Effect.configure_read hdl ∉ c.2 → ¬ stopped c.2 →
      (∀ e ∈ es, e ≠ TcpBrokers.wire_event.shutdown ∧
        ∀ h, e = TcpBrokers.wire_event.closed h → h = hdl) →
      (TcpBrokers.wire_run c es).1.reporting = true ∧
      ¬ stopped (TcpBrokers.wire_run c es).2 ∧
      armed_resets (TcpBrokers.wire_run c es).2
        = armed_resets c.2 + TcpBrokers.wire_resets es := by
  induction es with
  | nil =>
    intro c hrep _ hrun _
    exact ⟨hrep, hrun, rfl⟩
  | cons e es ih =>
    intro c hrep hcfg hrun hes
    have he := hes e (List.mem_cons_self _ _)
    obtain ⟨d1, d2, d3, d4⟩ := tcp_deliver_session hdl c e hrep hcfg hrun he.1 he.2
    obtain ⟨r1, r2, r3⟩ := ih (TcpBrokers.deliver c e) d1 d2 d3
      (fun x hx => hes x (List.mem_cons_of_mem _ hx))
    have hw : TcpBrokers.wire_run c (e :: es)
        = TcpBrokers.wire_run (TcpBrokers.deliver c e) es := by
      simp only [TcpBrokers.wire_run, if_neg hrun]
    rw [hw]
    refine ⟨r1, r2, ?_⟩
    rw [r3, d4]
    simp only [TcpBrokers.wire_resets, List.count_cons, List.count_nil]
    omega

/-- What happens on a connection that was never configured changes nothing in
the server. -/
theorem tcp_wire_run_unconfigured (hdl : Nat) (es : List TcpBrokers.wire_event) :
    ∀ c : TcpBrokers.s_state × List Effect,
      Effect.configure_read hdl ∉ c.2 →
      (∀ e ∈ es, TcpBrokers.of_peer hdl e = true) →
      TcpBrokers.wire_run c es = c := by
  induction es with
  | nil => intro c _ _; rfl
  | cons e es ih =>
    intro c hcfg hes
    have he := hes e (List.mem_cons_self _ _)
    simp only [TcpBrokers.of_peer, decide_eq_true_eq] at he
    have hd : TcpBrokers.deliver c e = c := by
      simp only [TcpBrokers.deliver, he, if_neg hcfg]
    by_cases hst : stopped c.2
    · simp only [TcpBrokers.wire_run, if_pos hst]
    · simp only [TcpBrokers.wire_run, if_neg hst, hd]
      exact ih c hcfg (fun x hx => hes x (List.mem_cons_of_mem _ hx))

/-- C10: in the tcp_brokers.cpp server, let a session be measured
(`reporting == true`, the server has not quit) and let a second peer connect
on a new handle `hdl`, one the server never called `configure_read` for.
Handling its `new_connection_msg` leaves the whole state as it is (`received`,
`bytes`, `lost`, `next` and `reporting` among it), arms no reset timer, writes
no start handshake to `hdl` and does not call `configure_read` for `hdl`: the
peer is rejected with a printed line only. The runtime reports what happens
on a connection to the broker only once the broker has called
`configure_read` for it, so no later event of the rejected peer (bytes it
sends, its connection closing) reaches a handler: a queue of such events
leaves state and output of the server exactly as they were. And in every
queue of later events that holds no shutdown and no close of another
connection (events of the rejected peer, data of the measured session, reset
timers, further connection attempts) `reporting` stays true, the server keeps
running and every reset arms the next one: the number of armed timers grows by
the number of resets handled. -/
theorem C10_rejected_peer (s : TcpBrokers.s_state) (log : List Effect) (hdl : Nat)
    (hrep : s.reporting = true)
    (hcfg : Effect.configure_read hdl ∉ log)
    (hrun : ¬ stopped log) :
    (TcpBrokers.server_new_connection_msg s hdl).1 = s ∧
    (TcpBrokers.deliver (s, log) (TcpBrokers.wire_event.accept hdl)).1 = s ∧
    (TcpBrokers.deliver (s, log) (TcpBrokers.wire_event.accept hdl)).2
      = log ++ [Effect.print "No support for multiple enpoints."] ∧
    Effect.delayed_send_reset ∉ (TcpBrokers.server_new_connection_msg s hdl).2 ∧
    Effect.write_start hdl ∉ (TcpBrokers.server_new_connection_msg s hdl).2 ∧
    Effect.configure_read hdl ∉ (TcpBrokers.server_new_connection_msg s hdl).2 ∧
    armed_resets (TcpBrokers.deliver (s, log) (TcpBrokers.wire_event.accept hdl)).2
      = armed_resets log ∧
    (∀ es : List TcpBrokers.wire_event,
      (∀ e ∈ es, TcpBrokers.of_peer hdl e = true) →
      TcpBrokers.wire_run
          (TcpBrokers.deliver (s, log) (TcpBrokers.wire_event.accept hdl)) es
        = TcpBrokers.deliver (s, log) (TcpBrokers.wire_event.accept hdl)) ∧
    (∀ es : List TcpBrokers.wire_event,
      (∀ e ∈ es, e ≠ TcpBrokers.wire_event.shutdown ∧
        ∀ h, e = TcpBrokers.wire_event.closed h → h = hdl) →
      (TcpBrokers.wire_run
          (TcpBrokers.deliver (s, log) (TcpBrokers.wire_event.accept hdl)) es).1.reporting
        = true ∧
      ¬ stopped (TcpBrokers.wire_run
          (TcpBrokers.deliver (s, log) (TcpBrokers.wire_event.accept hdl)) es).2 ∧
      armed_resets (TcpBrokers.wire_run
          (TcpBrokers.deliver (s, log) (TcpBrokers.wire_event.accept hdl)) es).2
        = armed_resets log + TcpBrokers.wire_resets es) := by
  have hs : TcpBrokers.server_new_connection_msg s hdl
      = (s, [Effect.print "No support for multiple enpoints."]) := by
    simp [TcpBrokers.server_new_connection_msg, hrep]
  have hd : TcpBrokers.deliver (s, log) (TcpBrokers.wire_event.accept hdl)
      = (s, log ++ [Effect.print "No support for multiple enpoints."]) := by
    simp only [TcpBrokers.deliver, TcpBrokers.connection, TcpBrokers.to_event,
      TcpBrokers.server_step, hs]
  have hcfg1 : Effect.configure_read hdl
      ∉ log ++ [Effect.print "No support for multiple enpoints."] := by
    simp [hcfg]
  have hrun1 : ¬ stopped (log ++ [Effect.print "No support for multiple enpoints."]) := by
    simp only [stopped, not_or] at hrun ⊢
    simp [hrun]
  have harm : armed_resets (log ++ [Effect.print "No support for multiple enpoints."])
      = armed_resets log := by
    simp [armed_resets, List.count_append]
  rw [hd, hs]
  refine ⟨rfl, rfl, rfl, by simp, by simp, by simp, harm, ?_, ?_⟩
  · intro es hes
    exact tcp_wire_run_unconfigured hdl es _ hcfg1 hes
  · intro es hes
    obtain ⟨r1, r2, r3⟩ := tcp_wire_run_session hdl es
      (s, log ++ [Effect.print "No support for multiple enpoints."]) hrep hcfg1 hrun1 hes
    exact ⟨r1, r2, by rw [r3, harm]⟩

/-- C10 on a run: the server accepts peer 1, rejects peer 2, peer 2 sends a
packet and closes, and the reset timer fires: the session of peer 1 is still
reported and the reset armed the next one. -/
theorem C10_rejected_peer_witness :
    (TcpBrokers.server_new_connection_msg TcpBrokers.server_init.1 1).1.reporting = true ∧
    Effect.configure_read 2
      ∉ TcpBrokers.server_init.2
          ++ (TcpBrokers.server_new_connection_msg TcpBrokers.server_init.1 1).2 ∧
    ¬ stopped (TcpBrokers.server_init.2
          ++ (TcpBrokers.server_new_connection_msg TcpBrokers.server_init.1 1).2) ∧
    (TcpBrokers.wire_run
        (TcpBrokers.deliver
          ((TcpBrokers.server_new_connection_msg TcpBrokers.server_init.1 1).1,
           TcpBrokers.server_init.2
             ++ (TcpBrokers.server_new_connection_msg TcpBrokers.server_init.1 1).2)
          (TcpBrokers.wire_event.accept 2))
        [TcpBrokers.wire_event.data 2 (packet 1024 0), TcpBrokers.wire_event.closed 2,
         TcpBrokers.wire_event.reset]).1.reporting = true ∧
    armed_resets (TcpBrokers.wire_run
        (TcpBrokers.deliver
          ((TcpBrokers.server_new_connection_msg TcpBrokers.server_init.1 1).1,
           TcpBrokers.server_init.2
             ++ (TcpBrokers.server_new_connection_msg TcpBrokers.server_init.1 1).2)
          (TcpBrokers.wire_event.accept 2))
        [TcpBrokers.wire_event.data 2 (packet 1024 0), TcpBrokers.wire_event.closed 2,
         TcpBrokers.wire_event.reset]).2 = 2 :=
  have h := (C10_rejected_peer
      (TcpBrokers.server_new_connection_msg TcpBrokers.server_init.1 1).1
      (TcpBrokers.server_init.2
        ++ (TcpBrokers.server_new_connection_msg TcpBrokers.server_init.1 1).2)
      2 (by decide) (by decide) (by decide)).2.2.2.2.2.2.2.2
      [TcpBrokers.wire_event.data 2 (packet 1024 0), TcpBrokers.wire_event.closed 2,
       TcpBrokers.wire_event.reset]
      (by
        intro e he
        simp only [List.mem_cons, List.mem_singleton, List.not_mem_nil, or_false] at he
        rcases he with rfl | rfl | rfl <;> simp)
  ⟨by decide, by decide, by decide, h.1, h.2.2⟩

end Caf

namespace Caf

/-! ## C11 -/

/-- C11 (as stated, refuted): actors.cpp in client mode with a payload of 0
bytes, smaller than its `message_overhead` of 68, is not rejected: `caf_main`
spawns the client with that payload. -/
theorem C11_counterexample :
    Actors.message_overhead = 68 ∧
    ({ Actors.default_config with payload := 0 } : Actors.config).payload
      < Actors.message_overhead ∧
    ({ Actors.default_config with payload := 0 } : Actors.config).server = false ∧
    Actors.caf_main { Actors.default_config with payload := 0 }
      = main_result.client_spawned 0 1000 10 := by
  decide

/-- C11 (amended): in client mode of brokers.cpp, tcp_brokers.cpp and
udp_brokers.cpp, every configuration whose payload size is smaller than
`message_overhead` (10) is rejected by `caf_main` and no client is spawned,
and whenever a broker client is spawned its payload has exactly
`cfg.payload - message_overhead` bytes, with no unsigned underflow.
actors.cpp makes no such check: there `cfg.payload` is the length of the
payload itself, and in client mode (no debug flag, server reachable) with a
rate other than 0 the client is spawned with a payload of `cfg.payload` bytes
whatever that length is. With rate 0, actors.cpp (the ping delay
`one * bundle / rate`) and brokers.cpp (`one / packets / 3` in the client
body) divide by zero, and no client runs. -/
theorem C11_payload_check (cfg : broker_config) (hclient : cfg.is_server = false)
    (hpay : cfg.payload < UINT32) :
    (Brokers.message_overhead = 10 ∧ UdpBrokers.message_overhead = 10 ∧
      TcpBrokers.message_overhead = 10 ∧ Actors.message_overhead = 68) ∧
    (cfg.payload < 10 →
      (∃ line, Brokers.caf_main cfg = main_result.rejected line) ∧
      (∃ line, UdpBrokers.caf_main cfg = main_result.rejected line) ∧
      (∃ line, TcpBrokers.caf_main cfg = main_result.rejected line)) ∧
    (∀ len packets bundle : Nat,
      (Brokers.caf_main cfg = main_result.client_spawned len packets bundle →
        10 ≤ cfg.payload ∧ len + 10 = cfg.payload) ∧
      (UdpBrokers.caf_main cfg = main_result.client_spawned len packets bundle →
        10 ≤ cfg.payload ∧ len + 10 = cfg.payload) ∧
      (TcpBrokers.caf_main cfg = main_result.client_spawned len packets bundle →
        10 ≤ cfg.payload ∧ len + 10 = cfg.payload)) ∧
    (cfg.middleman_enabled = true → 10 ≤ cfg.payload →
      (cfg.rate ≠ 0 →
        Brokers.caf_main cfg
          = main_result.client_spawned (cfg.payload - 10) cfg.rate cfg.bundle) ∧
      (cfg.rate = 0 → Brokers.caf_main cfg = main_result.division_by_zero) ∧
      UdpBrokers.caf_main cfg
        = main_result.client_spawned (cfg.payload - 10) cfg.rate cfg.bundle ∧
      TcpBrokers.caf_main cfg
        = main_result.client_spawned (cfg.payload - 10) cfg.rate cfg.bundle) ∧
    (∀ acfg : Actors.config, acfg.debug = false → acfg.server = false →
      acfg.reachable = true →
      (acfg.rate ≠ 0 →
        Actors.caf_main acfg
          = main_result.client_spawned acfg.payload acfg.rate acfg.bundle) ∧
      (acfg.rate = 0 → Actors.caf_main acfg = main_result.division_by_zero)) ∧
    (∀ (bundle : Nat) (es : List Brokers.client_event),
      Brokers.client_run 0 bundle es = Brokers.client 0 bundle ∧
      (Brokers.client_run 0 bundle es).2 = [Effect.division_by_zero]) := by
  have hp1 : cfg.payload < 4294967296 := hpay
  have e64 : 10 ≤ cfg.payload →
      (cfg.payload + UINT64 - 10) % UINT64 = cfg.payload - 10 := by
    intro h
    simp only [UINT64]
    omega
  have e32 : 10 ≤ cfg.payload →
      (cfg.payload + UINT32 - 10) % UINT32 = cfg.payload - 10 := by
    intro h
    simp only [UINT32]
    omega
  refine ⟨⟨rfl, rfl, rfl, rfl⟩, ?_, ?_, ?_, ?_, ?_⟩
  · intro hlt
    by_cases hm : cfg.middleman_enabled = true
    · refine ⟨⟨"Payload needs to be at least 10 bytes", ?_⟩,
        ⟨"Payload needs to be at least 10 bytes", ?_⟩,
        ⟨"Payload needs to be at least 10 bytes.", ?_⟩⟩
      · simp [Brokers.caf_main, hm, hclient, Brokers.message_overhead, hlt]
      · simp [UdpBrokers.caf_main, hm, hclient, UdpBrokers.message_overhead, hlt]
      · simp [TcpBrokers.caf_main, hm, hclient, TcpBrokers.message_overhead, hlt]
    · refine ⟨⟨"please enable UDP in CAF", ?_⟩, ⟨"please enable UDP in CAF", ?_⟩,
        ⟨"Please enable TCP in CAF.", ?_⟩⟩
      · simp [Brokers.caf_main, hm]
      · simp [UdpBrokers.caf_main, hm]
      · simp [TcpBrokers.caf_main, hm]
  · intro len packets bundle
    refine ⟨?_, ?_, ?_⟩
    · intro h
      by_cases hm : cfg.middleman_enabled = true
      · by_cases hlt : cfg.payload < 10
        · simp [Brokers.caf_main, hm, hclient, Brokers.message_overhead, hlt] at h
        · have hge : 10 ≤ cfg.payload := by omega
          by_cases hr : cfg.rate = 0
          · simp [Brokers.caf_main, hm, hclient, Brokers.message_overhead, hlt, hr] at h
          · simp [Brokers.caf_main, hm, hclient, Brokers.message_overhead, hlt, hr,
              e64 hge] at h
            exact ⟨hge, by omega⟩
      · simp [Brokers.caf_main, hm] at h
    · intro h
      by_cases hm : cfg.middleman_enabled = true
      · by_cases hlt : cfg.payload < 10
        · simp [UdpBrokers.caf_main, hm, hclient, UdpBrokers.message_overhead, hlt] at h
        · have hge : 10 ≤ cfg.payload := by omega
          simp [UdpBrokers.caf_main, hm, hclient, UdpBrokers.message_overhead, hlt,
            e64 hge] at h
          exact ⟨hge, by omega⟩
      · simp [UdpBrokers.caf_main, hm] at h
    · intro h
      by_cases hm : cfg.middleman_enabled = true
      · by_cases hlt : cfg.payload < 10
        · simp [TcpBrokers.caf_main, hm, hclient, TcpBrokers.message_overhead, hlt] at h
        · have hge : 10 ≤ cfg.payload := by omega
          simp [TcpBrokers.caf_main, hm, hclient, TcpBrokers.message_overhead, hlt,
            e32 hge] at h
          exact ⟨hge, by omega⟩
      · simp [TcpBrokers.caf_main, hm] at h
  · intro hm hge
    have hlt : ¬ cfg.payload < 10 := by omega
    refine ⟨?_, ?_, ?_, ?_⟩
    · intro hr
      simp [Brokers.caf_main, hm, hclient, Brokers.message_overhead, hlt, hr, e64 hge]
    · intro hr
      simp [Brokers.caf_main, hm, hclient, Brokers.message_overhead, hlt, hr]
    · simp [UdpBrokers.caf_main, hm, hclient, UdpBrokers.message_overhead, hlt, e64 hge]
    · simp [TcpBrokers.caf_main, hm, hclient, TcpBrokers.message_overhead, hlt, e32 hge]
  · intro acfg h1 h2 h3
    refine ⟨?_, ?_⟩
    · intro h4
      simp [Actors.caf_main, h1, h2, h3, h4]
    · intro h4
      simp [Actors.caf_main, h1, h2, h3, h4]
  · intro bundle es
    have h : Brokers.client_run 0 bundle es = Brokers.client 0 bundle := by
      unfold Brokers.client_run Brokers.client
      rw [if_pos rfl]
      exact run_with_stopped _ es _ _ (Or.inr (List.mem_singleton_self _))
    refine ⟨h, ?_⟩
    rw [h]
    rfl

/-- C11 (amended), instance: udp_brokers.cpp in client mode with a payload
size of 9 is rejected, with 1024 the client gets 1014 payload bytes. -/
theorem C11_payload_check_witness :
    ((({ is_server := false, rate := 1000, bundle := 1, payload := 9,
         middleman_enabled := true, spawn_ok := true } : broker_config).is_server = false) ∧
     ({ is_server := false, rate := 1000, bundle := 1, payload := 9,
         middleman_enabled := true, spawn_ok := true } : broker_config).payload < UINT32) ∧
    (∃ line, UdpBrokers.caf_main
      { is_server := false, rate := 1000, bundle := 1, payload := 9,
        middleman_enabled := true, spawn_ok := true } = main_result.rejected line) ∧
    UdpBrokers.caf_main
      { is_server := false, rate := 1000, bundle := 1, payload := 1024,
        middleman_enabled := true, spawn_ok := true }
      = main_result.client_spawned 1014 1000 1 :=
  ⟨⟨rfl, by decide⟩,
   ((C11_payload_check
      { is_server := false, rate := 1000, bundle := 1, payload := 9,
        middleman_enabled := true, spawn_ok := true } rfl (by decide)).2.1 (by decide)).2.1,
   by decide⟩

end Caf

namespace Caf

/-! ## C12 -/

/-- C12 (the code at the failing input): the shutdown handler quits the actor
in the Idle and Measuring server and the Sending client of actors.cpp and in
every broker server and client, and an actor that has quit handles nothing
more. But the behaviour returned by `handshake_client` has a `start_atom`
handler only: a shutdown that reaches the actors.cpp client while it is
Handshaking is dropped, the client does not stop, and the start reply that
follows still moves it to Sending. -/
theorem C12_shutdown_handshake :
    ((∀ a : Actors.server_actor,
        Effect.quit ∈ (Actors.server_step a Actors.server_event.shutdown).2) ∧
     (∀ s : Brokers.statistics,
        Effect.quit ∈ (Brokers.server_step s Brokers.server_event.shutdown).2) ∧
     (∀ s : UdpBrokers.statistics,
        Effect.quit ∈ (UdpBrokers.server_step s UdpBrokers.server_event.shutdown).2) ∧
     (∀ s : TcpBrokers.s_state,
        Effect.quit ∈ (TcpBrokers.server_step s TcpBrokers.server_event.shutdown).2)) ∧
    ((∀ s : Actors.c_state,
        Effect.quit ∈ (Actors.client_step
          { beh := Actors.client_behavior.sending, state := s }
          Actors.client_event.shutdown).2) ∧
     (∀ s : Brokers.c_state,
        Effect.quit ∈ (Brokers.client_step s Brokers.client_event.shutdown).2) ∧
     (∀ s : TcpBrokers.c_state,
        Effect.quit ∈ (TcpBrokers.client_step s TcpBrokers.client_event.shutdown).2) ∧
     (∀ (a : UdpBrokers.client_args) (s : UdpBrokers.c_state),
        Effect.quit ∈ (UdpBrokers.client_step a s UdpBrokers.client_event.shutdown).2)) ∧
    (∀ (s : Actors.server_actor) (log : List Effect) (es : List Actors.server_event),
        Effect.quit ∈ log → run_with Actors.server_step (s, log) es = (s, log)) ∧
    (∀ s : Actors.c_state,
        Actors.client_step { beh := Actors.client_behavior.handshake, state := s }
          Actors.client_event.shutdown
        = ({ beh := Actors.client_behavior.handshake, state := s }, [])) ∧
    (∀ packets bundle : Nat,
        Effect.quit ∉ (Actors.client_run packets bundle [Actors.client_event.shutdown]).2 ∧
        (Actors.client_run packets bundle [Actors.client_event.shutdown]).1.beh
          = Actors.client_behavior.handshake ∧
        (Actors.client_run packets bundle
          [Actors.client_event.shutdown, Actors.client_event.start]).1.beh
          = Actors.client_behavior.sending) := by
  refine ⟨⟨?_, ?_, ?_, ?_⟩, ⟨?_, ?_, ?_, ?_⟩, ?_, ?_, ?_⟩
  · intro a; simp [Actors.server_step]
  · intro s; simp [Brokers.server_step]
  · intro s; simp [UdpBrokers.server_step]
  · intro s; simp [TcpBrokers.server_step]
  · intro s; simp [Actors.client_step]
  · intro s; simp [Brokers.client_step]
  · intro s; simp [TcpBrokers.client_step]
  · intro a s; simp [UdpBrokers.client_step]
  · intro s log es h; exact run_with_quit _ es s log h
  · intro s; rfl
  · intro packets bundle
    simp [Actors.client_run, Actors.handshake_client, run_with, Actors.client_step, stopped]

end Caf

namespace Caf

/-! ## C13 -/

/-- While the server measures and nothing arrives from outside, each
simulation step is the delivery of the one pending reset, one second after
the previous event; it re-arms the reset and renews the receive timeout. -/
theorem sim_measuring_step (s : Actors.statistics) (t : Nat) :
    Actors.sim_next
      { actor := { beh := Actors.server_behavior.measureing, state := s }, now := t,
        resets := [t + 1], deadline := some (t + 5) }
      = { actor := { beh := Actors.server_behavior.measureing,
                     state := (Actors.measureing_server_reset s).1 },
          now := t + 1, resets := [t + 1 + 1], deadline := some (t + 1 + 5) } := by
  simp [Actors.sim_next, Actors.sim_deliver, Actors.server_step, Actors.measureing_server_reset,
    armed_resets, Actors.request_timeout, Actors.interval, Actors.idle_timeout]

theorem sim_measuring_run (k : Nat) : ∀ (s : Actors.statistics) (t : Nat),
    ∃ s1 : Actors.statistics,
      Actors.sim_run k
        { actor := { beh := Actors.server_behavior.measureing, state := s }, now := t,
          resets := [t + 1], deadline := some (t + 5) }
      = { actor := { beh := Actors.server_behavior.measureing, state := s1 },
          now := t + k, resets := [t + k + 1], deadline := some (t + k + 5) } := by
  induction k with
  | zero => intro s t; exact ⟨s, rfl⟩
  | succ k ih =>
    intro s t
    obtain ⟨s1, h⟩ := ih (Actors.measureing_server_reset s).1 (t + 1)
    refine ⟨s1, ?_⟩
    rw [Actors.sim_run, sim_measuring_step, h]
    have e : t + 1 + k = t + (k + 1) := by omega
    rw [e]

/-- C13 (the code at the failing input): the actors.cpp server enters
Measuring at time `t` and then receives no data packet and no start. Its own
reset message is delivered every second, and every handled message renews
the 5-second receive timeout; so after any number `k` of seconds, in
particular after 5, the server is still Measuring, with the next reset due in
one second and the timeout 5 seconds away: the transition to Idle is
missed. -/
theorem C13_timeout_never_fires (t num_packets : Nat) :
    (Actors.sim_measuring t num_packets).actor.beh = Actors.server_behavior.measureing ∧
    (Actors.sim_measuring t num_packets).resets = [t + 1] ∧
    (Actors.sim_measuring t num_packets).deadline = some (t + 5) ∧
    (∀ k : Nat,
      (Actors.sim_run k (Actors.sim_measuring t num_packets)).actor.beh
        = Actors.server_behavior.measureing ∧
      (Actors.sim_run k (Actors.sim_measuring t num_packets)).now = t + k ∧
      (Actors.sim_run k (Actors.sim_measuring t num_packets)).resets = [t + k + 1] ∧
      (Actors.sim_run k (Actors.sim_measuring t num_packets)).deadline = some (t + k + 5)) ∧
    (Actors.sim_run 5 (Actors.sim_measuring t num_packets)).now = t + 5 ∧
    (Actors.sim_run 5 (Actors.sim_measuring t num_packets)).actor.beh
      ≠ Actors.server_behavior.idle := by
  have h0 : Actors.sim_measuring t num_packets
      = { actor := { beh := Actors.server_behavior.measureing,
                     state := Actors.idle_server_start Actors.statistics.zero num_packets },
          now := t, resets := [t + 1], deadline := some (t + 5) } := by
    simp [Actors.sim_measuring, Actors.sim_deliver, Actors.sim_spawn, Actors.server_spawn,
      Actors.server_step, armed_resets, Actors.request_timeout, Actors.interval,
      Actors.idle_timeout]
  have hk : ∀ k : Nat,
      (Actors.sim_run k (Actors.sim_measuring t num_packets)).actor.beh
        = Actors.server_behavior.measureing ∧
      (Actors.sim_run k (Actors.sim_measuring t num_packets)).now = t + k ∧
      (Actors.sim_run k (Actors.sim_measuring t num_packets)).resets = [t + k + 1] ∧
      (Actors.sim_run k (Actors.sim_measuring t num_packets)).deadline = some (t + k + 5) := by
    intro k
    obtain ⟨s1, h⟩ := sim_measuring_run k
      (Actors.idle_server_start Actors.statistics.zero num_packets) t
    rw [h0, h]
    exact ⟨rfl, rfl, rfl, rfl⟩
  refine ⟨by rw [h0], by rw [h0], by rw [h0], hk, (hk 5).2.1, ?_⟩
  rw [(hk 5).1]
  decide

end Caf

namespace Caf

/-! ## Helper lemmas: how far the drain loops go -/

/-- With at least `tmp` iterations allowed, the tcp loop emits
`min tmp (packets - count)` packets: it stops for lack of credits or of
budget, not for lack of fuel. -/
theorem tcp_drain_length (fuel : Nat) : ∀ s : TcpBrokers.c_state,
    s.tmp ≤ fuel → s.packets < UINT32 → s.tmp < UINT32 →
    (emitted (TcpBrokers.drain fuel s).2).length = min s.tmp (s.packets - s.count) := by
  induction fuel with
  | zero =>
    intro s h _ _
    have : s.tmp = 0 := by omega
    simp [TcpBrokers.drain, emitted, this]
  | succ fuel ih =>
    intro s h hp ht
    unfold TcpBrokers.drain
    by_cases hc : s.count < s.packets ∧ s.tmp > 0
    · rw [if_pos hc]
      have hcount : (s.count + 1) % UINT32 = s.count + 1 := Nat.mod_eq_of_lt (by omega)
      have htmp : (s.tmp + UINT32 - 1) % UINT32 = s.tmp - 1 := by
        have h1 : s.tmp + UINT32 - 1 = (s.tmp - 1) + UINT32 := by omega
        rw [h1, Nat.add_mod_right]
        exact Nat.mod_eq_of_lt (by omega)
      have hs1 := ih { s with count := (s.count + 1) % UINT32, seq := (s.seq + 1) % UINT64,
                              tmp := (s.tmp + UINT32 - 1) % UINT32 }
        (by simp only [htmp]; omega) hp (Nat.mod_lt _ (by decide))
      simp only [hcount, htmp] at hs1
      simp only [emitted, List.length_cons, hcount, htmp, hs1]
      omega
    · rw [if_neg hc]
      simp only [emitted, List.length_nil]
      omega

/-- The udp loop emits `min (cache size) (packets - count)` packets. -/
theorem udp_drain_length (a : UdpBrokers.client_args) (cache : List (List Char)) :
    ∀ count seq : Nat, a.packets < UINT32 →
    (emitted (UdpBrokers.drain a count seq cache).2).length
      = min cache.length (a.packets - count) := by
  induction cache with
  | nil => intro count seq _; simp [UdpBrokers.drain, emitted]
  | cons buf rest ih =>
    intro count seq hp
    unfold UdpBrokers.drain
    by_cases hc : count < a.packets
    · rw [if_pos hc]
      have hcount : (count + 1) % UINT32 = count + 1 := Nat.mod_eq_of_lt (by omega)
      have hs1 := ih ((count + 1) % UINT32) ((seq + 1) % UINT64) hp
      rw [hcount] at hs1
      simp only [emitted, List.length_cons, hcount, hs1]
      omega
    · rw [if_neg hc]
      simp only [emitted, List.length_nil, List.length_cons]
      omega

end Caf

namespace Caf

/-! ## C14 -/

/-- C14 (as stated, refuted): the tcp_brokers.cpp client holds
`tmp = 4294967295` credits with `bundle = 1`, `count = 0` and `packets = 10`.
One more completion makes the `uint32_t` counter wrap to 0, so the handler
emits nothing and holds 0 credits, where the claim expects
`min(c + 1, packets - count) = 10` packets. -/
theorem C14_counterexample :
    released 4294967295 1 0 10 = 10 ∧
    emitted (TcpBrokers.client_data_transferred_msg
      { count := 0, seq := 0, packets := 10, tmp := 4294967295, bundle := 1, servant := 7 }
      7).2 = [] ∧
    (TcpBrokers.client_data_transferred_msg
      { count := 0, seq := 0, packets := 10, tmp := 4294967295, bundle := 1, servant := 7 }
      7).1.tmp = 0 ∧
    (TcpBrokers.client_data_transferred_msg
      { count := 0, seq := 0, packets := 10, tmp := 4294967295, bundle := 1, servant := 7 }
      7).1.count = 0 := by
  decide

/-- C14 (amended): in the bundled clients, for every state with
`count <= packets` in which the new credit fits the counter (`c + 1 < 2^32`
for `tmp` in tcp_brokers.cpp; the cache of udp_brokers.cpp has no such
limit), handling one send completion while `c` credits are held emits exactly
`k` packets, where `k = min(c + 1, packets - count)` if `c + 1 >= bundle` and
`k = 0` otherwise. They carry `seq, seq + 1, ...` modulo 2^64; afterwards
`count` has grown by `k`, `seq` by `k` modulo 2^64, the credits held equal
`c + 1 - k`, and the drain loop has ended because its condition is false. -/
theorem C14_completion_drain (packets bundle : Nat) (hp : packets < UINT32) :
    (∀ (s : TcpBrokers.c_state) (hdl : Nat), s.packets = packets → s.bundle = bundle →
      s.count ≤ packets → s.tmp + 1 < UINT32 → s.seq < UINT64 →
      (emitted (TcpBrokers.client_data_transferred_msg s hdl).2).length
        = released s.tmp bundle s.count packets ∧
      emitted (TcpBrokers.client_data_transferred_msg s hdl).2
        = (List.range' s.seq (released s.tmp bundle s.count packets)).map
            (fun i => i % UINT64) ∧
      (TcpBrokers.client_data_transferred_msg s hdl).1.count
        = s.count + released s.tmp bundle s.count packets ∧
      (TcpBrokers.client_data_transferred_msg s hdl).1.seq
        = (s.seq + released s.tmp bundle s.count packets) % UINT64 ∧
      (TcpBrokers.client_data_transferred_msg s hdl).1.tmp
        = s.tmp + 1 - released s.tmp bundle s.count packets ∧
      (bundle ≤ s.tmp + 1 →
        ¬ ((TcpBrokers.client_data_transferred_msg s hdl).1.count
              < (TcpBrokers.client_data_transferred_msg s hdl).1.packets ∧
            (TcpBrokers.client_data_transferred_msg s hdl).1.tmp > 0))) ∧
    (∀ (s : UdpBrokers.c_state) (buf : List Char), s.count ≤ packets → s.seq < UINT64 →
      (emitted (UdpBrokers.client_datagram_sent_msg
          { packets := packets, bundle := bundle } s buf).2).length
        = released s.cache.length bundle s.count packets ∧
      emitted (UdpBrokers.client_datagram_sent_msg
          { packets := packets, bundle := bundle } s buf).2
        = (List.range' s.seq (released s.cache.length bundle s.count packets)).map
            (fun i => i % UINT64) ∧
      (UdpBrokers.client_datagram_sent_msg
          { packets := packets, bundle := bundle } s buf).1.count
        = s.count + released s.cache.length bundle s.count packets ∧
      (UdpBrokers.client_datagram_sent_msg
          { packets := packets, bundle := bundle } s buf).1.seq
        = (s.seq + released s.cache.length bundle s.count packets) % UINT64 ∧
      (UdpBrokers.client_datagram_sent_msg
          { packets := packets, bundle := bundle } s buf).1.cache.length
        = s.cache.length + 1 - released s.cache.length bundle s.count packets ∧
      (bundle ≤ s.cache.length + 1 →
        ¬ ((UdpBrokers.client_datagram_sent_msg
              { packets := packets, bundle := bundle } s buf).1.count < packets ∧
            (UdpBrokers.client_datagram_sent_msg
              { packets := packets, bundle := bundle } s buf).1.cache ≠ []))) := by
  refine ⟨?_, ?_⟩
  · intro s hdl hpk hb hc ht hseq
    subst hpk
    subst hb
    have hs : s.seq = s.seq % UINT64 := (Nat.mod_eq_of_lt hseq).symm
    have htmp : (s.tmp + 1) % UINT32 = s.tmp + 1 := Nat.mod_eq_of_lt ht
    unfold TcpBrokers.client_data_transferred_msg released
    simp only [htmp, ge_iff_le]
    by_cases hbd : s.bundle ≤ s.tmp + 1
    · rw [if_pos hbd, if_pos hbd]
      obtain ⟨d1, _, _, d4, d5, _, _, _⟩ :=
        tcp_drain_count (s.tmp + 1) { s with tmp := s.tmp + 1 } hp ht
      obtain ⟨q1, q2⟩ := tcp_drain_seq (s.tmp + 1) { s with tmp := s.tmp + 1 } s.seq hs
      have hl := tcp_drain_length (s.tmp + 1) { s with tmp := s.tmp + 1 } (le_refl _) hp ht
      simp only [] at d1 d4 d5 hl
      rw [hl] at d4 d5 q1 q2
      refine ⟨hl, q1, d4, q2, by omega, fun _ => ?_⟩
      rw [d1, d4]
      omega
    · rw [if_neg hbd, if_neg hbd]
      simp [emitted, Nat.mod_eq_of_lt hseq]
      intro h
      exact absurd h hbd
  · intro s buf hc hseq
    have hs : s.seq = s.seq % UINT64 := (Nat.mod_eq_of_lt hseq).symm
    unfold UdpBrokers.client_datagram_sent_msg released
    simp only [List.length_cons, ge_iff_le]
    by_cases hbd : bundle ≤ s.cache.length + 1
    · rw [if_pos hbd, if_pos hbd]
      obtain ⟨d1, d2, _, _, _⟩ := udp_drain_count { packets := packets, bundle := bundle }
        (buf :: s.cache) s.count s.seq hp
      obtain ⟨q1, q2⟩ := udp_drain_seq { packets := packets, bundle := bundle }
        (buf :: s.cache) s.count s.seq s.seq hs
      have hl := udp_drain_length { packets := packets, bundle := bundle }
        (buf :: s.cache) s.count s.seq hp
      simp only [List.length_cons] at d2 hl
      rw [hl] at d1 d2 q1 q2
      refine ⟨hl, q1, d1, q2, by omega, fun _ => ?_⟩
      rw [d1]
      intro hx
      have : (UdpBrokers.drain { packets := packets, bundle := bundle } s.count s.seq
          (buf :: s.cache)).1.cache.length ≠ 0 := by
        intro h0
        exact hx.2 (List.length_eq_zero.mp h0)
      omega
    · rw [if_neg hbd, if_neg hbd]
      simp [emitted, Nat.mod_eq_of_lt hseq]
      intro h
      exact absurd h hbd

/-- C14 (amended), instance: the tcp_brokers.cpp client with `bundle = 3`,
two credits held and 5 packets of budget left emits 3 packets on the third
completion. -/
theorem C14_completion_drain_witness :
    ((10 : Nat) < UINT32) ∧
    (emitted (TcpBrokers.client_data_transferred_msg
      { count := 5, seq := 105, packets := 10, tmp := 2, bundle := 3, servant := 7 } 7).2).length
      = released 2 3 5 10 ∧
    released 2 3 5 10 = 3 :=
  ⟨by decide,
   ((C14_completion_drain 10 3 (by decide)).1
      { count := 5, seq := 105, packets := 10, tmp := 2, bundle := 3, servant := 7 } 7
      rfl rfl (by decide) (by decide) (by decide)).1,
   by decide⟩

end Caf

namespace Caf

/-! ## Helper lemmas: pending reset timers -/

theorem brokers_pending (es : List Brokers.server_event) :
    ∀ (s s1 : Brokers.statistics) (p : Nat),
      pending_run Brokers.server_step Brokers.is_reset (s, 1) es = some (s1, p) → p = 1 := by
  induction es with
  | nil =>
    intro s s1 p h
    simp only [pending_run, Option.some.injEq, Prod.mk.injEq] at h
    exact h.2.symm
  | cons e es ih =>
    intro s s1 p h
    cases e with
    | new_datagram msg =>
      simp [pending_run, Brokers.is_reset, Brokers.server_step, armed_resets] at h
      exact ih _ _ _ h
    | reset =>
      simp [pending_run, Brokers.is_reset, Brokers.server_step, Brokers.server_reset,
        armed_resets] at h
      exact ih _ _ _ h
    | shutdown =>
      simp [pending_run, Brokers.is_reset, Brokers.server_step, armed_resets] at h
      exact h.2.symm

theorem udp_pending (es : List UdpBrokers.server_event) :
    ∀ (s s1 : UdpBrokers.statistics) (p : Nat),
      pending_run UdpBrokers.server_step UdpBrokers.is_reset (s, 1) es = some (s1, p) →
      p = 1 := by
  induction es with
  | nil =>
    intro s s1 p h
    simp only [pending_run, Option.some.injEq, Prod.mk.injEq] at h
    exact h.2.symm
  | cons e es ih =>
    intro s s1 p h
    cases e with
    | new_datagram msg =>
      simp [pending_run, UdpBrokers.is_reset, UdpBrokers.server_step, armed_resets] at h
      exact ih _ _ _ h
    | reset =>
      simp [pending_run, UdpBrokers.is_reset, UdpBrokers.server_step, UdpBrokers.server_reset,
        armed_resets] at h
      exact ih _ _ _ h
    | shutdown =>
      simp [pending_run, UdpBrokers.is_reset, UdpBrokers.server_step, armed_resets] at h
      exact h.2.symm

/-- In the actors.cpp server, as long as the `after` clause does not fire, no
timer is pending while it is idle and exactly one while it measures. -/
theorem actors_pending (es : List Actors.server_event) :
    ∀ (a a1 : Actors.server_actor) (p p1 : Nat),
      Actors.server_event.timeout ∉ es →
      (a.beh = Actors.server_behavior.idle → p = 0) →
      (a.beh = Actors.server_behavior.measureing → p = 1) →
      pending_run Actors.server_step Actors.is_reset (a, p) es = some (a1, p1) → p1 ≤ 1 := by
  induction es with
  | nil =>
    intro a a1 p p1 _ hi hm h
    simp only [pending_run, Option.some.injEq, Prod.mk.injEq] at h
    cases hb : a.beh
    · have := hi hb; omega
    · have := hm hb; omega
  | cons e es ih =>
    intro a a1 p p1 hto hi hm h
    have hto1 : Actors.server_event.timeout ∉ es := fun hx => hto (List.mem_cons_of_mem _ hx)
    obtain ⟨beh, s⟩ := a
    cases beh with
    | idle =>
      have hp : p = 0 := hi rfl
      subst hp
      cases e with
      | start n =>
        simp [pending_run, Actors.is_reset, Actors.server_step, armed_resets] at h
        exact ih _ _ _ _ hto1 (by simp) (by simp) h
      | data sz seq =>
        simp [pending_run, Actors.is_reset, Actors.server_step, armed_resets] at h
        exact ih _ _ _ _ hto1 (by simp) (by simp) h
      | reset =>
        simp [pending_run, Actors.is_reset] at h
      | shutdown =>
        simp [pending_run, Actors.is_reset, Actors.server_step, armed_resets] at h
        omega
      | timeout => exact absurd (List.mem_cons_self _ _) hto
    | measureing =>
      have hp : p = 1 := hm rfl
      subst hp
      cases e with
      | start n =>
        simp [pending_run, Actors.is_reset, Actors.server_step, armed_resets] at h
        exact ih _ _ _ _ hto1 (by simp) (by simp) h
      | data sz seq =>
        simp [pending_run, Actors.is_reset, Actors.server_step, armed_resets] at h
        exact ih _ _ _ _ hto1 (by simp) (by simp) h
      | reset =>
        simp [pending_run, Actors.is_reset, Actors.server_step, Actors.measureing_server_reset,
          armed_resets] at h
        exact ih _ _ _ _ hto1 (by simp) (by simp) h
      | shutdown =>
        simp [pending_run, Actors.is_reset, Actors.server_step, armed_resets] at h
        omega
      | timeout => exact absurd (List.mem_cons_self _ _) hto

end Caf

namespace Caf

/-! ## C15 -/

/-- C15 (the code at the failing input): in brokers.cpp and udp_brokers.cpp
exactly one reset timer is pending after every queue of events, and in
actors.cpp at most one as long as the `after` clause has not fired. In
tcp_brokers.cpp a client connects, disconnects, and a client connects again
before the pending reset has fired: the second connection arms a second
timer, two resets are pending, each of them finds `reporting == true`,
reports and re-arms itself, so two timers stay pending and the
report-and-reset handler runs twice per interval. -/
theorem C15_second_timer :
    (∀ (es : List Brokers.server_event) (s1 : Brokers.statistics) (p : Nat),
      pending_run Brokers.server_step Brokers.is_reset
        (Brokers.server_init.1, armed_resets Brokers.server_init.2) es = some (s1, p) →
      p ≤ 1) ∧
    (∀ (es : List UdpBrokers.server_event) (s1 : UdpBrokers.statistics) (p : Nat),
      pending_run UdpBrokers.server_step UdpBrokers.is_reset
        (UdpBrokers.server_init.1, armed_resets UdpBrokers.server_init.2) es = some (s1, p) →
      p ≤ 1) ∧
    (∀ (es : List Actors.server_event) (a1 : Actors.server_actor) (p : Nat),
      Actors.server_event.timeout ∉ es →
      pending_run Actors.server_step Actors.is_reset
        (Actors.server_spawn.1, armed_resets Actors.server_spawn.2) es = some (a1, p) →
      p ≤ 1) ∧
    (pending_run TcpBrokers.server_step TcpBrokers.is_reset
        (TcpBrokers.server_init.1, armed_resets TcpBrokers.server_init.2)
        [TcpBrokers.server_event.new_connection 1,
         TcpBrokers.server_event.connection_closed 1,
         TcpBrokers.server_event.new_connection 2]).map Prod.snd = some 2 ∧
    (pending_run TcpBrokers.server_step TcpBrokers.is_reset
        (TcpBrokers.server_init.1, armed_resets TcpBrokers.server_init.2)
        [TcpBrokers.server_event.new_connection 1,
         TcpBrokers.server_event.connection_closed 1,
         TcpBrokers.server_event.new_connection 2,
         TcpBrokers.server_event.reset,
         TcpBrokers.server_event.reset]).map Prod.snd = some 2 ∧
    reports (run_with TcpBrokers.server_step TcpBrokers.server_init
        [TcpBrokers.server_event.new_connection 1,
         TcpBrokers.server_event.connection_closed 1,
         TcpBrokers.server_event.new_connection 2,
         TcpBrokers.server_event.reset,
         TcpBrokers.server_event.reset]).2 = 2 := by
  refine ⟨?_, ?_, ?_, ?_, ?_, ?_⟩
  · intro es s1 p h
    have := brokers_pending es _ s1 p h
    omega
  · intro es s1 p h
    have := udp_pending es _ s1 p h
    omega
  · intro es a1 p hto h
    exact actors_pending es _ a1 _ p hto (fun _ => rfl) (fun hb => by cases hb) h
  · simp [pending_run, TcpBrokers.is_reset, TcpBrokers.server_step,
      TcpBrokers.server_new_connection_msg, TcpBrokers.server_connection_closed_msg,
      TcpBrokers.server_init, armed_resets]
  · simp [pending_run, TcpBrokers.is_reset, TcpBrokers.server_step,
      TcpBrokers.server_new_connection_msg, TcpBrokers.server_connection_closed_msg,
      TcpBrokers.server_reset, TcpBrokers.server_init, armed_resets]
  · simp [run_with, TcpBrokers.server_step, TcpBrokers.server_new_connection_msg,
      TcpBrokers.server_connection_closed_msg, TcpBrokers.server_reset,
      TcpBrokers.server_init, reports]

end Caf

namespace Caf

/-! ## Helper lemmas: `received == 0` implies `lost == 0` -/

theorem zero_over_zero_append (log out : List Effect) (h : zero_over_zero log)
    (hout : zero_over_zero out) : zero_over_zero (log ++ out) := by
  intro r l b hm
  rcases List.mem_append.mp hm with h1 | h1
  · exact h r l b h1
  · exact hout r l b h1

theorem brokers_zero_inv (es : List Brokers.server_event) :
    ∀ (s : Brokers.statistics) (log : List Effect) (n : Nat),
      s.received = n → n < UINT64 → (n = 0 → s.lost = 0) → zero_over_zero log →
      Brokers.burst_ok n es = true →
      ((run_with Brokers.server_step (s, log) es).1.received = 0 →
        (run_with Brokers.server_step (s, log) es).1.lost = 0) ∧
      zero_over_zero (run_with Brokers.server_step (s, log) es).2 := by
  induction es with
  | nil =>
    intro s log n hr _ hz hlog _
    exact ⟨fun h => hz (by rw [← hr]; exact h), hlog⟩
  | cons e es ih =>
    intro s log n hr hn hz hlog hb
    by_cases hq : stopped log
    · rw [run_with_stopped _ _ s log hq]
      exact ⟨fun h => hz (by rw [← hr]; exact h), hlog⟩
    · rw [run_with_cons _ _ _ s log hq]
      cases e with
      | new_datagram msg =>
        simp only [Brokers.burst_ok, Bool.and_eq_true, decide_eq_true_eq] at hb
        have hc := (counts_brokers s msg).1
        rw [hr, Nat.mod_eq_of_lt hb.1] at hc
        simp only [Brokers.server_step, List.append_nil]
        exact ih _ log (n + 1) hc hb.1 (by omega) hlog hb.2
      | reset =>
        simp only [Brokers.burst_ok] at hb
        simp only [Brokers.server_step, Brokers.server_reset]
        refine ih _ _ 0 rfl (by decide) (fun _ => rfl) (zero_over_zero_append _ _ hlog ?_) hb
        intro r l b hm h0
        simp at hm
        obtain ⟨h1, h2, _⟩ := hm
        exact h2 ▸ hz (by rw [← hr, ← h1]; exact h0)
      | shutdown =>
        simp only [Brokers.server_step]
        rw [run_with_quit _ _ _ _ (by simp)]
        refine ⟨fun h => hz (by rw [← hr]; exact h), zero_over_zero_append _ _ hlog ?_⟩
        intro r l b hm
        simp at hm

end Caf

namespace Caf

theorem udp_zero_inv (es : List UdpBrokers.server_event) :
    ∀ (s : UdpBrokers.statistics) (log : List Effect) (n : Nat),
      s.received = n → n < UINT64 → (n = 0 → s.lost = 0) → zero_over_zero log →
      UdpBrokers.burst_ok n es = true →
      ((run_with UdpBrokers.server_step (s, log) es).1.received = 0 →
        (run_with UdpBrokers.server_step (s, log) es).1.lost = 0) ∧
      zero_over_zero (run_with UdpBrokers.server_step (s, log) es).2 := by
  induction es with
  | nil =>
    intro s log n hr _ hz hlog _
    exact ⟨fun h => hz (by rw [← hr]; exact h), hlog⟩
  | cons e es ih =>
    intro s log n hr hn hz hlog hb
    by_cases hq : stopped log
    · rw [run_with_stopped _ _ s log hq]
      exact ⟨fun h => hz (by rw [← hr]; exact h), hlog⟩
    · rw [run_with_cons _ _ _ s log hq]
      cases e with
      | new_datagram msg =>
        simp only [UdpBrokers.burst_ok, Bool.and_eq_true, decide_eq_true_eq] at hb
        have hc := (counts_udp s msg).1
        rw [hr, Nat.mod_eq_of_lt hb.1] at hc
        simp only [UdpBrokers.server_step, List.append_nil]
        exact ih _ log (n + 1) hc hb.1 (by omega) hlog hb.2
      | reset =>
        simp only [UdpBrokers.burst_ok] at hb
        simp only [UdpBrokers.server_step, UdpBrokers.server_reset]
        refine ih _ _ 0 rfl (by decide) (fun _ => rfl) (zero_over_zero_append _ _ hlog ?_) hb
        intro r l b hm h0
        simp at hm
        obtain ⟨h1, h2, _⟩ := hm
        exact h2 ▸ hz (by rw [← hr, ← h1]; exact h0)
      | shutdown =>
        simp only [UdpBrokers.server_step]
        rw [run_with_quit _ _ _ _ (by simp)]
        refine ⟨fun h => hz (by rw [← hr]; exact h), zero_over_zero_append _ _ hlog ?_⟩
        intro r l b hm
        simp at hm

theorem tcp_zero_inv (es : List TcpBrokers.server_event) :
    ∀ (s : TcpBrokers.s_state) (log : List Effect) (n : Nat),
      s.received = n → n < UINT64 → (n = 0 → s.lost = 0) → zero_over_zero log →
      TcpBrokers.burst_ok n es = true →
      ((run_with TcpBrokers.server_step (s, log) es).1.received = 0 →
        (run_with TcpBrokers.server_step (s, log) es).1.lost = 0) ∧
      zero_over_zero (run_with TcpBrokers.server_step (s, log) es).2 := by
  induction es with
  | nil =>
    intro s log n hr _ hz hlog _
    exact ⟨fun h => hz (by rw [← hr]; exact h), hlog⟩
  | cons e es ih =>
    intro s log n hr hn hz hlog hb
    by_cases hq : stopped log
    · rw [run_with_stopped _ _ s log hq]
      exact ⟨fun h => hz (by rw [← hr]; exact h), hlog⟩
    · rw [run_with_cons _ _ _ s log hq]
      cases e with
      | new_connection hdl =>
        simp only [TcpBrokers.burst_ok] at hb
        simp only [TcpBrokers.server_step, TcpBrokers.server_new_connection_msg]
        split_ifs
        · refine ih _ _ n hr hn hz (zero_over_zero_append _ _ hlog ?_) hb
          intro r l b hm
          simp at hm
        · refine ih _ _ n hr hn hz (zero_over_zero_append _ _ hlog ?_) hb
          intro r l b hm
          simp at hm
      | connection_closed hdl =>
        simp only [TcpBrokers.burst_ok] at hb
        simp only [TcpBrokers.server_step, TcpBrokers.server_connection_closed_msg]
        refine ih _ _ n hr hn hz (zero_over_zero_append _ _ hlog ?_) hb
        intro r l b hm
        simp at hm
      | new_data msg =>
        simp only [TcpBrokers.burst_ok, Bool.and_eq_true, decide_eq_true_eq] at hb
        have hc := (counts_tcp s msg).1
        rw [hr, Nat.mod_eq_of_lt hb.1] at hc
        simp only [TcpBrokers.server_step, List.append_nil]
        exact ih _ log (n + 1) hc hb.1 (by omega) hlog hb.2
      | reset =>
        simp only [TcpBrokers.burst_ok] at hb
        simp only [TcpBrokers.server_step, TcpBrokers.server_reset]
        refine ih _ _ 0 rfl (by decide) (fun _ => rfl) (zero_over_zero_append _ _ hlog ?_) hb
        intro r l b hm h0
        split_ifs at hm
        · simp at hm
          obtain ⟨h1, h2, _⟩ := hm
          exact h2 ▸ hz (by rw [← hr, ← h1]; exact h0)
        · simp at hm
      | shutdown =>
        simp only [TcpBrokers.server_step]
        rw [run_with_quit _ _ _ _ (by simp)]
        refine ⟨fun h => hz (by rw [← hr]; exact h), zero_over_zero_append _ _ hlog ?_⟩
        intro r l b hm
        simp at hm

theorem actors_zero_inv (es : List Actors.server_event) :
    ∀ (a : Actors.server_actor) (log : List Effect) (n : Nat),
      a.state.received = n → n < UINT64 → (n = 0 → a.state.lost = 0) → zero_over_zero log →
      Actors.burst_ok n a es = true →
      ((run_with Actors.server_step (a, log) es).1.state.received = 0 →
        (run_with Actors.server_step (a, log) es).1.state.lost = 0) ∧
      zero_over_zero (run_with Actors.server_step (a, log) es).2 := by
  induction es with
  | nil =>
    intro a log n hr _ hz hlog _
    exact ⟨fun h => hz (by rw [← hr]; exact h), hlog⟩
  | cons e es ih =>
    intro a log n hr hn hz hlog hb
    by_cases hq : stopped log
    · rw [run_with_stopped _ _ a log hq]
      exact ⟨fun h => hz (by rw [← hr]; exact h), hlog⟩
    · rw [run_with_cons _ _ _ a log hq]
      obtain ⟨beh, s⟩ := a
      have hr1 : s.received = n := hr
      have hz1 : n = 0 → s.lost = 0 := hz
      cases e with
      | start num =>
        cases beh with
        | idle =>
          simp only [Actors.burst_ok, Actors.server_step] at hb
          simp only [Actors.server_step]
          refine ih _ _ n hr1 hn (fun _ => rfl) (zero_over_zero_append _ _ hlog ?_) hb
          intro r l b hm
          simp at hm
        | measureing =>
          simp only [Actors.burst_ok, Actors.server_step] at hb
          simp only [Actors.server_step, List.append_nil]
          exact ih _ _ n hr1 hn hz1 hlog hb
      | data sz seq =>
        cases beh with
        | idle =>
          simp only [Actors.burst_ok, Actors.server_step] at hb
          simp only [Actors.server_step, List.append_nil]
          exact ih _ _ n hr1 hn hz1 hlog hb
        | measureing =>
          simp only [Actors.burst_ok, Actors.server_step, Bool.and_eq_true,
            decide_eq_true_eq] at hb
          have hc := (counts_actors s sz seq).1
          rw [hr1, Nat.mod_eq_of_lt hb.1] at hc
          simp only [Actors.server_step, List.append_nil]
          exact ih _ log (n + 1) hc hb.1 (by omega) hlog hb.2
      | reset =>
        cases beh with
        | idle =>
          simp only [Actors.burst_ok, Actors.server_step] at hb
          simp only [Actors.server_step, List.append_nil]
          exact ih _ _ n hr1 hn hz1 hlog hb
        | measureing =>
          simp only [Actors.burst_ok, Actors.server_step, Actors.measureing_server_reset] at hb
          simp only [Actors.server_step, Actors.measureing_server_reset]
          refine ih _ _ 0 rfl (by decide) (fun _ => rfl) (zero_over_zero_append _ _ hlog ?_) hb
          intro r l b hm h0
          simp at hm
          obtain ⟨h1, h2, _⟩ := hm
          exact h2 ▸ hz1 (by rw [← hr1, ← h1]; exact h0)
      | shutdown =>
        simp only [Actors.server_step]
        rw [run_with_quit _ _ _ _ (by simp)]
        refine ⟨fun h => hz1 (by rw [← hr1]; exact h), zero_over_zero_append _ _ hlog ?_⟩
        intro r l b hm
        simp at hm
      | timeout =>
        cases beh with
        | idle =>
          simp only [Actors.burst_ok, Actors.server_step] at hb
          simp only [Actors.server_step, List.append_nil]
          exact ih _ _ n hr1 hn hz1 hlog hb
        | measureing =>
          simp only [Actors.burst_ok, Actors.server_step] at hb
          simp only [Actors.server_step, List.append_nil]
          exact ih _ _ n hr1 hn hz1 hlog hb

end Caf

namespace Caf

/-! ## C16 -/

/-- C16: in every server variant, starting from the zero-initialised state
and with fewer than 2^64 data packets between two resets, every state reached
under any queue of events satisfies `received == 0` implies `lost == 0`; and
every report the reset handler has produced on the way that divides by
`received == 0` has the numerator `lost == 0`: the unguarded division is 0/0,
never a non-zero loss count divided by zero. -/
theorem C16_zero_received_zero_lost :
    (∀ es : List Actors.server_event, Actors.burst_ok 0 Actors.server_spawn.1 es = true →
      ((run_with Actors.server_step Actors.server_spawn es).1.state.received = 0 →
        (run_with Actors.server_step Actors.server_spawn es).1.state.lost = 0) ∧
      zero_over_zero (run_with Actors.server_step Actors.server_spawn es).2) ∧
    (∀ es : List Brokers.server_event, Brokers.burst_ok 0 es = true →
      ((run_with Brokers.server_step Brokers.server_init es).1.received = 0 →
        (run_with Brokers.server_step Brokers.server_init es).1.lost = 0) ∧
      zero_over_zero (run_with Brokers.server_step Brokers.server_init es).2) ∧
    (∀ es : List UdpBrokers.server_event, UdpBrokers.burst_ok 0 es = true →
      ((run_with UdpBrokers.server_step UdpBrokers.server_init es).1.received = 0 →
        (run_with UdpBrokers.server_step UdpBrokers.server_init es).1.lost = 0) ∧
      zero_over_zero (run_with UdpBrokers.server_step UdpBrokers.server_init es).2) ∧
    (∀ es : List TcpBrokers.server_event, TcpBrokers.burst_ok 0 es = true →
      ((run_with TcpBrokers.server_step TcpBrokers.server_init es).1.received = 0 →
        (run_with TcpBrokers.server_step TcpBrokers.server_init es).1.lost = 0) ∧
      zero_over_zero (run_with TcpBrokers.server_step TcpBrokers.server_init es).2) := by
  refine ⟨?_, ?_, ?_, ?_⟩
  · intro es hb
    refine actors_zero_inv es _ _ 0 rfl (by decide) (fun _ => rfl) ?_ hb
    intro r l b hm
    simp [Actors.server_spawn] at hm
  · intro es hb
    refine brokers_zero_inv es _ _ 0 rfl (by decide) (fun _ => rfl) ?_ hb
    intro r l b hm
    simp [Brokers.server_init] at hm
  · intro es hb
    refine udp_zero_inv es _ _ 0 rfl (by decide) (fun _ => rfl) ?_ hb
    intro r l b hm
    simp [UdpBrokers.server_init] at hm
  · intro es hb
    refine tcp_zero_inv es _ _ 0 rfl (by decide) (fun _ => rfl) ?_ hb
    intro r l b hm
    simp [TcpBrokers.server_init] at hm

/-- C16, instance: the udp_brokers.cpp server receives the packet 5 on a fresh
tracker (`lost == 5`), then two resets; the second reset divides 0 by 0. -/
theorem C16_zero_received_zero_lost_witness :
    UdpBrokers.burst_ok 0
      [UdpBrokers.server_event.new_datagram (packet 1024 5), UdpBrokers.server_event.reset,
       UdpBrokers.server_event.reset] = true ∧
    zero_over_zero (run_with UdpBrokers.server_step UdpBrokers.server_init
      [UdpBrokers.server_event.new_datagram (packet 1024 5), UdpBrokers.server_event.reset,
       UdpBrokers.server_event.reset]).2 ∧
    Effect.report 0 0 0 ∈ (run_with UdpBrokers.server_step UdpBrokers.server_init
      [UdpBrokers.server_event.new_datagram (packet 1024 5), UdpBrokers.server_event.reset,
       UdpBrokers.server_event.reset]).2 :=
  ⟨by decide,
   (C16_zero_received_zero_lost.2.2.1
      [UdpBrokers.server_event.new_datagram (packet 1024 5), UdpBrokers.server_event.reset,
       UdpBrokers.server_event.reset] (by decide)).2,
   by decide⟩

end Caf
